import Mathlib

/-!
# TinyDOS: the command interpreter's ELF loader (`tdsh.c`)

A shallow embedding of `load_and_run_elf` and of the helpers around it.
The operating system is an explicit parameter (`OS`): the file system, and the
outcome of every system call the loader issues.  The loader is a total function
from that environment to the list of system calls it issued, the text it
printed, the memory it mapped and the way it ended (process exit or jump).

Further parts embed the supervisor (`init.c`), the command loop of the
interpreter (`main` of `tdsh.c`) and the rows, cursor and keys of the editor
(`miniedit.c`).
-/

namespace TinyDOS

/-! ## Constants -/

/-- `#define CMD_BUF_SIZE 256` -/
def CMD_BUF_SIZE : Nat := 256
/-- `#define PATH_MAX_LEN 1024` -/
def PATH_MAX_LEN : Nat := 1024
/-- `#define STACK_ADDR 0x700000000000` -/
def STACK_ADDR : Nat := 0x700000000000
/-- `#define STACK_SIZE 0x200000 // 2MB` -/
def STACK_SIZE : Nat := 0x200000

/-- The four magic bytes `"\177ELF"` of `<elf.h>`. -/
def ELFMAG : List Nat := [0x7f, 0x45, 0x4c, 0x46]
def SELFMAG : Nat := 4
def EI_CLASS : Nat := 4
def ELFCLASS64 : Nat := 2
def EM_X86_64 : Nat := 62
def ET_EXEC : Nat := 2
def PT_LOAD : Nat := 1
def PF_X : Nat := 1
def PF_W : Nat := 2
def PF_R : Nat := 4
def PROT_READ : Nat := 1
def PROT_WRITE : Nat := 2
def PROT_EXEC : Nat := 4
def MAP_PRIVATE : Nat := 0x02
def MAP_FIXED : Nat := 0x10
def MAP_ANONYMOUS : Nat := 0x20
/-- The page size of x86-64 Linux: mappings cover whole pages. -/
def PAGE_SIZE : Nat := 4096
/-- The size of `Elf64_Ehdr`. -/
def EHDR_SIZE : Nat := 64
/-- The size of `Elf64_Phdr`. -/
def PHDR_SIZE : Nat := 56

/-! ## Bytes and the two ELF records -/

/-- The value of a little-endian byte string. -/
def leNat : List Nat → Nat
  | [] => 0
  | b :: bs => b + 256 * leNat bs

/-- The little-endian field of `len` bytes at offset `off` of a record. -/
def field (buf : List Nat) (off len : Nat) : Nat :=
  leNat ((buf.drop off).take len)

/-- The fields of `Elf64_Ehdr` the loader looks at. -/
structure Ehdr where
  e_ident : List Nat
  e_type : Nat
  e_machine : Nat
  e_entry : Nat
  e_phoff : Nat
  e_phnum : Nat
deriving DecidableEq, Repr

/-- The fields of `Elf64_Phdr` the loader looks at. -/
structure Phdr where
  p_type : Nat
  p_flags : Nat
  p_offset : Nat
  p_vaddr : Nat
  p_filesz : Nat
  p_memsz : Nat
deriving DecidableEq, Repr

/-- Layout of `Elf64_Ehdr` (64 bytes, little endian). -/
def parseEhdr (buf : List Nat) : Ehdr where
  e_ident := buf.take 16
  e_type := field buf 16 2
  e_machine := field buf 18 2
  e_entry := field buf 24 8
  e_phoff := field buf 32 8
  e_phnum := field buf 56 2

/-- Layout of `Elf64_Phdr` (56 bytes, little endian). -/
def parsePhdr (buf : List Nat) : Phdr where
  p_type := field buf 0 4
  p_flags := field buf 4 4
  p_offset := field buf 8 8
  p_vaddr := field buf 16 8
  p_filesz := field buf 32 8
  p_memsz := field buf 40 8

/-- A signed 64-bit value converted to `uint64_t`, as C does when an `ssize_t`
is compared with an unsigned 64-bit operand. -/
def toU64 (r : Int) : Nat := (r % (2 ^ 64 : Int)).toNat

/-! ## The operating system -/

/-- How the kernel answers one `read`. -/
inductive ReadResp
  | full
  | atMost (n : Nat)
  | error
deriving DecidableEq, Repr

/-- Number of bytes delivered by a read of `count` bytes with `avail` bytes left
before the end of the file. -/
def ReadResp.got : ReadResp → Nat → Nat → Nat
  | .full, count, avail => min count avail
  | .atMost n, count, avail => min n (min count avail)
  | .error, _, _ => 0

/-- The value `read` returns: the number of bytes, or -1. -/
def ReadResp.ret : ReadResp → Nat → Nat → Int
  | .full, count, avail => ((min count avail : Nat) : Int)
  | .atMost n, count, avail => ((min n (min count avail) : Nat) : Int)
  | .error, _, _ => -1

/-- The environment of one run.  `fs` gives the contents of the files that can
be opened for reading.  The other fields decide the individual system calls;
their argument is the number of system calls issued before the one decided. -/
structure OS where
  fs : List Char → Option (List Nat)
  readResp : Nat → ReadResp
  lseekOk : Nat → Bool
  mmapOk : Nat → Bool
  mprotectOk : Nat → Bool

/-- A system call as issued by the loader (arguments only). `read` carries the
byte count and the destination: `none` for a local record of the loader,
`some a` for the address `a`. -/
inductive Call
  | openRd (path : List Char)
  | read (count : Nat) (dst : Option Nat)
  | lseek (off : Nat)
  | mmap (addr len prot flags : Nat)
  | mprotect (addr len prot : Nat)
  | close
deriving DecidableEq, Repr

/-- Text written by the loader. -/
inductive Out
  | printf (s : List Char)
  | perror (s : List Char)
deriving DecidableEq, Repr

/-- One byte of memory mapped by the loader: its value and its protection. -/
structure Cell where
  val : Nat
  prot : Nat
deriving DecidableEq, Repr

/-- The memory mapped by the loader; `none` where the loader mapped nothing. -/
abbrev Mem := Nat → Option Cell

/-- A length rounded up to whole pages. -/
def pageRound (len : Nat) : Nat := (len + (PAGE_SIZE - 1)) / PAGE_SIZE * PAGE_SIZE

/-- A successful `mmap(addr, len, prot, MAP_PRIVATE|MAP_ANONYMOUS|MAP_FIXED)`:
fresh zero pages replace whatever was mapped in the range. -/
def Mem.map (m : Mem) (addr len prot : Nat) : Mem := fun a =>
  if addr ≤ a ∧ a < addr + pageRound len then some ⟨0, prot⟩ else m a

/-- A successful `mprotect(addr, len, prot)`. -/
def Mem.protect (m : Mem) (addr len prot : Nat) : Mem := fun a =>
  if addr ≤ a ∧ a < addr + pageRound len then
    (m a).map (fun c => ⟨c.val, prot⟩)
  else m a

/-- The kernel copies `data` to `addr`; only writable mapped bytes change. -/
def Mem.store (m : Mem) (addr : Nat) (data : List Nat) : Mem := fun a =>
  if addr ≤ a ∧ a < addr + data.length then
    (m a).map (fun c => if c.prot &&& PROT_WRITE ≠ 0 then ⟨data.getD (a - addr) 0, c.prot⟩ else c)
  else m a

/-! ## Registers and the final inline assembly -/

/-- The sixteen general-purpose registers of x86-64. -/
inductive Reg
  | rax | rbx | rcx | rdx | rsi | rdi | rbp | rsp
  | r8 | r9 | r10 | r11 | r12 | r13 | r14 | r15
deriving DecidableEq, Repr

/-- A register file. -/
abbrev Cpu := Reg → Nat

def Cpu.set (cpu : Cpu) (r : Reg) (v : Nat) : Cpu := fun q => if q = r then v else cpu q

/-- The three instructions used by the loader (AT&T operand order). -/
inductive Instr
  | mov (src dst : Reg)
  | xor (src dst : Reg)
  | jmp (r : Reg)
deriving DecidableEq, Repr

/-- How a run of the loader ends. -/
inductive Outcome
  | exit (status : Nat)
  | jump (cpu : Cpu) (target : Nat)
  | returned

def Outcome.status? : Outcome → Option Nat
  | .exit s => some s
  | _ => none

def Outcome.target? : Outcome → Option Nat
  | .jump _ t => some t
  | _ => none

def Outcome.cpu? : Outcome → Option Cpu
  | .jump c _ => some c
  | _ => none

/-- Straight-line execution; falling off the end is a return to the caller. -/
def exec : List Instr → Cpu → Outcome
  | [], _ => .returned
  | .mov s d :: is, cpu => exec is (cpu.set d (cpu s))
  | .xor s d :: is, cpu => exec is (cpu.set d (cpu d ^^^ cpu s))
  | .jmp r :: _, cpu => .jump cpu (cpu r)

/-- The registers the compiler chose for the operands `%0` and `%1` of the
`asm` statement (both have the constraint `"r"`). -/
structure AsmOperands where
  op0 : Reg
  op1 : Reg
deriving DecidableEq, Repr

/-- The template of the `asm volatile` statement of `load_and_run_elf`. -/
def asmTemplate (cc : AsmOperands) : List Instr :=
  [ .mov cc.op0 .rsp,
    .xor .rax .rax,
    .xor .rbx .rbx, .xor .rcx .rcx, .xor .rdx .rdx,
    .xor .rsi .rsi, .xor .rdi .rdi, .xor .rbp .rbp,
    .xor .r8 .r8, .xor .r9 .r9, .xor .r10 .r10,
    .xor .r11 .r11, .xor .r12 .r12, .xor .r13 .r13,
    .xor .r14 .r14, .xor .r15 .r15,
    .jmp cc.op1 ]

/-- The `asm` statement with its inputs: the compiler places `new_stack_top` in
`%0` and `e_entry` in `%1`, then the template runs. -/
def transfer (cc : AsmOperands) (regs : Cpu) (new_stack_top e_entry : Nat) : Outcome :=
  exec (asmTemplate cc) ((regs.set cc.op0 new_stack_top).set cc.op1 e_entry)

/-! ## Path helpers -/

def BACKSLASH : Char := Char.ofNat 92

/-- `normalize_path_to_linux`: drop a leading `C:` or `c:`, then turn every
backslash into a slash. -/
def normalize_path_to_linux (path : List Char) : List Char :=
  let p := match path with
    | c0 :: c1 :: rest => if (c0 = 'C' ∨ c0 = 'c') ∧ c1 = ':' then rest else path
    | _ => path
  p.map (fun c => if c = BACKSLASH then '/' else c)

/-- `format_path_for_dos`: the root becomes a single backslash; otherwise every
slash becomes a backslash. -/
def format_path_for_dos (linux_path : List Char) : List Char :=
  if linux_path = ['/'] then [BACKSLASH]
  else linux_path.map (fun c => if c = '/' then BACKSLASH else c)

/-! ## The state of a run -/

/-- What a run of the loader has done so far. `ret` is the value returned by the
last system call, `buf` the bytes the last `read` left in a local record,
`examined` the program-header records read so far, each with the file offset it
was read from. -/
structure LState where
  file : List Nat
  pos : Nat
  ret : Int
  buf : List Nat
  mem : Mem
  trace : List Call
  out : List Out
  examined : List (Nat × Phdr)

/-- The state at entry of `load_and_run_elf`. -/
def LState.init : LState where
  file := []
  pos := 0
  ret := 0
  buf := []
  mem := fun _ => none
  trace := []
  out := []
  examined := []

/-- `open(path, O_RDONLY)`: a descriptor (3) or -1. -/
def sys_open (os : OS) (st : LState) (path : List Char) : LState :=
  match os.fs path with
  | some bytes =>
    { st with trace := st.trace ++ [Call.openRd path], file := bytes, pos := 0, ret := 3 }
  | none => { st with trace := st.trace ++ [Call.openRd path], ret := -1 }

/-- `read(fd, &record, count)` into a local record of the loader. -/
def sys_read_buf (os : OS) (st : LState) (count : Nat) : LState :=
  let resp := os.readResp st.trace.length
  let avail := st.file.length - st.pos
  let data := (st.file.drop st.pos).take (resp.got count avail)
  { st with trace := st.trace ++ [Call.read count none],
            ret := resp.ret count avail,
            pos := st.pos + resp.got count avail,
            buf := data }

/-- `read(fd, (void*)addr, count)` into mapped memory. -/
def sys_read_mem (os : OS) (st : LState) (addr count : Nat) : LState :=
  let resp := os.readResp st.trace.length
  let avail := st.file.length - st.pos
  let data := (st.file.drop st.pos).take (resp.got count avail)
  { st with trace := st.trace ++ [Call.read count (some addr)],
            ret := resp.ret count avail,
            pos := st.pos + resp.got count avail,
            mem := st.mem.store addr data }

/-- `lseek(fd, off, SEEK_SET)`; the loader ignores the result. -/
def sys_lseek (os : OS) (st : LState) (off : Nat) : LState :=
  { st with trace := st.trace ++ [Call.lseek off],
            pos := if os.lseekOk st.trace.length then off else st.pos }

/-- `mmap(addr, len, prot, flags, -1, 0)`: the address, or `MAP_FAILED` (-1). -/
def sys_mmap (os : OS) (st : LState) (addr len prot flags : Nat) : LState :=
  { st with trace := st.trace ++ [Call.mmap addr len prot flags],
            ret := if os.mmapOk st.trace.length then (addr : Int) else -1,
            mem := if os.mmapOk st.trace.length then st.mem.map addr len prot else st.mem }

/-- `mprotect(addr, len, prot)`: 0 or -1. -/
def sys_mprotect (os : OS) (st : LState) (addr len prot : Nat) : LState :=
  { st with trace := st.trace ++ [Call.mprotect addr len prot],
            ret := if os.mprotectOk st.trace.length then 0 else -1,
            mem := if os.mprotectOk st.trace.length then st.mem.protect addr len prot else st.mem }

/-- `close(fd)`. -/
def sys_close (st : LState) : LState :=
  { st with trace := st.trace ++ [Call.close] }

def do_printf (st : LState) (s : List Char) : LState :=
  { st with out := st.out ++ [Out.printf s] }

def do_perror (st : LState) (s : List Char) : LState :=
  { st with out := st.out ++ [Out.perror s] }

/-- Either the loader goes on, or the process has ended. -/
inductive Step
  | cont (st : LState)
  | halt (st : LState) (o : Outcome)

/-! ## `load_and_run_elf` -/

/-- The three `if (phdr.p_flags & PF_x) prot |= PROT_x;` lines. -/
def protOf (p_flags : Nat) : Nat :=
  let prot := 0
  let prot := if p_flags &&& PF_R ≠ 0 then prot ||| PROT_READ else prot
  let prot := if p_flags &&& PF_W ≠ 0 then prot ||| PROT_WRITE else prot
  let prot := if p_flags &&& PF_X ≠ 0 then prot ||| PROT_EXEC else prot
  prot

/-- The body of `if (phdr.p_type == PT_LOAD) { ... }`. -/
def load_segment (os : OS) (st : LState) (phdr : Phdr) : Step :=
  let prot := protOf phdr.p_flags
  let st1 := sys_mmap os st phdr.p_vaddr phdr.p_memsz (prot ||| PROT_WRITE)
    (MAP_PRIVATE ||| MAP_ANONYMOUS ||| MAP_FIXED)
  if st1.ret = -1 then
    .halt (do_perror st1 "loader: mmap segment failed".toList) (.exit 1)
  else
    let st2 := sys_lseek os st1 phdr.p_offset
    let st3 := sys_read_mem os st2 phdr.p_vaddr phdr.p_filesz
    if toU64 st3.ret ≠ phdr.p_filesz then
      .halt (do_perror st3 "loader: failed to copy segment data".toList) (.exit 1)
    else
      let st4 := sys_mprotect os st3 phdr.p_vaddr phdr.p_memsz prot
      if st4.ret ≠ 0 then
        .halt (do_perror st4 "loader: mprotect failed".toList) (.exit 1)
      else .cont st4

/-- The loop `for (int i = 0; i < ehdr.e_phnum; ++i)`, by the number of
iterations left. -/
def load_segments (os : OS) : Nat → LState → Step
  | 0, st => .cont st
  | n + 1, st =>
    let st1 := sys_read_buf os st PHDR_SIZE
    if toU64 st1.ret ≠ PHDR_SIZE then
      .halt (sys_close (do_perror st1 "loader: failed to read program header".toList)) (.exit 1)
    else
      let phdr := parsePhdr st1.buf
      let st2 := { st1 with examined := st1.examined ++ [(st.pos, phdr)] }
      if phdr.p_type = PT_LOAD then
        match load_segment os st2 phdr with
        | .cont st3 => load_segments os n st3
        | .halt st3 o => .halt st3 o
      else load_segments os n st2

/-- The header test of `load_and_run_elf`. -/
def validEhdr (ehdr : Ehdr) : Bool :=
  ehdr.e_ident.take SELFMAG = ELFMAG ∧
  ehdr.e_ident.getD EI_CLASS 0 = ELFCLASS64 ∧
  ehdr.e_machine = EM_X86_64 ∧
  ehdr.e_type = ET_EXEC

/-- The end of `load_and_run_elf`: the stack and the jump. -/
def map_stack_and_jump (os : OS) (cc : AsmOperands) (regs : Cpu) (st : LState)
    (ehdr : Ehdr) : LState × Outcome :=
  let st1 := sys_close st
  let st2 := sys_mmap os st1 STACK_ADDR STACK_SIZE (PROT_READ ||| PROT_WRITE)
    (MAP_PRIVATE ||| MAP_ANONYMOUS ||| MAP_FIXED)
  if st2.ret = -1 then
    (do_perror st2 "loader: mmap for stack failed".toList, .exit 1)
  else
    let new_stack_top := STACK_ADDR + STACK_SIZE
    (st2, transfer cc regs new_stack_top ehdr.e_entry)

set_option linter.unusedVariables false in
/-- `void load_and_run_elf(const char* filepath, const char* original_command)`.
`cc` and `regs` are the register assignment of the final `asm` statement and the
registers of the loader just before it. -/
def load_and_run_elf (os : OS) (cc : AsmOperands) (regs : Cpu)
    (filepath original_command : List Char) : LState × Outcome :=
  let st1 := sys_open os LState.init filepath
  if st1.ret < 0 then
    let dos_path := format_path_for_dos filepath
    (do_printf st1 ("Bad command or file name: C:".toList ++ dos_path ++ "\n".toList),
      .exit 127)
  else
    let st2 := sys_read_buf os st1 EHDR_SIZE
    if toU64 st2.ret ≠ EHDR_SIZE then
      (sys_close (do_perror st2 "loader: failed to read ELF header".toList), .exit 1)
    else
      let ehdr := parseEhdr st2.buf
      if ¬ validEhdr ehdr then
        (sys_close (do_printf st2 ("loader: ".toList ++ [Char.ofNat 39] ++ filepath ++
            [Char.ofNat 39] ++ " is not a valid static x86-64 executable.\n".toList)),
          .exit 1)
      else
        let st3 := sys_lseek os st2 ehdr.e_phoff
        match load_segments os ehdr.e_phnum st3 with
        | .halt st4 o => (st4, o)
        | .cont st4 => map_stack_and_jump os cc regs st4 ehdr

/-! ## The external-command branch of `main` -/

/-- The copy `strncpy(original_command, command, sizeof(original_command) - 1)`
taken before the arguments are normalised. -/
def save_original_command (command : List Char) : List Char :=
  command.take (CMD_BUF_SIZE - 1)

/-- The path handed to the loader: an absolute command is copied, any other is
looked up in `/TinyDOS/System64/` (both cut to the size of `full_path`). -/
def resolve_full_path (command : List Char) : List Char :=
  if command.head? = some '/' then command.take (PATH_MAX_LEN - 1)
  else ("/TinyDOS/System64/".toList ++ command).take (PATH_MAX_LEN - 1)

/-- The forked child of the external-command branch, for the first token as
typed: `load_and_run_elf(full_path, original_command); exit(1);`. -/
def run_external_child (os : OS) (cc : AsmOperands) (regs : Cpu) (token : List Char) :
    LState × Outcome :=
  let original_command := save_original_command token
  let command := normalize_path_to_linux token
  let full_path := resolve_full_path command
  match load_and_run_elf os cc regs full_path original_command with
  | (st, .returned) => (st, .exit 1)
  | r => r

/-- The state after `open` and the read of the header. -/
def headerState (os : OS) (filepath : List Char) : LState :=
  sys_read_buf os (sys_open os LState.init filepath) EHDR_SIZE

/-! ## Observations on a run -/

/-- The calls that create or change a mapping. -/
def Call.isMapping : Call → Bool
  | .mmap _ _ _ _ => true
  | .mprotect _ _ _ => true
  | _ => false

def Call.isRead : Call → Bool
  | .read _ _ => true
  | _ => false

/-- The call at index `k` of the trace is an `mmap` or `mprotect` the kernel
refused. -/
def failedMappingAt (os : OS) (tr : List Call) (k : Nat) : Bool :=
  match tr[k]? with
  | some (.mmap _ _ _ _) => !os.mmapOk k
  | some (.mprotect _ _ _) => !os.mprotectOk k
  | _ => false

/-- A mapped byte is writable and executable at once. -/
def Cell.isWX (c : Cell) : Prop := c.prot &&& PROT_WRITE ≠ 0 ∧ c.prot &&& PROT_EXEC ≠ 0

/-- No byte mapped by the loader is writable and executable at once. -/
def NoWX (m : Mem) : Prop := ∀ a c, m a = some c → ¬ c.isWX

/-- The protection the permission flags of a segment stand for: read, write and
execute exactly when `PF_R` (4), `PF_W` (2) and `PF_X` (1) are set. -/
def specProt (p_flags : Nat) : Nat :=
  (if p_flags &&& 4 ≠ 0 then 1 else 0) ||| (if p_flags &&& 2 ≠ 0 then 2 else 0) |||
    (if p_flags &&& 1 ≠ 0 then 4 else 0)

/-- The calls the specification prescribes for one loadable entry: the mapping
(private, anonymous, fixed; final protection plus write), the copy, the final
protection. -/
def specSegmentCalls (ph : Phdr) : List Call :=
  [ Call.mmap ph.p_vaddr ph.p_memsz (specProt ph.p_flags ||| 2) 0x32,
    Call.lseek ph.p_offset,
    Call.read ph.p_filesz (some ph.p_vaddr),
    Call.mprotect ph.p_vaddr ph.p_memsz (specProt ph.p_flags) ]

/-- The calls the specification prescribes for a list of examined entries: each
record is read, and a loadable one is then mapped. -/
def specTableCalls : List Phdr → List Call
  | [] => []
  | ph :: rest =>
    Call.read 56 none :: ((if ph.p_type = 1 then specSegmentCalls ph else []) ++
      specTableCalls rest)

/-- No `mmap` or `mprotect` of the trace was refused. -/
def Good (os : OS) (tr : List Call) : Prop := ∀ k, failedMappingAt os tr k = false

/-- The last call of the trace is a refused `mmap` or `mprotect`, none before
it was refused, and the process exits with status 1. -/
def EndsAtFailure (os : OS) (tr : List Call) (o : Outcome) : Prop :=
  o = Outcome.exit 1 ∧ ∃ tr0 c, tr = tr0 ++ [c] ∧ Good os tr0 ∧
    failedMappingAt os (tr0 ++ [c]) tr0.length = true

/-! ## Sample inputs -/

/-- Little-endian encoding of `v` on `w` bytes. -/
def leBytes : Nat → Nat → List Nat
  | 0, _ => []
  | w + 1, v => v % 256 :: leBytes w (v / 256)

/-- An `Elf64_Ehdr` image. -/
def mkEhdr (cls e_type e_machine e_entry e_phoff e_phnum : Nat) : List Nat :=
  ELFMAG ++ [cls, 1, 1, 0] ++ List.replicate 8 0 ++ leBytes 2 e_type ++ leBytes 2 e_machine ++
  leBytes 4 1 ++ leBytes 8 e_entry ++ leBytes 8 e_phoff ++ leBytes 8 0 ++ leBytes 4 0 ++
  leBytes 2 64 ++ leBytes 2 56 ++ leBytes 2 e_phnum ++ leBytes 2 0 ++ leBytes 2 0 ++ leBytes 2 0

/-- An `Elf64_Phdr` image. -/
def mkPhdr (p_type p_flags p_offset p_vaddr p_filesz p_memsz : Nat) : List Nat :=
  leBytes 4 p_type ++ leBytes 4 p_flags ++ leBytes 8 p_offset ++ leBytes 8 p_vaddr ++
  leBytes 8 p_vaddr ++ leBytes 8 p_filesz ++ leBytes 8 p_memsz ++ leBytes 8 0x1000

/-- An operating system in which every call succeeds and the only file is
`path`, holding `bytes`. -/
def niceOS (path : List Char) (bytes : List Nat) : OS where
  fs := fun p => if p = path then some bytes else none
  readResp := fun _ => .full
  lseekOk := fun _ => true
  mmapOk := fun _ => true
  mprotectOk := fun _ => true

/-- A register assignment a compiler may choose: `%0` in rdi, `%1` in rax. -/
def sampleOperands : AsmOperands := ⟨.rdi, .rax⟩

/-- The registers a compiler can give to an operand with the constraint `"r"`:
every general-purpose register except the stack pointer. -/
def allocatable : List Reg :=
  [.rax, .rbx, .rcx, .rdx, .rsi, .rdi, .rbp, .r8, .r9, .r10, .r11, .r12, .r13, .r14, .r15]

/-- Some register contents of the loader before the `asm` statement. -/
def sampleRegs : Cpu := fun _ => 0xdeadbeef

def samplePath : List Char := "/TinyDOS/System64/prog".toList

/-- One read+execute segment: 3 bytes on disk, 8 in memory, at 0x400000;
entry point 0x401000. -/
def imageOneSegment : List Nat :=
  mkEhdr 2 2 62 0x401000 64 1 ++ mkPhdr 1 5 120 0x400000 3 8 ++ [0xAA, 0xBB, 0xCC, 0xDD]

/-- A header of a shared object (`e_type = ET_DYN = 3`), otherwise as above. -/
def imageSharedObject : List Nat :=
  mkEhdr 2 3 62 0x401000 64 1 ++ mkPhdr 1 5 120 0x400000 3 8 ++ [0xAA, 0xBB, 0xCC, 0xDD]

/-- A file of ten bytes: too short for an ELF header. -/
def imageTruncated : List Nat := [0x7f, 0x45, 0x4c, 0x46, 2, 1, 1, 0, 0, 0]

/-- One read+execute segment placed on the address of the stack region. -/
def imageOnStack : List Nat :=
  mkEhdr 2 2 62 0x700000000000 64 1 ++ mkPhdr 1 5 120 0x700000000000 4 4096 ++
    [0xAA, 0xBB, 0xCC, 0xDD]

/-- One segment whose flags are read+write+execute. -/
def imageRWX : List Nat :=
  mkEhdr 2 2 62 0x400000 64 1 ++ mkPhdr 1 7 120 0x400000 4 4096 ++ [0xAA, 0xBB, 0xCC, 0xDD]

/-- Two loadable entries in the table (at 64 and at 120): text at 0x400000 with
4 bytes at file offset 176, data at 0x600000 with 4 bytes at file offset 180;
the file is padded with zero bytes up to offset 240. -/
def imageTwoSegments : List Nat :=
  mkEhdr 2 2 62 0x400000 64 2 ++ mkPhdr 1 5 176 0x400000 4 4096 ++
    mkPhdr 1 6 180 0x600000 4 4096 ++ [0xAA, 0xBB, 0xCC, 0xDD, 0x11, 0x22, 0x33, 0x44] ++
    List.replicate 56 0

/-- As `niceOS`, except that the system call number `k` fails when it is an
`mmap` or an `mprotect`. -/
def failingOS (path : List Char) (bytes : List Nat) (k : Nat) : OS where
  fs := fun p => if p = path then some bytes else none
  readResp := fun _ => .full
  lseekOk := fun _ => true
  mmapOk := fun i => i != k
  mprotectOk := fun i => i != k

/-! # tdsh.c: the stages of `load_and_run_elf` as steps -/

/-- The part of `load_and_run_elf` that walks the program-header table, as a
step from the state left by the header stage. -/
def tableStep (os : OS) (filepath : List Char) : Step :=
  load_segments os (parseEhdr (headerState os filepath).buf).e_phnum
    (sys_lseek os (headerState os filepath) (parseEhdr (headerState os filepath).buf).e_phoff)

def Step.isCont : Step → Bool
  | .cont _ => true
  | .halt _ _ => false

def Step.state : Step → LState
  | .cont st => st
  | .halt st _ => st

/-! # init.c: the supervisor -/

/-- `const char* SHELL_PATH = "/TinyDOS/system32/tdsh";` -/
def SHELL_PATH : List Char := "/TinyDOS/system32/tdsh".toList
def SIGINT : Nat := 2
def SIGTERM : Nat := 15
def WNOHANG : Nat := 1
def RB_POWER_OFF : Nat := 0x4321fedc
def RB_AUTOBOOT : Nat := 0x01234567

/-- The signal handlers defined in `init.c`. -/
inductive Handler
  | handle_shutdown_signal
deriving DecidableEq, Repr

/-- A library or system call issued by the supervisor (arguments only). -/
inductive SvCall
  | getpid
  | signal (signum : Nat) (handler : Handler)
  | fork
  | execve (path : List Char) (argv envp : List (List Char))
  | waitpid (pid : Int) (options : Nat)
  | sleep (seconds : Nat)
  | printf (s : List Char)
  | sync
  | reboot (cmd : Nat)
deriving DecidableEq, Repr

/-- The environment of one run of the supervisor.  `forkRet`, `execOk`,
`waitRet` and `signalAt` take the number of calls the main program has issued
so far: the value `fork` returns, whether `execve` replaces the process, the
value `waitpid` returns, and the signal (if any) delivered just before the next
call.  `rebootOk` takes the number of events before a `reboot` request and tells
whether the request takes effect (the call then does not return). -/
structure SvOS where
  pid : Int
  forkRet : Nat → Int
  execOk : Nat → Bool
  waitRet : Nat → Int
  signalAt : Nat → Option Nat
  rebootOk : Nat → Bool

/-- How a run of the supervisor process ends; `running` means that it is still
executing when the observation stops. -/
inductive SvOutcome
  | returned (status : Int)
  | exited (status : Int)
  | replaced
  | poweredOff
  | running
deriving DecidableEq, Repr

/-- What the supervisor has done so far: `ops` are the calls of the main
program in program order, `trace` all calls including those of the signal
handler, `handlers` the installed handlers, `ret` the value of the last call,
`reaped` the positive values returned by `waitpid`. -/
structure SvState where
  ret : Int
  handlers : List (Nat × Handler)
  ops : List SvCall
  trace : List SvCall
  reaped : List Int
deriving DecidableEq, Repr

def SvState.init : SvState where
  ret := 0
  handlers := []
  ops := []
  trace := []
  reaped := []

/-- Either the supervisor goes on, or the process (or the machine) has ended. -/
inductive SvStep
  | cont (st : SvState)
  | halt (st : SvState) (o : SvOutcome)
deriving DecidableEq, Repr

/-- The state carried by a step. -/
def SvStep.state : SvStep → SvState
  | .cont st => st
  | .halt st _ => st

/-- The list `b` continues the list `a`. -/
def Extends {α : Type} (a b : List α) : Prop := ∃ r, b = a ++ r

set_option linter.unusedVariables false in
/-- `void handle_shutdown_signal(int sig)`: message, `sync()`,
`reboot(RB_POWER_OFF)`; the function returns when `reboot` returns. -/
def handle_shutdown_signal (os : SvOS) (st : SvState) (sig : Nat) : SvStep :=
  let st1 := { st with trace := st.trace ++
    [SvCall.printf "\nInit: Shutdown signal received. Powering off.\n".toList] }
  let st2 := { st1 with trace := st1.trace ++ [SvCall.sync] }
  let st3 := { st2 with trace := st2.trace ++ [SvCall.reboot RB_POWER_OFF] }
  if os.rebootOk st2.trace.length then .halt st3 .poweredOff else .cont st3

/-- Delivery of the signal that is pending before the next call, if a handler is
installed for it (signals without a handler are not modelled). -/
def deliver (os : SvOS) (st : SvState) : SvStep :=
  match os.signalAt st.ops.length with
  | none => .cont st
  | some sig =>
    match st.handlers.lookup sig with
    | none => .cont st
    | some Handler.handle_shutdown_signal => handle_shutdown_signal os st sig

/-- One call of the main program returning `r`, after the delivery of a pending
signal. -/
def sv_call (os : SvOS) (st : SvState) (c : SvCall) (r : Int) : SvStep :=
  match deliver os st with
  | .halt st1 o => .halt st1 o
  | .cont st1 => .cont { st1 with ops := st1.ops ++ [c], trace := st1.trace ++ [c], ret := r }

/-- `getpid()`. -/
def sv_getpid (os : SvOS) (st : SvState) : SvStep :=
  sv_call os st SvCall.getpid os.pid

/-- `signal(signum, handler)`. -/
def sv_signal (os : SvOS) (st : SvState) (signum : Nat) (handler : Handler) : SvStep :=
  match sv_call os st (SvCall.signal signum handler) 0 with
  | .halt st1 o => .halt st1 o
  | .cont st1 => .cont { st1 with handlers := (signum, handler) :: st1.handlers }

/-- `fork()`. -/
def sv_fork (os : SvOS) (st : SvState) : SvStep :=
  sv_call os st SvCall.fork (os.forkRet st.ops.length)

/-- `sleep(seconds)`. -/
def sv_sleep (os : SvOS) (st : SvState) (seconds : Nat) : SvStep :=
  sv_call os st (SvCall.sleep seconds) 0

/-- `waitpid(pid, NULL, options)`. -/
def sv_waitpid (os : SvOS) (st : SvState) (pid : Int) (options : Nat) : SvStep :=
  match sv_call os st (SvCall.waitpid pid options) (os.waitRet st.ops.length) with
  | .halt st1 o => .halt st1 o
  | .cont st1 =>
    .cont { st1 with reaped := if st1.ret > 0 then st1.reaped ++ [st1.ret] else st1.reaped }

/-- `execve(path, argv, envp)`: the process is replaced, or the call returns -1. -/
def sv_execve (os : SvOS) (st : SvState) (path : List Char) (argv envp : List (List Char)) :
    SvStep :=
  match sv_call os st (SvCall.execve path argv envp) (-1) with
  | .halt st1 o => .halt st1 o
  | .cont st1 => if os.execOk st.ops.length then .halt st1 .replaced else .cont st1

/-- `while(waitpid(-1, NULL, WNOHANG) > 0);`, by the number of iterations
observed. -/
def reap_sweep (os : SvOS) : Nat → SvState → SvStep
  | 0, st => .halt st .running
  | f + 1, st =>
    match sv_waitpid os st (-1) WNOHANG with
    | .halt st1 o => .halt st1 o
    | .cont st1 => if st1.ret > 0 then reap_sweep os f st1 else .cont st1

/-- The loop `while (1) { ... }` of `main`, by the number of iterations
observed. -/
def supervise (os : SvOS) : Nat → SvState → SvState × SvOutcome
  | 0, st => (st, .running)
  | f + 1, st =>
    match sv_fork os st with
    | .halt st1 o => (st1, o)
    | .cont st1 =>
      let pid := st1.ret
      if pid < 0 then
        match sv_sleep os st1 5 with
        | .halt st2 o => (st2, o)
        | .cont st2 => supervise os f st2
      else if pid = 0 then
        match sv_execve os st1 SHELL_PATH [SHELL_PATH] ["PATH=/TinyDOS/system32".toList] with
        | .halt st2 o => (st2, o)
        | .cont st2 => (st2, .exited 1)
      else
        match sv_waitpid os st1 pid 0 with
        | .halt st2 o => (st2, o)
        | .cont st2 =>
          match reap_sweep os f st2 with
          | .halt st3 o => (st3, o)
          | .cont st3 =>
            match sv_sleep os st3 2 with
            | .halt st4 o => (st4, o)
            | .cont st4 => supervise os f st4

set_option linter.unusedVariables false in
/-- `int main(int argc, char* argv[])` of `init.c`, with the environment of the
process; `fuel` bounds the number of loop iterations observed. -/
def init_main (os : SvOS) (fuel : Nat) (argv environ : List (List Char)) :
    SvState × SvOutcome :=
  match sv_getpid os SvState.init with
  | .halt st1 o => (st1, o)
  | .cont st1 =>
    if st1.ret ≠ 1 then (st1, .returned 1)
    else
      match sv_signal os st1 SIGTERM Handler.handle_shutdown_signal with
      | .halt st2 o => (st2, o)
      | .cont st2 =>
        match sv_signal os st2 SIGINT Handler.handle_shutdown_signal with
        | .halt st3 o => (st3, o)
        | .cont st3 => supervise os fuel st3

/-- A supervisor environment: process id `pid`, `fork` returns `forkRet k`,
`waitpid` returns `waitRet k`, `execve` fails, no signal arrives. -/
def quietSvOS (pid : Int) (forkRet waitRet : Nat → Int) : SvOS where
  pid := pid
  forkRet := forkRet
  execOk := fun _ => false
  waitRet := waitRet
  signalAt := fun _ => none
  rebootOk := fun _ => false

/-- The state of the supervisor after its first call, `getpid`. -/
def afterGetpid (os : SvOS) : SvState where
  ret := os.pid
  handlers := []
  ops := [SvCall.getpid]
  trace := [SvCall.getpid]
  reaped := []

/-- The calls of `n` failed attempts to fork: each `fork` is followed by
`sleep(5)`. -/
def retryCalls : Nat → List SvCall
  | 0 => []
  | n + 1 => SvCall.fork :: SvCall.sleep 5 :: retryCalls n

/-- The event at index `i` of the trace is a `reboot` request that took
effect. -/
def powerOffAt (os : SvOS) (tr : List SvCall) (i : Nat) : Bool :=
  match tr[i]? with
  | some (.reboot _) => os.rebootOk i
  | _ => false

/-- No `reboot` request of the trace took effect. -/
def GoodSv (os : SvOS) (tr : List SvCall) : Prop := ∀ i, powerOffAt os tr i = false

/-- The last event of the trace is a `reboot` request that took effect, none
before it did, and the machine is powered off. -/
def EndsPoweredOff (os : SvOS) (tr : List SvCall) (o : SvOutcome) : Prop :=
  o = SvOutcome.poweredOff ∧ ∃ tr0 c, tr = tr0 ++ [c] ∧ GoodSv os tr0 ∧
    powerOffAt os (tr0 ++ [c]) tr0.length = true

/-- What is known of the trace after a step: no `reboot` request took effect,
unless the step ended the run by the power-off itself. -/
def SvInv (os : SvOS) : SvStep → Prop
  | .cont st => GoodSv os st.trace
  | .halt st o => GoodSv os st.trace ∨ EndsPoweredOff os st.trace o

def SvCall.isReboot : SvCall → Bool
  | .reboot _ => true
  | _ => false

/-- A supervisor environment in which SIGTERM arrives while the first session
runs (before the fifth call of the main program); every `fork` returns 9, no
other descendant is waiting to be reaped, and `reboot` takes effect or not. -/
def sigtermSvOS (rebootOk : Bool) : SvOS where
  pid := 1
  forkRet := fun _ => 9
  execOk := fun _ => false
  waitRet := fun _ => 0
  signalAt := fun k => if k = 4 then some SIGTERM else none
  rebootOk := fun _ => rebootOk

/-- A supervisor environment without signals: the first `fork` fails, the later
ones return 77; the blocking wait returns 77, then two orphans (pids 5 and 6)
are reaped and the next sweep call returns 0. -/
def sampleSvOS : SvOS :=
  quietSvOS 1 (fun k => if k = 3 then -1 else 77)
    (fun k => if k = 6 then 77 else if k = 7 then 5 else if k = 8 then 6 else 0)

/-- The state of the supervisor at the head of the loop after one failed
`fork` (environment `sampleSvOS`). -/
def sampleLoopState : SvState where
  ret := 0
  handlers := [(SIGINT, Handler.handle_shutdown_signal), (SIGTERM, Handler.handle_shutdown_signal)]
  ops := [SvCall.getpid, SvCall.signal SIGTERM Handler.handle_shutdown_signal,
    SvCall.signal SIGINT Handler.handle_shutdown_signal, SvCall.fork, SvCall.sleep 5]
  trace := [SvCall.getpid, SvCall.signal SIGTERM Handler.handle_shutdown_signal,
    SvCall.signal SIGINT Handler.handle_shutdown_signal, SvCall.fork, SvCall.sleep 5]
  reaped := []

/-- The state of the supervisor just before the sweep of the first session
(environment `sampleSvOS`). -/
def sampleSweepState : SvState where
  ret := 77
  handlers := [(SIGINT, Handler.handle_shutdown_signal), (SIGTERM, Handler.handle_shutdown_signal)]
  ops := [SvCall.getpid, SvCall.signal SIGTERM Handler.handle_shutdown_signal,
    SvCall.signal SIGINT Handler.handle_shutdown_signal, SvCall.fork, SvCall.sleep 5,
    SvCall.fork, SvCall.waitpid 77 0]
  trace := [SvCall.getpid, SvCall.signal SIGTERM Handler.handle_shutdown_signal,
    SvCall.signal SIGINT Handler.handle_shutdown_signal, SvCall.fork, SvCall.sleep 5,
    SvCall.fork, SvCall.waitpid 77 0]
  reaped := [77]

/-- The state of the supervisor after `getpid` and the two calls of `signal`. -/
def sampleInstalledState : SvState where
  ret := 0
  handlers := [(SIGINT, Handler.handle_shutdown_signal), (SIGTERM, Handler.handle_shutdown_signal)]
  ops := [SvCall.getpid, SvCall.signal SIGTERM Handler.handle_shutdown_signal,
    SvCall.signal SIGINT Handler.handle_shutdown_signal]
  trace := [SvCall.getpid, SvCall.signal SIGTERM Handler.handle_shutdown_signal,
    SvCall.signal SIGINT Handler.handle_shutdown_signal]
  reaped := []

/-! # tdsh.c: the command loop of `main` -/

/-- `#define MAX_ARGS 32` -/
def MAX_ARGS : Nat := 32

/-- `input_buf[strcspn(input_buf, "\n")] = 0;` -/
def strip_newline (input : List Char) : List Char :=
  input.takeWhile (fun c => c != '\n')

/-- The `strtok(..., " ")` loop: the non-empty pieces between spaces, at most
`MAX_ARGS - 1` of them. -/
def tokenize (line : List Char) : List (List Char) :=
  ((line.splitOn ' ').filter (fun t => !t.isEmpty)).take (MAX_ARGS - 1)

/-- A call issued by one pass of the command loop; `helper` stands for a call
of a helper or library function on string arguments. -/
inductive ShCall
  | printf (s : List Char)
  | perror (s : List Char)
  | helper (name : List Char) (args : List (List Char))
  | sync
  | reboot (cmd : Nat)
  | fork
  | wait
deriving DecidableEq, Repr

/-- How one pass of the command loop ends: the next pass (`loop`), the `break`
out of the loop after which `main` returns 0 (`leave`), the machine restarting,
or, in a forked child, the two arguments of its call of `load_and_run_elf` and
the end of that child process. -/
inductive ShEnd
  | loop
  | leave
  | restarted
  | child (filepath original_command : List Char) (run : LState × Outcome)

/-- The environment of one pass of the command loop: the environment of the
loader, the value returned by `fork`, whether `reboot(RB_AUTOBOOT)` takes
effect, and the prompt text. -/
structure ShEnv where
  os : OS
  cc : AsmOperands
  regs : Cpu
  forkRet : Int
  rebootOk : Bool
  dos_prompt : List Char

/-- `load_and_run_elf(...); exit(1);` in the child. -/
def exit_if_returned : LState × Outcome → LState × Outcome
  | (st, .returned) => (st, .exit 1)
  | r => r

/-- One pass of `while (1) { ... }` of `main` for the text read by `fgets`. -/
def shell_command (env : ShEnv) (input : List Char) : List ShCall × ShEnd :=
  let line := strip_newline input
  if line.length = 0 then ([], .loop)
  else
    match tokenize line with
    | [] => ([], .loop)
    | token :: rest =>
      let original_command := save_original_command token
      let command := normalize_path_to_linux token
      let args := rest.map normalize_path_to_linux
      if command = "?".toList ∨ command = "help".toList then
        ([.helper "show_help".toList []], .loop)
      else if command = "about".toList then
        ([.helper "show_about".toList []], .loop)
      else if command = "ver".toList then
        ([.helper "show_version".toList []], .loop)
      else if command = "cls".toList then
        ([.printf "\x1b[2J\x1b[H".toList], .loop)
      else if command = "echo".toList then
        (args.map (fun a => ShCall.printf (a ++ " ".toList)) ++ [.printf "\n".toList], .loop)
      else if command = "type".toList then
        match args with
        | [] => ([.printf "Syntax: type [filename]\n".toList], .loop)
        | a1 :: _ => ([.helper "type".toList [a1]], .loop)
      else if command = "copy".toList then
        match args with
        | a1 :: a2 :: _ => ([.helper "copy_file".toList [a1, a2]], .loop)
        | _ => ([.printf "Syntax: copy [source] [destination]\n".toList], .loop)
      else if command = "xcopy".toList then
        match args with
        | a1 :: a2 :: _ => ([.helper "do_xcopy".toList [a1, a2]], .loop)
        | _ => ([.printf "Syntax: xcopy [source] [destination]\n".toList], .loop)
      else if command = "del".toList ∨ command = "erase".toList then
        match args with
        | [] => ([.printf "Syntax: del [filename]\n".toList], .loop)
        | a1 :: _ => ([.helper "remove".toList [a1]], .loop)
      else if command = "ren".toList ∨ command = "rename".toList ∨ command = "move".toList then
        match args with
        | a1 :: a2 :: _ => ([.helper "rename".toList [a1, a2]], .loop)
        | _ => ([.printf "Syntax: ren [old_name] [new_name]\n".toList], .loop)
      else if command = "md".toList ∨ command = "mkdir".toList then
        match args with
        | [] => ([.printf "Syntax: md [directory]\n".toList], .loop)
        | a1 :: _ => ([.helper "mkdir".toList [a1]], .loop)
      else if command = "rd".toList ∨ command = "rmdir".toList then
        match args with
        | [] => ([.printf "Syntax: rd [directory]\n".toList], .loop)
        | a1 :: _ => ([.helper "rmdir".toList [a1]], .loop)
      else if command = "cd".toList ∨ command = "chdir".toList then
        match args with
        | [] => ([.printf ("C:".toList ++ env.dos_prompt ++ "\n".toList)], .loop)
        | a1 :: _ => ([.helper "chdir".toList [a1]], .loop)
      else if command = "dir".toList then
        match args with
        | [] => ([.helper "do_dir".toList [".".toList]], .loop)
        | a1 :: _ => ([.helper "do_dir".toList [a1]], .loop)
      else if command = "reboot".toList then
        ([.printf "Rebooting system...\n".toList, .sync, .reboot RB_AUTOBOOT],
          if env.rebootOk then .restarted else .loop)
      else if command = "exit".toList ∨ command = "shutdown".toList then
        ([.printf "Shutting down system...\n".toList], .leave)
      else
        let full_path := resolve_full_path command
        if env.forkRet = 0 then
          ([.fork], .child full_path original_command (exit_if_returned
            (load_and_run_elf env.os env.cc env.regs full_path original_command)))
        else if env.forkRet > 0 then
          ([.fork, .wait], .loop)
        else
          ([.fork, .perror "shell: fork".toList], .loop)

/-- The names of the built-in commands, as the command reference lists them. -/
def builtinNames : List (List Char) :=
  ["?", "help", "about", "ver", "cls", "echo", "type", "copy", "xcopy", "del", "erase", "ren",
    "rename", "move", "md", "mkdir", "rd", "rmdir", "cd", "chdir", "dir", "reboot", "exit",
    "shutdown"].map String.toList

/-- An environment of the command loop in which `fork` returns `forkRet` and
the loader runs in `niceOS` with the file `samplePath`. -/
def sampleShEnv (forkRet : Int) : ShEnv where
  os := niceOS samplePath imageOneSegment
  cc := sampleOperands
  regs := sampleRegs
  forkRet := forkRet
  rebootOk := false
  dos_prompt := [BACKSLASH]

/-! # Further sample inputs of the loader -/

/-- As `niceOS`, except that the `read` issued as system call number `k` fails
(returns -1). -/
def readErrorOS (path : List Char) (bytes : List Nat) (k : Nat) : OS where
  fs := fun p => if p = path then some bytes else none
  readResp := fun i => if i = k then .error else .full
  lseekOk := fun _ => true
  mmapOk := fun _ => true
  mprotectOk := fun _ => true

/-- One read+execute segment whose `p_filesz` is 2^64 - 1 (all bits set). -/
def imageHugeFilesz : List Nat :=
  mkEhdr 2 2 62 0x401000 64 1 ++ mkPhdr 1 5 120 0x400000 0xFFFFFFFFFFFFFFFF 8 ++
    [0xAA, 0xBB, 0xCC, 0xDD]

/-- A valid header with an empty program-header table; entry point 0x401000. -/
def imageNoSegments : List Nat := mkEhdr 2 2 62 0x401000 64 0

/-- The exit status of a step that ended the process. -/
def Step.status? : Step → Option Nat
  | .cont _ => none
  | .halt _ o => o.status?

/-- A call without its address argument. -/
def Call.shape : Call → Call
  | .mmap _ len prot flags => .mmap 0 len prot flags
  | .mprotect _ len prot => .mprotect 0 len prot
  | .read count (some _) => .read count (some 0)
  | c => c

/-- A call of `reboot`, whatever its argument. -/
def ShCall.isReboot : ShCall → Bool
  | .reboot _ => true
  | _ => false

/-! # The search path and the directory of external programs -/

/-- The value of the variable `name` in an environment of entries
`name=value`, as `getenv` finds it. -/
def envValue (name : List Char) (envp : List (List Char)) : Option (List Char) :=
  (envp.find? (fun e => (name ++ ['=']).isPrefixOf e)).map (fun e => e.drop (name.length + 1))

/-- The environment handed to the first `execve` among the calls. -/
def execveEnvp : List SvCall → Option (List (List Char))
  | [] => none
  | .execve _ _ envp :: _ => some envp
  | _ :: rest => execveEnvp rest

/-- The path starts with `C:` or `c:`. -/
def hasDrivePrefix : List Char → Bool
  | c0 :: c1 :: _ => (c0 = 'C' ∨ c0 = 'c') ∧ c1 = ':'
  | _ => false

/-! # miniedit.c: rows, cursor and keys

The buffer is the list of its rows, each row the list of its `size` characters;
`numrows` is the length of that list.  The screen output and the message bar
are left out.  An access to `E.row[i]` with `i` outside `0 .. numrows - 1` is
undefined behaviour in C; the model stops there with `EdResult.fault`. -/

/-- `#define TAB_STOP 8` -/
def TAB_STOP : Int := 8
/-- `#define QUIT_TIMES 2` -/
def QUIT_TIMES : Int := 2
/-- `#define CTRL_KEY(k) ((k) & 0x1f)` -/
def CTRL_KEY (k : Char) : Int := ((k.toNat &&& 0x1f : Nat) : Int)
def MODE_GENERAL : Int := 0
def MODE_EDIT : Int := 1

/-- `enum editorKey` -/
def BACKSPACE : Int := 127
def ARROW_LEFT : Int := 1000
def ARROW_RIGHT : Int := 1001
def ARROW_UP : Int := 1002
def ARROW_DOWN : Int := 1003
def DEL_KEY : Int := 1004
def HOME_KEY : Int := 1005
def END_KEY : Int := 1006
def PAGE_UP : Int := 1007
def PAGE_DOWN : Int := 1008

/-- `struct editorConfig E`, with the static `quit_times` of
`editorProcessKeypress`. -/
structure editorConfig where
  cx : Int
  cy : Int
  rx : Int
  rowoff : Int
  coloff : Int
  screenrows : Int
  screencols : Int
  row : List (List Char)
  filename : Option (List Char)
  dirty : Int
  show_linenums : Int
  search_direction : Int
  mode : Int
  quit_times : Int
deriving DecidableEq, Repr

/-- `E.numrows` -/
def editorConfig.numrows (E : editorConfig) : Int := (E.row.length : Int)

/-- `E.row[i]`, when `i` is inside the array. -/
def editorConfig.rowAt (E : editorConfig) (i : Int) : Option (List Char) :=
  if 0 ≤ i ∧ i < E.numrows then E.row[i.toNat]? else none

/-- How a function of the editor ends: it returns, the process exits, or the
behaviour is undefined. -/
inductive EdResult
  | ok (E : editorConfig)
  | exit (E : editorConfig) (status : Int)
  | fault (E : editorConfig)
deriving DecidableEq, Repr

def EdResult.andThen (r : EdResult) (f : editorConfig → EdResult) : EdResult :=
  match r with
  | .ok E => f E
  | r => r

def EdResult.config : EdResult → editorConfig
  | .ok E => E
  | .exit E _ => E
  | .fault E => E

/-- What the terminal and the file system supply while one key is handled:
the key read by `editorReadKey`, the text `editorPrompt` returns if it is called
(`none` for a cancelled prompt), and whether `editorSave` manages to write the
file. -/
structure KeyEvent where
  c : Int
  reply : Option (List Char)
  written : Bool
deriving DecidableEq, Repr

/-- `void initEditor()`, for a window of `ws_row` rows and `ws_col` columns. -/
def initEditor (ws_row ws_col : Int) : editorConfig where
  cx := 0
  cy := 0
  rx := 0
  rowoff := 0
  coloff := 0
  screenrows := ws_row - 2
  screencols := ws_col
  row := []
  filename := none
  dirty := 0
  show_linenums := 0
  search_direction := 1
  mode := MODE_GENERAL
  quit_times := QUIT_TIMES

/-- `int editorRowCxToRx(erow *row, int cx)` -/
def editorRowCxToRx (row : List Char) (cx : Int) : Int :=
  (List.range cx.toNat).foldl
    (fun rx j =>
      (if row.getD j (Char.ofNat 0) = '\t' then rx + ((TAB_STOP - 1) - (rx % TAB_STOP)) else rx)
        + 1)
    0

/-- `void editorInsertRow(int at, char *s, size_t len)` -/
def editorInsertRow (E : editorConfig) (at_ : Int) (s : List Char) : editorConfig :=
  if at_ < 0 ∨ at_ > E.numrows then E
  else { E with row := E.row.take at_.toNat ++ [s] ++ E.row.drop at_.toNat,
                dirty := E.dirty + 1 }

/-- `void editorDelRow(int at)` -/
def editorDelRow (E : editorConfig) (at_ : Int) : editorConfig :=
  if at_ < 0 ∨ at_ ≥ E.numrows then E
  else { E with row := E.row.eraseIdx at_.toNat, dirty := E.dirty + 1 }

/-- The characters of a row after `editorRowInsertChar(row, at, c)`. -/
def editorRowInsertChar (row : List Char) (at_ : Int) (c : Int) : List Char :=
  let at_ := if at_ < 0 ∨ at_ > (row.length : Int) then (row.length : Int) else at_
  row.take at_.toNat ++ [Char.ofNat (c % 256).toNat] ++ row.drop at_.toNat

/-- The characters of a row after `editorRowDelChar(row, at)`; `none` when the
function returns at once. -/
def editorRowDelChar (row : List Char) (at_ : Int) : Option (List Char) :=
  if at_ < 0 ∨ at_ ≥ (row.length : Int) then none
  else some (row.eraseIdx at_.toNat)

/-- `void editorInsertChar(int c)` -/
def editorInsertChar (E : editorConfig) (c : Int) : EdResult :=
  let E1 := if E.cy = E.numrows then editorInsertRow E E.numrows [] else E
  match E1.rowAt E1.cy with
  | none => .fault E1
  | some row =>
    .ok { E1 with row := E1.row.set E1.cy.toNat (editorRowInsertChar row E1.cx c),
                  dirty := E1.dirty + 1,
                  cx := E1.cx + 1 }

/-- `void editorInsertNewline()` -/
def editorInsertNewline (E : editorConfig) : EdResult :=
  if E.cx = 0 then
    let E1 := editorInsertRow E E.cy []
    .ok { E1 with cy := E1.cy + 1, cx := 0 }
  else
    match E.rowAt E.cy with
    | none => .fault E
    | some row =>
      if E.cx < 0 ∨ E.cx > (row.length : Int) then .fault E
      else
        let E1 := editorInsertRow E (E.cy + 1) (row.drop E.cx.toNat)
        let E2 := { E1 with row := E1.row.set E1.cy.toNat (row.take E.cx.toNat) }
        .ok { E2 with cy := E2.cy + 1, cx := 0 }

/-- `void editorDelChar()` -/
def editorDelChar (E : editorConfig) : EdResult :=
  if E.cy = E.numrows then .ok E
  else if E.cx = 0 ∧ E.cy = 0 then .ok E
  else if E.cx > 0 then
    match E.rowAt E.cy with
    | none => .fault E
    | some row =>
      match editorRowDelChar row (E.cx - 1) with
      | none => .ok { E with cx := E.cx - 1 }
      | some row1 =>
        .ok { E with row := E.row.set E.cy.toNat row1, dirty := E.dirty + 1, cx := E.cx - 1 }
  else
    match E.rowAt (E.cy - 1), E.rowAt E.cy with
    | some prev_row, some row =>
      let E1 := { E with cx := (prev_row.length : Int),
                         row := E.row.set (E.cy - 1).toNat (prev_row ++ row) }
      let E2 := editorDelRow E1 E1.cy
      .ok { E2 with cy := E2.cy - 1 }
    | _, _ => .fault E

/-- `char *editorRowsToString(int *buflen)`: the first loop. -/
def editorRowsToString_totlen (E : editorConfig) : Int :=
  E.row.foldl (fun totlen r => totlen + ((r.length : Int) + 1)) 0

/-- `char *editorRowsToString(int *buflen)`: the buffer filled by the second
loop. -/
def editorRowsToString (E : editorConfig) : List Char :=
  E.row.foldl (fun buf r => buf ++ r ++ ['\n']) []

/-- One call of `getline` on the rest of the stream: `none` at the end of the
file, else the line with its newline (the last line may lack it) and what
follows. -/
def getline : List Char → Option (List Char × List Char)
  | [] => none
  | c :: cs =>
    let line := (c :: cs).takeWhile (fun x => x != '\n')
    match (c :: cs).dropWhile (fun x => x != '\n') with
    | [] => some (line, [])
    | nl :: rest => some (line ++ [nl], rest)

/-- The loop `while (linelen > 0 && (line[linelen - 1] == '\n' ||
line[linelen - 1] == '\r')) linelen--;` -/
def stripEol (line : List Char) : List Char :=
  line.rdropWhile (fun x => x = '\n' ∨ x = '\r')

/-- The loop `while ((linelen = getline(...)) != -1)` of `editorOpen`, by the
number of calls of `getline` left. -/
def editorOpenLoop : Nat → List Char → editorConfig → editorConfig
  | 0, _, E => E
  | fuel + 1, stream, E =>
    match getline stream with
    | none => E
    | some (line, rest) =>
      editorOpenLoop fuel rest (editorInsertRow E E.numrows (stripEol line))

/-- `void editorOpen(char *filename)`; `contents` is the file, `none` when it
cannot be opened.  Each call of `getline` but the last consumes at least one
character, so `contents.length + 1` calls reach the end of the file. -/
def editorOpen (E : editorConfig) (filename : List Char) (contents : Option (List Char)) :
    editorConfig :=
  let E1 := { E with filename := some filename }
  match contents with
  | none => E1
  | some s => { editorOpenLoop (s.length + 1) s E1 with dirty := 0 }

/-- `void editorScroll()` -/
def editorScroll (E : editorConfig) : EdResult :=
  let rx : Option Int :=
    if E.cy < E.numrows then (E.rowAt E.cy).map (fun row => editorRowCxToRx row E.cx)
    else some 0
  match rx with
  | none => .fault E
  | some rx =>
    let E1 := { E with rx := rx }
    let E2 := if E1.cy < E1.rowoff then { E1 with rowoff := E1.cy } else E1
    let E3 := if E2.cy ≥ E2.rowoff + E2.screenrows then
      { E2 with rowoff := E2.cy - E2.screenrows + 1 } else E2
    let E4 := if E3.rx < E3.coloff then { E3 with coloff := E3.rx } else E3
    let E5 := if E4.rx ≥ E4.coloff + E4.screencols then
      { E4 with coloff := E4.rx - E4.screencols + 1 } else E4
    .ok E5

/-- The last lines of `editorMoveCursor`: "Ensure cursor stays within line
bounds". -/
def clampCx (E : editorConfig) : EdResult :=
  if E.cy ≥ E.numrows then
    .ok (if E.cx > 0 then { E with cx := 0 } else E)
  else
    match E.rowAt E.cy with
    | none => .fault E
    | some row => .ok (if E.cx > (row.length : Int) then { E with cx := (row.length : Int) } else E)

/-- `void editorMoveCursor(int key)` -/
def editorMoveCursor (E : editorConfig) (key : Int) : EdResult :=
  let moved : EdResult :=
    if key = ARROW_LEFT then
      if E.cx > 0 then .ok { E with cx := E.cx - 1 }
      else if E.cy > 0 then
        match E.rowAt (E.cy - 1) with
        | none => .fault { E with cy := E.cy - 1 }
        | some prev => .ok { E with cy := E.cy - 1, cx := (prev.length : Int) }
      else .ok E
    else if key = ARROW_RIGHT then
      if E.cy ≥ E.numrows then .ok E
      else
        match E.rowAt E.cy with
        | none => .fault E
        | some row =>
          if E.cx < (row.length : Int) then .ok { E with cx := E.cx + 1 }
          else if E.cx = (row.length : Int) ∧ E.cy < E.numrows - 1 then
            .ok { E with cy := E.cy + 1, cx := 0 }
          else .ok E
    else if key = ARROW_UP then
      .ok (if E.cy > 0 then { E with cy := E.cy - 1 } else E)
    else if key = ARROW_DOWN then
      .ok (if E.cy < E.numrows - 1 then { E with cy := E.cy + 1 } else E)
    else .ok E
  moved.andThen clampCx

/-- `while (times--) editorMoveCursor(key);` for `times ≥ 0`. -/
def moveTimes : Nat → editorConfig → Int → EdResult
  | 0, E, _ => .ok E
  | n + 1, E, key => (editorMoveCursor E key).andThen (fun E1 => moveTimes n E1 key)

/-- The case `PAGE_UP` / `PAGE_DOWN` of `editorProcessKeypress`.  With a
negative `screenrows` the counter of `while (times--)` runs down to the
smallest `int` and overflows. -/
def pageKey (E : editorConfig) (c : Int) : EdResult :=
  let E1 := if c = PAGE_UP then { E with cy := E.rowoff }
    else if c = PAGE_DOWN then { E with cy := E.rowoff + E.screenrows - 1 }
    else E
  let E2 := if E1.cy > E1.numrows - 1 then { E1 with cy := E1.numrows - 1 } else E1
  if E2.screenrows < 0 then .fault E2
  else moveTimes E2.screenrows.toNat E2 (if c = PAGE_UP then ARROW_UP else ARROW_DOWN)

/-- The case `BACKSPACE` / `CTRL_KEY('h')` / `DEL_KEY`. -/
def deleteKey (E : editorConfig) (c : Int) : EdResult :=
  (if c = DEL_KEY then editorMoveCursor E ARROW_RIGHT else .ok E).andThen editorDelChar

/-- `strstr(haystack, needle)` as an offset into the haystack. -/
def strstr : List Char → List Char → Option Nat
  | [], needle => if needle.isEmpty then some 0 else none
  | h :: t, needle =>
    if needle.isPrefixOf (h :: t) then some 0 else (strstr t needle).map (fun k => k + 1)

/-- The search loop of `editorFind`, by the number of iterations left: the
row and the offset of the match, `none` when nothing matched. -/
def editorFindLoop (E : editorConfig) (query : List Char) :
    Nat → Int → Except Unit (Option (Int × Int))
  | 0, _ => .ok none
  | n + 1, current =>
    let current := current + E.search_direction
    let current := if current = -1 then E.numrows - 1
      else if current = E.numrows then 0 else current
    match E.rowAt current with
    | none => .error ()
    | some row =>
      match strstr row query with
      | some k => .ok (some (current, (k : Int)))
      | none => editorFindLoop E query n current

/-- `void editorFind()`; `reply` is what `editorPrompt` returns.  The prompt
redraws the screen, which scrolls, and its last key (Enter or Escape) makes
`findCallback` set `search_direction` to 1. -/
def editorFind (E : editorConfig) (reply : Option (List Char)) : EdResult :=
  (editorScroll E).andThen fun E0 =>
    let E1 := { E0 with search_direction := 1 }
    match reply with
    | none => .ok E1
    | some query =>
      match editorFindLoop E1 query E1.row.length E1.cy with
      | .error _ => .fault E1
      | .ok (some (cy, cx)) => .ok { E1 with cy := cy, cx := cx, rowoff := E1.numrows }
      | .ok none =>
        .ok { E1 with cx := E.cx, cy := E.cy, coloff := E.coloff, rowoff := E.rowoff }

/-- `void editorCommandPrompt()`; `reply` is what `editorPrompt` returns.  The
help and about screens and an external command leave `E` as it is, up to the
redraw that follows them. -/
def editorCommandPrompt (E : editorConfig) (reply : Option (List Char)) : EdResult :=
  (editorScroll E).andThen fun E1 =>
    match reply with
    | none => .ok E1
    | some cmd =>
      if cmd = "help".toList ∨ cmd = "about".toList then editorScroll E1
      else if cmd = "lines=on".toList then .ok { E1 with show_linenums := 1 }
      else if cmd = "lines=off".toList then .ok { E1 with show_linenums := 0 }
      else if "exec ".toList.isPrefixOf cmd then editorScroll E1
      else .ok E1

/-- `void editorSave()`; `reply` is what the "Save As" prompt returns (if it is
shown), `written` tells whether the file was opened and written in full. -/
def editorSave (E : editorConfig) (reply : Option (List Char)) (written : Bool) : EdResult :=
  let named : EdResult :=
    match E.filename with
    | some _ => .ok E
    | none => (editorScroll E).andThen fun E1 => .ok { E1 with filename := reply }
  named.andThen fun E1 =>
    match E1.filename with
    | none => .ok E1
    | some _ => .ok (if written then { E1 with dirty := 0 } else E1)

/-- `void editorProcessKeypress()` -/
def editorProcessKeypress (E : editorConfig) (ev : KeyEvent) : EdResult :=
  let c := ev.c
  let handled : EdResult × Bool :=
    if E.mode = MODE_GENERAL then
      if c = ('i'.toNat : Int) then (.ok { E with mode := MODE_EDIT }, false)
      else if c = (':'.toNat : Int) then (editorCommandPrompt E ev.reply, false)
      else if c = CTRL_KEY 'q' then
        if E.dirty ≠ 0 ∧ E.quit_times > 0 then
          (.ok { E with quit_times := E.quit_times - 1 }, true)
        else (.exit E 0, true)
      else if c = CTRL_KEY 's' then (editorSave E ev.reply ev.written, false)
      else if c = CTRL_KEY 'f' then (editorFind E ev.reply, false)
      else if c = HOME_KEY then (.ok { E with cx := 0 }, false)
      else if c = END_KEY then
        (if E.cy < E.numrows then
          match E.rowAt E.cy with
          | none => .fault E
          | some row => .ok { E with cx := (row.length : Int) }
        else .ok E, false)
      else if c = BACKSPACE ∨ c = CTRL_KEY 'h' ∨ c = DEL_KEY then (deleteKey E c, false)
      else if c = PAGE_UP ∨ c = PAGE_DOWN then (pageKey E c, false)
      else if c = ARROW_UP ∨ c = ARROW_DOWN ∨ c = ARROW_LEFT ∨ c = ARROW_RIGHT then
        (editorMoveCursor E c, false)
      else (.ok E, false)
    else if E.mode = MODE_EDIT then
      if c = 0x1b then (.ok { E with mode := MODE_GENERAL }, false)
      else if c = ('\r'.toNat : Int) then (editorInsertNewline E, false)
      else if c = BACKSPACE ∨ c = CTRL_KEY 'h' ∨ c = DEL_KEY then (deleteKey E c, false)
      else if c = HOME_KEY then (.ok { E with cx := 0 }, false)
      else if c = END_KEY then
        (if E.cy < E.numrows then
          match E.rowAt E.cy with
          | none => .fault E
          | some row => .ok { E with cx := (row.length : Int) }
        else .ok E, false)
      else if c = PAGE_UP ∨ c = PAGE_DOWN then (pageKey E c, false)
      else if c = ARROW_UP ∨ c = ARROW_DOWN ∨ c = ARROW_LEFT ∨ c = ARROW_RIGHT then
        (editorMoveCursor E c, false)
      else (editorInsertChar E c, false)
    else (.ok E, false)
  if handled.2 then handled.1
  else handled.1.andThen fun E1 => .ok { E1 with quit_times := QUIT_TIMES }

/-- One turn of the loop of `main`: `editorRefreshScreen(); editorProcessKeypress();`. -/
def editorTurn (E : editorConfig) (ev : KeyEvent) : EdResult :=
  (editorScroll E).andThen fun E1 => editorProcessKeypress E1 ev

/-- The loop of `main` for a list of keys. -/
def editorRun : List KeyEvent → editorConfig → EdResult
  | [], E => .ok E
  | ev :: rest, E => (editorTurn E ev).andThen (editorRun rest)

/-- The cursor is on a row of the buffer and inside it, or on the line after
the last row, in column 0. -/
def cursorInBounds (E : editorConfig) : Bool :=
  0 ≤ E.cy ∧ E.cy ≤ E.numrows ∧ 0 ≤ E.cx ∧
    E.cx ≤ (((E.rowAt E.cy).map List.length).getD 0 : Nat)

/-- A key with no prompt behind it. -/
def plainKey (c : Int) : KeyEvent := ⟨c, none, false⟩

/-- A call of the main program of `init.c` (the handler issues `printf`, `sync`
and `reboot`). -/
def SvCall.isMainCall : SvCall → Bool
  | .printf _ => false
  | .sync => false
  | .reboot _ => false
  | _ => true

/-- Every `reboot` request of the trace is the handler's: it asks for the
power-off, follows the handler's message and its `sync`, and, when it did not
take effect, it is followed by a call of the main program. -/
def HandlerShaped (os : SvOS) (tr : List SvCall) : Prop :=
  ∀ i c, tr[i]? = some (SvCall.reboot c) →
    c = RB_POWER_OFF ∧ 2 ≤ i ∧ tr[i - 1]? = some SvCall.sync ∧
    tr[i - 2]? =
      some (SvCall.printf "\nInit: Shutdown signal received. Powering off.\n".toList) ∧
    (os.rebootOk i = false → ∃ next, tr[i + 1]? = some next ∧ next.isMainCall = true)

/-! # Two images that differ in the addresses of their segments -/

/-- The same environment, with the file `path` holding `bytes`. -/
def OS.withFile (os : OS) (path : List Char) (bytes : List Nat) : OS :=
  { os with fs := fun p => if p = path then some bytes else os.fs p }

/-- How a step ended the process, if it did. -/
def Step.outcome? : Step → Option Outcome
  | .cont _ => none
  | .halt _ o => some o

/-- Two states of the loader, one on the file `f` and one on the file `g`, that
agree on the file position, on the calls issued (up to their address argument)
and on the text printed. -/
def SameDecisions (f g : List Nat) (s t : LState) : Prop :=
  s.file = f ∧ t.file = g ∧ s.pos = t.pos ∧
    s.trace.map Call.shape = t.trace.map Call.shape ∧ s.out = t.out

/-- Two steps that end alike and leave states that agree. -/
def StepSame (f g : List Nat) (r1 r2 : Step) : Prop :=
  r1.isCont = r2.isCont ∧ r1.outcome? = r2.outcome? ∧ SameDecisions f g r1.state r2.state

/-- The record of the file `g` at the offset of the examined record `e` is `e`
with another `p_vaddr`. -/
def relocatedAt (g : List Nat) (e : Nat × Phdr) : Bool :=
  decide (parsePhdr ((g.drop e.1).take 56) =
    { e.2 with p_vaddr := (parsePhdr ((g.drop e.1).take 56)).p_vaddr })

/-- The image `imageOneSegment` with its segment moved to the bottom of the
stack region. -/
def imageOneSegmentOnStack : List Nat :=
  mkEhdr 2 2 62 0x401000 64 1 ++ mkPhdr 1 5 120 0x700000000000 3 8 ++ [0xAA, 0xBB, 0xCC, 0xDD]

/-! # The memory of a segment after its entry has been handled -/

/-- The address `a` lies in the pages mapped for the entry `ph`. -/
def Phdr.covers (ph : Phdr) (a : Nat) : Bool :=
  decide (ph.p_vaddr ≤ a ∧ a < ph.p_vaddr + pageRound ph.p_memsz)

/-- The address `a` lies in the stack region. -/
def inStack (a : Nat) : Bool := decide (STACK_ADDR ≤ a ∧ a < STACK_ADDR + STACK_SIZE)

/-- As `niceOS`, except that the `lseek` issued as system call number `k`
fails. -/
def seekFailingOS (path : List Char) (bytes : List Nat) (k : Nat) : OS where
  fs := fun p => if p = path then some bytes else none
  readResp := fun _ => .full
  lseekOk := fun i => i != k
  mmapOk := fun _ => true
  mprotectOk := fun _ => true

/-- One read+execute segment whose `p_offset` is 2^63, an offset `lseek`
refuses; the file is 124 bytes long. -/
def imageBadOffset : List Nat :=
  mkEhdr 2 2 62 0x401000 64 1 ++ mkPhdr 1 5 0x8000000000000000 0x400000 3 8 ++
    [0xAA, 0xBB, 0xCC, 0xDD]

/-! # Lemmas -/

/-! ## Conversions and reads -/

theorem toU64_natCast (n : Nat) (h : n < 2 ^ 64) : toU64 (n : Int) = n := by
  unfold toU64
  have h2 : ((n : Int)) % (2 ^ 64 : Int) = (n : Int) := by
    apply Int.emod_eq_of_lt
    · exact Int.ofNat_nonneg n
    · exact_mod_cast h
  rw [h2]; simp

theorem toU64_neg_one : toU64 (-1) = 2 ^ 64 - 1 := by
  unfold toU64; decide

theorem ReadResp.got_of_ret (resp : ReadResp) (count avail n : Nat)
    (h : resp.ret count avail = (n : Int)) : resp.got count avail = n := by
  cases resp with
  | full => simp only [ReadResp.ret, ReadResp.got] at *; exact_mod_cast h
  | atMost m => simp only [ReadResp.ret, ReadResp.got] at *; exact_mod_cast h
  | error => simp only [ReadResp.ret] at h; omega

theorem ReadResp.got_le (resp : ReadResp) (count avail : Nat) :
    resp.got count avail ≤ count ∧ resp.got count avail ≤ avail := by
  cases resp <;> simp only [ReadResp.got] <;> omega

/-- The value returned by `read` is -1 or the number of bytes delivered. -/
theorem ReadResp.ret_cases (resp : ReadResp) (count avail : Nat) :
    resp.ret count avail = -1 ∨ resp.ret count avail = (resp.got count avail : Int) := by
  cases resp <;> simp [ReadResp.ret, ReadResp.got]

theorem toU64_ret_eq_iff (resp : ReadResp) (count avail : Nat) (hc : count < 2 ^ 64 - 1) :
    toU64 (resp.ret count avail) = count ↔ resp.ret count avail = (count : Int) := by
  rcases ReadResp.ret_cases resp count avail with h | h
  · rw [h, toU64_neg_one]; constructor
    · intro h2; omega
    · intro h2; omega
  · have hle := (ReadResp.got_le resp count avail).1
    rw [h, toU64_natCast _ (by omega)]
    constructor
    · intro h2; rw [h2]
    · intro h2; exact_mod_cast h2

/-- The loader when the file cannot be opened. -/
theorem load_and_run_elf_of_open_failed (os : OS) (cc : AsmOperands) (regs : Cpu)
    (filepath original_command : List Char) (hopen : os.fs filepath = none) :
    load_and_run_elf os cc regs filepath original_command =
      (do_printf { LState.init with trace := [Call.openRd filepath], ret := -1 }
        ("Bad command or file name: C:".toList ++ format_path_for_dos filepath ++ "\n".toList),
        Outcome.exit 127) := by
  simp [load_and_run_elf, sys_open, hopen, LState.init]

/-! ## The header stage -/

theorem toU64_ehdr_size : toU64 64 = 64 := by decide
theorem toU64_phdr_size : toU64 56 = 56 := by decide

theorem sys_open_ok (os : OS) (filepath : List Char) (file : List Nat)
    (hopen : os.fs filepath = some file) :
    sys_open os LState.init filepath =
      { LState.init with trace := [Call.openRd filepath], file := file, ret := 3 } := by
  simp [sys_open, hopen, LState.init]

/-- The loader from the header test on, when the file opens. -/
theorem load_and_run_elf_of_open (os : OS) (cc : AsmOperands) (regs : Cpu)
    (filepath original_command : List Char) (file : List Nat)
    (hopen : os.fs filepath = some file) :
    load_and_run_elf os cc regs filepath original_command =
      (if toU64 (headerState os filepath).ret ≠ EHDR_SIZE then
         (sys_close (do_perror (headerState os filepath)
            "loader: failed to read ELF header".toList), .exit 1)
       else
         if ¬ validEhdr (parseEhdr (headerState os filepath).buf) then
           (sys_close (do_printf (headerState os filepath)
              ("loader: ".toList ++ [Char.ofNat 39] ++ filepath ++
              [Char.ofNat 39] ++ " is not a valid static x86-64 executable.\n".toList)),
            .exit 1)
         else
           match load_segments os (parseEhdr (headerState os filepath).buf).e_phnum
              (sys_lseek os (headerState os filepath)
                (parseEhdr (headerState os filepath).buf).e_phoff) with
           | .halt st4 o => (st4, o)
           | .cont st4 =>
             map_stack_and_jump os cc regs st4 (parseEhdr (headerState os filepath).buf)) := by
  have h : ¬ (sys_open os LState.init filepath).ret < 0 := by
    rw [sys_open_ok os filepath file hopen]; simp
  unfold load_and_run_elf headerState
  simp only [h, if_false]

theorem headerState_trace (os : OS) (filepath : List Char) (file : List Nat)
    (hopen : os.fs filepath = some file) :
    (headerState os filepath).trace = [Call.openRd filepath, Call.read 64 none] := by
  rw [headerState, sys_open_ok os filepath file hopen]
  simp [sys_read_buf, EHDR_SIZE]

theorem headerState_ret (os : OS) (filepath : List Char) (file : List Nat)
    (hopen : os.fs filepath = some file) :
    (headerState os filepath).ret = (os.readResp 1).ret 64 file.length := by
  rw [headerState, sys_open_ok os filepath file hopen]
  simp [sys_read_buf, EHDR_SIZE, LState.init]

theorem headerState_buf (os : OS) (filepath : List Char) (file : List Nat)
    (hopen : os.fs filepath = some file)
    (hread : (os.readResp 1).ret 64 file.length = 64) :
    (headerState os filepath).buf = file.take 64 := by
  have hgot : (os.readResp 1).got 64 file.length = 64 :=
    ReadResp.got_of_ret _ _ _ 64 (by simpa using hread)
  rw [headerState, sys_open_ok os filepath file hopen]
  simp [sys_read_buf, EHDR_SIZE, LState.init, hgot]

theorem headerState_pos (os : OS) (filepath : List Char) (file : List Nat)
    (hopen : os.fs filepath = some file)
    (hread : (os.readResp 1).ret 64 file.length = 64) :
    (headerState os filepath).pos = 64 := by
  have hgot : (os.readResp 1).got 64 file.length = 64 :=
    ReadResp.got_of_ret _ _ _ 64 (by simpa using hread)
  rw [headerState, sys_open_ok os filepath file hopen]
  simp [sys_read_buf, EHDR_SIZE, LState.init, hgot]

theorem headerState_file (os : OS) (filepath : List Char) (file : List Nat)
    (hopen : os.fs filepath = some file) :
    (headerState os filepath).file = file := by
  rw [headerState, sys_open_ok os filepath file hopen]
  simp [sys_read_buf]

theorem headerState_mem (os : OS) (filepath : List Char) :
    (headerState os filepath).mem = fun _ => none := by
  unfold headerState sys_read_buf sys_open
  cases os.fs filepath <;> rfl

theorem headerState_examined (os : OS) (filepath : List Char) :
    (headerState os filepath).examined = [] := by
  unfold headerState sys_read_buf sys_open
  cases os.fs filepath <;> rfl

theorem validEhdr_iff (file : List Nat) :
    validEhdr (parseEhdr (file.take 64)) = true ↔
      file.take 4 = [0x7f, 0x45, 0x4c, 0x46] ∧ file.getD 4 0 = 2 ∧
      (parseEhdr (file.take 64)).e_machine = 62 ∧ (parseEhdr (file.take 64)).e_type = 2 := by
  have h1 : ((file.take 64).take 16).take 4 = file.take 4 := by
    simp [List.take_take]
  have h2 : ((file.take 64).take 16).getD 4 0 = file.getD 4 0 := by
    simp [List.getD_eq_getElem?_getD, List.getElem?_take]
  simp only [validEhdr, parseEhdr, SELFMAG, ELFMAG, EI_CLASS, ELFCLASS64, EM_X86_64, ET_EXEC,
    h1, h2, decide_eq_true_eq]

/-! ## Refused mappings -/

theorem failedMappingAt_lt (os : OS) (tr : List Call) (k : Nat)
    (h : failedMappingAt os tr k = true) : k < tr.length := by
  by_contra hk
  have : tr[k]? = none := List.getElem?_eq_none (by omega)
  simp [failedMappingAt, this] at h

theorem failedMappingAt_append_lt (os : OS) (tr : List Call) (c : Call) (k : Nat)
    (hk : k < tr.length) :
    failedMappingAt os (tr ++ [c]) k = failedMappingAt os tr k := by
  simp [failedMappingAt, List.getElem?_append_left hk]

theorem Good_nil (os : OS) : Good os [] := by
  intro k
  simp [failedMappingAt]

theorem Good_snoc (os : OS) (tr : List Call) (c : Call) (hg : Good os tr)
    (hc : failedMappingAt os (tr ++ [c]) tr.length = false) : Good os (tr ++ [c]) := by
  intro k
  by_contra h
  have h : failedMappingAt os (tr ++ [c]) k = true := by simpa using h
  have hlt := failedMappingAt_lt os _ k h
  simp at hlt
  by_cases hk : k < tr.length
  · rw [failedMappingAt_append_lt os tr c k hk, hg k] at h
    cases h
  · have : k = tr.length := by omega
    subst this
    rw [hc] at h
    cases h

theorem failedMappingAt_snoc_mmap (os : OS) (tr : List Call) (a l p f : Nat) :
    failedMappingAt os (tr ++ [Call.mmap a l p f]) tr.length = !os.mmapOk tr.length := by
  simp [failedMappingAt]

theorem failedMappingAt_snoc_mprotect (os : OS) (tr : List Call) (a l p : Nat) :
    failedMappingAt os (tr ++ [Call.mprotect a l p]) tr.length = !os.mprotectOk tr.length := by
  simp [failedMappingAt]

theorem Good_snoc_other (os : OS) (tr : List Call) (c : Call) (hg : Good os tr)
    (hc : c.isMapping = false) : Good os (tr ++ [c]) := by
  apply Good_snoc os tr c hg
  cases c <;> simp [failedMappingAt, Call.isMapping] at hc ⊢

/-- A run that ends at a refused call has exit status 1 and nothing after the
refused call. -/
theorem ends_of_failedMappingAt (os : OS) (tr : List Call) (o : Outcome)
    (h : Good os tr ∨ EndsAtFailure os tr o) (k : Nat) (hk : failedMappingAt os tr k = true) :
    o = Outcome.exit 1 ∧ tr.length = k + 1 := by
  rcases h with hg | ⟨ho, tr0, c, htr, hg0, _⟩
  · rw [hg k] at hk; cases hk
  · refine ⟨ho, ?_⟩
    subst htr
    have hlt := failedMappingAt_lt os _ k hk
    simp at hlt ⊢
    by_contra hne
    have hk2 : k < tr0.length := by omega
    rw [failedMappingAt_append_lt os tr0 c k hk2, hg0 k] at hk
    cases hk

@[simp] theorem sys_mmap_trace (os : OS) (st : LState) (a l p f : Nat) :
    (sys_mmap os st a l p f).trace = st.trace ++ [Call.mmap a l p f] := rfl
@[simp] theorem sys_mprotect_trace (os : OS) (st : LState) (a l p : Nat) :
    (sys_mprotect os st a l p).trace = st.trace ++ [Call.mprotect a l p] := rfl
@[simp] theorem sys_lseek_trace (os : OS) (st : LState) (off : Nat) :
    (sys_lseek os st off).trace = st.trace ++ [Call.lseek off] := rfl
@[simp] theorem sys_read_mem_trace (os : OS) (st : LState) (a n : Nat) :
    (sys_read_mem os st a n).trace = st.trace ++ [Call.read n (some a)] := rfl
@[simp] theorem sys_read_buf_trace (os : OS) (st : LState) (n : Nat) :
    (sys_read_buf os st n).trace = st.trace ++ [Call.read n none] := rfl
@[simp] theorem sys_close_trace (st : LState) :
    (sys_close st).trace = st.trace ++ [Call.close] := rfl
@[simp] theorem do_perror_trace (st : LState) (s : List Char) :
    (do_perror st s).trace = st.trace := rfl
@[simp] theorem do_printf_trace (st : LState) (s : List Char) :
    (do_printf st s).trace = st.trace := rfl
@[simp] theorem sys_mmap_ret (os : OS) (st : LState) (a l p f : Nat) :
    (sys_mmap os st a l p f).ret = if os.mmapOk st.trace.length then (a : Int) else -1 := rfl
@[simp] theorem sys_mprotect_ret (os : OS) (st : LState) (a l p : Nat) :
    (sys_mprotect os st a l p).ret = if os.mprotectOk st.trace.length then 0 else -1 := rfl

theorem sys_mmap_failed_iff (os : OS) (st : LState) (a l p f : Nat) :
    (sys_mmap os st a l p f).ret = -1 ↔ os.mmapOk st.trace.length = false := by
  rw [sys_mmap_ret]
  cases os.mmapOk st.trace.length
  · simp
  · simp only [if_true]
    constructor
    · intro h; omega
    · intro h; cases h

theorem sys_mprotect_failed_iff (os : OS) (st : LState) (a l p : Nat) :
    (sys_mprotect os st a l p).ret ≠ 0 ↔ os.mprotectOk st.trace.length = false := by
  rw [sys_mprotect_ret]
  cases os.mprotectOk st.trace.length <;> simp

theorem load_segment_good (os : OS) (st : LState) (ph : Phdr) (hg : Good os st.trace) :
    match load_segment os st ph with
    | .cont st2 => Good os st2.trace
    | .halt st2 o => Good os st2.trace ∨ EndsAtFailure os st2.trace o := by
  unfold load_segment
  simp only []
  generalize hprot : protOf ph.p_flags = prot
  generalize hflags : MAP_PRIVATE ||| MAP_ANONYMOUS ||| MAP_FIXED = flags
  have key : os.mmapOk st.trace.length = true →
      Good os (st.trace ++ [Call.mmap ph.p_vaddr ph.p_memsz (prot ||| PROT_WRITE) flags] ++
        [Call.lseek ph.p_offset] ++ [Call.read ph.p_filesz (some ph.p_vaddr)]) := by
    intro hm
    have g1 : Good os (st.trace ++ [Call.mmap ph.p_vaddr ph.p_memsz (prot ||| PROT_WRITE) flags]) :=
      Good_snoc os _ _ hg (by rw [failedMappingAt_snoc_mmap]; simp [hm])
    exact Good_snoc_other os _ _ (Good_snoc_other os _ _ g1 rfl) rfl
  split_ifs with h1 h2 h3
  · -- the mmap was refused
    right
    exact ⟨rfl, st.trace, Call.mmap ph.p_vaddr ph.p_memsz (prot ||| PROT_WRITE) flags, rfl, hg,
      (by rw [failedMappingAt_snoc_mmap, (sys_mmap_failed_iff _ _ _ _ _ _).1 h1]; rfl)⟩
  · -- the copy failed
    left
    have hm : os.mmapOk st.trace.length = true := by
      have := (sys_mmap_failed_iff os st ph.p_vaddr ph.p_memsz _ _).not.1 h1
      simpa using this
    exact key hm
  · -- the mprotect was refused
    right
    have hm : os.mmapOk st.trace.length = true := by
      have := (sys_mmap_failed_iff os st ph.p_vaddr ph.p_memsz _ _).not.1 h1
      simpa using this
    have hp := (sys_mprotect_failed_iff os _ ph.p_vaddr ph.p_memsz prot).1 h3
    exact ⟨rfl, _, Call.mprotect ph.p_vaddr ph.p_memsz prot, rfl, key hm,
      (by rw [failedMappingAt_snoc_mprotect, hp]; rfl)⟩
  · have hm : os.mmapOk st.trace.length = true := by
      have := (sys_mmap_failed_iff os st ph.p_vaddr ph.p_memsz _ _).not.1 h1
      simpa using this
    have hp := (sys_mprotect_failed_iff os _ ph.p_vaddr ph.p_memsz prot).not.1 h3
    exact Good_snoc os _ _ (key hm) (by rw [failedMappingAt_snoc_mprotect]; simpa using hp)

theorem load_segments_good (os : OS) (n : Nat) (st : LState) (hg : Good os st.trace) :
    match load_segments os n st with
    | .cont st2 => Good os st2.trace
    | .halt st2 o => Good os st2.trace ∨ EndsAtFailure os st2.trace o := by
  induction n generalizing st with
  | zero => simpa [load_segments] using hg
  | succ n ih =>
    unfold load_segments
    simp only []
    have g1 : Good os (sys_read_buf os st PHDR_SIZE).trace := Good_snoc_other os _ _ hg rfl
    split_ifs with h1 h2
    · left
      exact Good_snoc_other os _ _ g1 rfl
    · have := load_segment_good os
        { sys_read_buf os st PHDR_SIZE with
          examined := (sys_read_buf os st PHDR_SIZE).examined ++
            [(st.pos, parsePhdr (sys_read_buf os st PHDR_SIZE).buf)] }
        (parsePhdr (sys_read_buf os st PHDR_SIZE).buf) g1
      revert this
      cases load_segment os _ (parsePhdr (sys_read_buf os st PHDR_SIZE).buf) with
      | cont st3 => intro h3; exact ih st3 h3
      | halt st3 o => intro h3; exact h3
    · exact ih _ g1

theorem map_stack_and_jump_good (os : OS) (cc : AsmOperands) (regs : Cpu) (st : LState)
    (ehdr : Ehdr) (hg : Good os st.trace) :
    Good os (map_stack_and_jump os cc regs st ehdr).1.trace ∨
      EndsAtFailure os (map_stack_and_jump os cc regs st ehdr).1.trace
        (map_stack_and_jump os cc regs st ehdr).2 := by
  unfold map_stack_and_jump
  simp only []
  have g1 : Good os (sys_close st).trace := Good_snoc_other os _ _ hg rfl
  split_ifs with h1
  · right
    exact ⟨rfl, _, _, rfl, g1,
      (by rw [failedMappingAt_snoc_mmap, (sys_mmap_failed_iff _ _ _ _ _ _).1 h1]; rfl)⟩
  · left
    have hm := (sys_mmap_failed_iff os (sys_close st) STACK_ADDR STACK_SIZE
      (PROT_READ ||| PROT_WRITE) (MAP_PRIVATE ||| MAP_ANONYMOUS ||| MAP_FIXED)).not.1 h1
    exact Good_snoc os _ _ g1 (by rw [failedMappingAt_snoc_mmap]; simpa using hm)

theorem load_and_run_elf_good (os : OS) (cc : AsmOperands) (regs : Cpu)
    (filepath original_command : List Char) :
    Good os (load_and_run_elf os cc regs filepath original_command).1.trace ∨
      EndsAtFailure os (load_and_run_elf os cc regs filepath original_command).1.trace
        (load_and_run_elf os cc regs filepath original_command).2 := by
  have g0 : Good os (sys_open os LState.init filepath).trace := by
    unfold sys_open
    cases os.fs filepath <;> exact Good_snoc_other os _ _ (Good_nil os) rfl
  have g1 : Good os (sys_read_buf os (sys_open os LState.init filepath) EHDR_SIZE).trace :=
    Good_snoc_other os _ _ g0 rfl
  unfold load_and_run_elf
  simp only []
  split_ifs with h1 h2 h3
  · left; exact g0
  · left; exact Good_snoc_other os _ _ g1 rfl
  rotate_left
  · left; exact Good_snoc_other os _ _ g1 rfl
  · have g2 : Good os (sys_lseek os (sys_read_buf os (sys_open os LState.init filepath) EHDR_SIZE)
        (parseEhdr (sys_read_buf os (sys_open os LState.init filepath) EHDR_SIZE).buf).e_phoff).trace :=
      Good_snoc_other os _ _ g1 rfl
    have := load_segments_good os
      (parseEhdr (sys_read_buf os (sys_open os LState.init filepath) EHDR_SIZE).buf).e_phnum _ g2
    revert this
    cases load_segments os _ _ with
    | cont st4 => intro h4; exact map_stack_and_jump_good os cc regs st4 _ h4
    | halt st4 o => intro h4; exact h4

/-! ## One loadable entry -/

theorem protOf_eq_specProt (f : Nat) : protOf f = specProt f := by
  simp only [protOf, specProt, PF_R, PF_W, PF_X, PROT_READ, PROT_WRITE, PROT_EXEC]
  split_ifs <;> rfl

theorem specProt_write (f : Nat) : specProt f &&& 2 ≠ 0 ↔ f &&& 2 ≠ 0 := by
  simp only [specProt]
  split_ifs <;> simp_all <;> decide

theorem specProt_exec (f : Nat) : specProt f &&& 4 ≠ 0 ↔ f &&& 1 ≠ 0 := by
  simp only [specProt]
  split_ifs <;> simp_all <;> decide

theorem specProt_read (f : Nat) : specProt f &&& 1 ≠ 0 ↔ f &&& 4 ≠ 0 := by
  simp only [specProt]
  split_ifs <;> simp_all

theorem specProt_lt (f : Nat) : specProt f < 8 := by
  simp only [specProt]
  split_ifs <;> simp

/-- What it means that the body of the `PT_LOAD` branch ran to its end. -/
theorem load_segment_cont_inv (os : OS) (st st2 : LState) (ph : Phdr)
    (h : load_segment os st ph = .cont st2) :
    os.mmapOk st.trace.length = true ∧
    os.mprotectOk (st.trace.length + 3) = true ∧
    toU64 ((os.readResp (st.trace.length + 2)).ret ph.p_filesz
      (st.file.length - (if os.lseekOk (st.trace.length + 1) then ph.p_offset else st.pos))) =
        ph.p_filesz ∧
    st2 = sys_mprotect os (sys_read_mem os (sys_lseek os
      (sys_mmap os st ph.p_vaddr ph.p_memsz (protOf ph.p_flags ||| PROT_WRITE)
        (MAP_PRIVATE ||| MAP_ANONYMOUS ||| MAP_FIXED)) ph.p_offset) ph.p_vaddr ph.p_filesz)
      ph.p_vaddr ph.p_memsz (protOf ph.p_flags) := by
  unfold load_segment at h
  simp only [] at h
  split_ifs at h with h1 h2 h3
  have hm : os.mmapOk st.trace.length = true := by
    have := (sys_mmap_failed_iff os st ph.p_vaddr ph.p_memsz _ _).not.1 h1
    simpa using this
  have hp := (sys_mprotect_failed_iff os _ ph.p_vaddr ph.p_memsz (protOf ph.p_flags)).not.1 h3
  simp only [sys_read_mem_trace, sys_lseek_trace, sys_mmap_trace, List.length_append,
    List.length_singleton, Bool.not_eq_false] at hp
  refine ⟨hm, hp, ?_, ?_⟩
  · have h2' := not_not.1 h2
    simpa [sys_read_mem, sys_lseek, sys_mmap] using h2'
  · injection h with h
    exact h.symm

theorem Mem.store_prot (m : Mem) (addr : Nat) (data : List Nat) (a : Nat) (c : Cell)
    (h : m.store addr data a = some c) : ∃ c0, m a = some c0 ∧ c0.prot = c.prot := by
  unfold Mem.store at h
  split_ifs at h with hr
  · cases hm : m a with
    | none => simp [hm] at h
    | some c0 =>
      refine ⟨c0, rfl, ?_⟩
      simp only [hm, Option.map_some', Option.some.injEq] at h
      split_ifs at h <;> subst h <;> rfl
  · exact ⟨c, h, rfl⟩

/-- Mapping, filling and protecting one segment keeps the memory free of
writable and executable bytes when the final protection is not both. -/
theorem NoWX_segment (m : Mem) (v len prot : Nat) (data : List Nat)
    (hprot : ¬ (prot &&& PROT_WRITE ≠ 0 ∧ prot &&& PROT_EXEC ≠ 0)) (h : NoWX m) :
    NoWX (((m.map v len (prot ||| PROT_WRITE)).store v data).protect v len prot) := by
  intro a c hc
  unfold Mem.protect at hc
  split_ifs at hc with hr
  · cases hs : (m.map v len (prot ||| PROT_WRITE)).store v data a with
    | none => simp [hs] at hc
    | some c0 =>
      simp only [hs, Option.map_some', Option.some.injEq] at hc
      subst hc
      exact hprot
  · obtain ⟨c0, hc0, hp⟩ := Mem.store_prot _ _ _ _ _ hc
    unfold Mem.map at hc0
    rw [if_neg hr] at hc0
    have := h a c0 hc0
    unfold Cell.isWX at this ⊢
    rw [← hp]
    exact this

theorem NoWX_stack (m : Mem) (h : NoWX m) :
    NoWX (m.map STACK_ADDR STACK_SIZE (PROT_READ ||| PROT_WRITE)) := by
  intro a c hc
  unfold Mem.map at hc
  split_ifs at hc with hr
  · simp only [Option.some.injEq] at hc
    subst hc
    unfold Cell.isWX
    decide
  · exact h a c hc

theorem load_segment_cont_facts (os : OS) (st st2 : LState) (ph : Phdr)
    (h : load_segment os st ph = .cont st2) :
    st2.examined = st.examined ∧
    st2.trace = st.trace ++ specSegmentCalls ph ∧
    (¬ (ph.p_flags &&& PF_W ≠ 0 ∧ ph.p_flags &&& PF_X ≠ 0) → NoWX st.mem → NoWX st2.mem) := by
  obtain ⟨hm, hp, _, hst⟩ := load_segment_cont_inv os st st2 ph h
  subst hst
  refine ⟨rfl, ?_, ?_⟩
  · simp [specSegmentCalls, protOf_eq_specProt, PROT_WRITE, MAP_PRIVATE, MAP_ANONYMOUS,
      MAP_FIXED]
  · intro hf hn
    have hprot : ¬ (protOf ph.p_flags &&& PROT_WRITE ≠ 0 ∧ protOf ph.p_flags &&& PROT_EXEC ≠ 0) := by
      rw [protOf_eq_specProt]
      intro ⟨h1, h2⟩
      exact hf ⟨(specProt_write _).1 h1, (specProt_exec _).1 h2⟩
    have := NoWX_segment st.mem ph.p_vaddr ph.p_memsz (protOf ph.p_flags)
      ((st.file.drop (if os.lseekOk (st.trace.length + 1) then ph.p_offset else st.pos)).take
        ((os.readResp (st.trace.length + 2)).got ph.p_filesz
          (st.file.length - (if os.lseekOk (st.trace.length + 1) then ph.p_offset else st.pos))))
      hprot hn
    simpa [sys_mprotect, sys_read_mem, sys_lseek, sys_mmap, hm, hp] using this

theorem load_segments_cont (os : OS) (n : Nat) (st st2 : LState)
    (h : load_segments os n st = .cont st2) :
    ∃ new : List (Nat × Phdr), st2.examined = st.examined ++ new ∧ new.length = n ∧
      st2.trace = st.trace ++ specTableCalls (new.map Prod.snd) ∧
      ((∀ e ∈ new, e.2.p_type = PT_LOAD →
          ¬ (e.2.p_flags &&& PF_W ≠ 0 ∧ e.2.p_flags &&& PF_X ≠ 0)) →
        NoWX st.mem → NoWX st2.mem) := by
  induction n generalizing st with
  | zero =>
    simp only [load_segments, Step.cont.injEq] at h
    subst h
    exact ⟨[], by simp, rfl, by simp [specTableCalls], fun _ hn => hn⟩
  | succ n ih =>
    unfold load_segments at h
    simp only [] at h
    split_ifs at h with h1 h2
    · -- a loadable entry
      generalize hst1 : ({ sys_read_buf os st PHDR_SIZE with
          examined := (sys_read_buf os st PHDR_SIZE).examined ++
            [(st.pos, parsePhdr (sys_read_buf os st PHDR_SIZE).buf)] } : LState) = st1 at h
      generalize hph : parsePhdr (sys_read_buf os st PHDR_SIZE).buf = ph at h h2 hst1
      cases hseg : load_segment os st1 ph with
      | halt st3 o => simp [hseg] at h
      | cont st3 =>
        simp only [hseg] at h
        obtain ⟨hex, htr, hmem⟩ := load_segment_cont_facts os st1 st3 ph hseg
        obtain ⟨new, hnew, hlen, htr2, hmem2⟩ := ih st3 h
        refine ⟨(st.pos, ph) :: new, ?_, by simp [hlen], ?_, ?_⟩
        · rw [hnew, hex, ← hst1]
          simp [sys_read_buf]
        · rw [htr2, htr, ← hst1]
          have h2b : ph.p_type = 1 := h2
          simp [specTableCalls, h2b, PHDR_SIZE]
        · intro hall hn
          apply hmem2 (fun e he => hall e (List.mem_cons_of_mem _ he))
          apply hmem (hall (st.pos, ph) (List.mem_cons_self _ _) h2)
          rw [← hst1]
          exact hn
    · -- any other entry
      obtain ⟨new, hnew, hlen, htr2, hmem2⟩ := ih _ h
      refine ⟨(st.pos, parsePhdr (sys_read_buf os st PHDR_SIZE).buf) :: new, ?_, by simp [hlen],
        ?_, ?_⟩
      · rw [hnew]; simp [sys_read_buf]
      · rw [htr2]
        have h2b : ¬ (parsePhdr (sys_read_buf os st PHDR_SIZE).buf).p_type = 1 := h2
        simp only [List.map_cons, specTableCalls, if_neg h2b]
        simp [PHDR_SIZE]
      · intro hall hn
        exact hmem2 (fun e he => hall e (List.mem_cons_of_mem _ he)) hn

theorem load_segment_halt_exit (os : OS) (st st2 : LState) (ph : Phdr) (o : Outcome)
    (h : load_segment os st ph = .halt st2 o) : o = Outcome.exit 1 := by
  unfold load_segment at h
  simp only [] at h
  split_ifs at h <;> (injection h with _ h2; exact h2.symm)

theorem load_segments_halt_exit (os : OS) (n : Nat) (st st2 : LState) (o : Outcome)
    (h : load_segments os n st = .halt st2 o) : o = Outcome.exit 1 := by
  induction n generalizing st with
  | zero => simp [load_segments] at h
  | succ n ih =>
    unfold load_segments at h
    simp only [] at h
    split_ifs at h with h1 h2
    · injection h with _ h2; exact h2.symm
    · revert h
      cases hseg : load_segment os _ (parsePhdr (sys_read_buf os st PHDR_SIZE).buf) with
      | cont st3 => intro h; exact ih st3 h
      | halt st3 o2 =>
        intro h
        injection h with _ h2
        rw [← h2]
        exact load_segment_halt_exit os _ _ _ _ hseg
    · exact ih _ h

/-! ## Runs that reach the jump -/

/-- What a run that ends in the jump went through. -/
theorem jump_inv (os : OS) (cc : AsmOperands) (regs : Cpu)
    (filepath original_command : List Char) (cpu : Cpu) (t : Nat)
    (h : (load_and_run_elf os cc regs filepath original_command).2 = Outcome.jump cpu t) :
    ∃ file st4, os.fs filepath = some file ∧
      (os.readResp 1).ret 64 file.length = 64 ∧
      validEhdr (parseEhdr (file.take 64)) = true ∧
      load_segments os (parseEhdr (headerState os filepath).buf).e_phnum
        (sys_lseek os (headerState os filepath)
          (parseEhdr (headerState os filepath).buf).e_phoff) = .cont st4 ∧
      (load_and_run_elf os cc regs filepath original_command).1 =
        sys_mmap os (sys_close st4) STACK_ADDR STACK_SIZE (PROT_READ ||| PROT_WRITE)
          (MAP_PRIVATE ||| MAP_ANONYMOUS ||| MAP_FIXED) ∧
      os.mmapOk (st4.trace.length + 1) = true ∧
      transfer cc regs (STACK_ADDR + STACK_SIZE) (parseEhdr (headerState os filepath).buf).e_entry =
        Outcome.jump cpu t := by
  cases hfs : os.fs filepath with
  | none =>
    rw [load_and_run_elf_of_open_failed os cc regs filepath original_command hfs] at h
    cases h
  | some file =>
    rw [load_and_run_elf_of_open os cc regs filepath original_command file hfs] at h ⊢
    by_cases h1 : toU64 (headerState os filepath).ret ≠ EHDR_SIZE
    · rw [if_pos h1] at h; cases h
    rw [if_neg h1] at h ⊢
    by_cases h2 : ¬ validEhdr (parseEhdr (headerState os filepath).buf) = true
    · rw [if_pos h2] at h; cases h
    rw [if_neg h2] at h ⊢
    cases hl : load_segments os (parseEhdr (headerState os filepath).buf).e_phnum
        (sys_lseek os (headerState os filepath)
          (parseEhdr (headerState os filepath).buf).e_phoff) with
    | halt st4 o =>
      exfalso
      have := load_segments_halt_exit os _ _ st4 o hl
      simp only [hl] at h
      rw [this] at h
      cases h
    | cont st4 =>
      rw [hl] at h
      have hr1 : (os.readResp 1).ret 64 file.length = 64 := by
        have h1b := not_not.1 h1
        rw [headerState_ret os filepath file hfs] at h1b
        exact (toU64_ret_eq_iff _ 64 _ (by norm_num)).1 h1b
      have hv : validEhdr (parseEhdr (file.take 64)) = true := by
        have h2b := not_not.1 h2
        rw [headerState_buf os filepath file hfs hr1] at h2b
        exact h2b
      refine ⟨file, st4, rfl, hr1, hv, rfl, ?_⟩
      have hs : map_stack_and_jump os cc regs st4 (parseEhdr (headerState os filepath).buf) =
          (if (sys_mmap os (sys_close st4) STACK_ADDR STACK_SIZE (PROT_READ ||| PROT_WRITE)
              (MAP_PRIVATE ||| MAP_ANONYMOUS ||| MAP_FIXED)).ret = -1 then
            (do_perror (sys_mmap os (sys_close st4) STACK_ADDR STACK_SIZE
              (PROT_READ ||| PROT_WRITE) (MAP_PRIVATE ||| MAP_ANONYMOUS ||| MAP_FIXED))
              "loader: mmap for stack failed".toList, Outcome.exit 1)
          else
            (sys_mmap os (sys_close st4) STACK_ADDR STACK_SIZE (PROT_READ ||| PROT_WRITE)
              (MAP_PRIVATE ||| MAP_ANONYMOUS ||| MAP_FIXED),
             transfer cc regs (STACK_ADDR + STACK_SIZE)
              (parseEhdr (headerState os filepath).buf).e_entry)) := rfl
      simp only [hs] at h ⊢
      by_cases h3 : (sys_mmap os (sys_close st4) STACK_ADDR STACK_SIZE (PROT_READ ||| PROT_WRITE)
              (MAP_PRIVATE ||| MAP_ANONYMOUS ||| MAP_FIXED)).ret = -1
      · rw [if_pos h3] at h; cases h
      · rw [if_neg h3] at h ⊢
        have hm := (sys_mmap_failed_iff os (sys_close st4) STACK_ADDR STACK_SIZE
          (PROT_READ ||| PROT_WRITE) (MAP_PRIVATE ||| MAP_ANONYMOUS ||| MAP_FIXED)).not.1 h3
        simp only [sys_close_trace, List.length_append, List.length_singleton,
          Bool.not_eq_false] at hm
        exact ⟨rfl, hm, h⟩

theorem transfer_is_jump (cc : AsmOperands) (regs : Cpu) (top entry : Nat) :
    ∃ cpu t, transfer cc regs top entry = Outcome.jump cpu t :=
  ⟨_, _, rfl⟩

/-- Whatever register other than rsp holds `%1`, it is cleared before the jump. -/
theorem transfer_target_cleared (cc : AsmOperands) (regs : Cpu) (top entry : Nat)
    (h1 : cc.op1 ≠ Reg.rsp) : (transfer cc regs top entry).target? = some 0 := by
  obtain ⟨op0, op1⟩ := cc
  cases op1 <;> simp [transfer, asmTemplate, exec, Cpu.set, Outcome.target?] at h1 ⊢

theorem transfer_rsp (cc : AsmOperands) (regs : Cpu) (top entry : Nat)
    (h : cc.op0 ≠ cc.op1) :
    (transfer cc regs top entry).cpu?.map (fun c => c Reg.rsp) = some top := by
  obtain ⟨op0, op1⟩ := cc
  simp only [ne_eq] at h
  simp [transfer, asmTemplate, exec, Cpu.set, Outcome.cpu?, h]

theorem pageRound_ge (len : Nat) : len ≤ pageRound len := by
  unfold pageRound PAGE_SIZE
  omega

theorem leNat_lt (l : List Nat) (h : ∀ b ∈ l, b < 256) : leNat l < 256 ^ l.length := by
  induction l with
  | nil => simp [leNat]
  | cons b bs ih =>
    have hb := h b (List.mem_cons_self _ _)
    have hbs := ih (fun x hx => h x (List.mem_cons_of_mem _ hx))
    simp only [leNat, List.length_cons, pow_succ]
    omega

theorem field_lt (buf : List Nat) (off : Nat) (h : ∀ b ∈ buf, b < 256) :
    field buf off 8 < 2 ^ 64 := by
  unfold field
  have h1 : ∀ b ∈ (buf.drop off).take 8, b < 256 := fun b hb =>
    h b (List.mem_of_mem_drop (List.mem_of_mem_take hb))
  have h2 := leNat_lt _ h1
  have h3 : ((buf.drop off).take 8).length ≤ 8 := by simp
  calc leNat ((buf.drop off).take 8) < 256 ^ ((buf.drop off).take 8).length := h2
    _ ≤ 256 ^ 8 := Nat.pow_le_pow_right (by decide) h3
    _ = 2 ^ 64 := by norm_num

/-! ## Runs in which every call succeeds -/

/-- The `PT_LOAD` branch when every call succeeds and the file holds the
segment: the memory afterwards. -/
theorem load_segment_nice (os : OS) (st : LState) (ph : Phdr)
    (hread : ∀ k, os.readResp k = ReadResp.full)
    (hseek : ∀ k, os.lseekOk k = true)
    (hmmap : ∀ k, os.mmapOk k = true)
    (hmprot : ∀ k, os.mprotectOk k = true)
    (hF : ph.p_filesz < 2 ^ 64)
    (hdata : ph.p_offset + ph.p_filesz ≤ st.file.length) :
    ∃ st2, load_segment os st ph = .cont st2 ∧
      st2.mem = ((st.mem.map ph.p_vaddr ph.p_memsz (protOf ph.p_flags ||| PROT_WRITE)).store
        ph.p_vaddr ((st.file.drop ph.p_offset).take ph.p_filesz)).protect
          ph.p_vaddr ph.p_memsz (protOf ph.p_flags) := by
  have hmin : min ph.p_filesz (st.file.length - ph.p_offset) = ph.p_filesz := by omega
  have hcont : load_segment os st ph = .cont (sys_mprotect os (sys_read_mem os (sys_lseek os
      (sys_mmap os st ph.p_vaddr ph.p_memsz (protOf ph.p_flags ||| PROT_WRITE)
        (MAP_PRIVATE ||| MAP_ANONYMOUS ||| MAP_FIXED)) ph.p_offset) ph.p_vaddr ph.p_filesz)
      ph.p_vaddr ph.p_memsz (protOf ph.p_flags)) := by
    unfold load_segment
    simp only []
    rw [if_neg, if_neg, if_neg]
    · rw [sys_mprotect_failed_iff]; simp [hmprot]
    · simp [sys_read_mem, sys_lseek, sys_mmap, hread, hseek, ReadResp.ret, hmin,
        toU64_natCast _ hF]
    · rw [sys_mmap_failed_iff]; simp [hmmap]
  refine ⟨_, hcont, ?_⟩
  simp [sys_mprotect, sys_read_mem, sys_lseek, sys_mmap, hread, hseek, hmmap, hmprot,
    ReadResp.got, hmin]

/-- A table of one loadable entry when every call succeeds. -/
theorem load_segments_one_nice (os : OS) (st : LState) (ph : Phdr)
    (hread : ∀ k, os.readResp k = ReadResp.full)
    (hseek : ∀ k, os.lseekOk k = true)
    (hmmap : ∀ k, os.mmapOk k = true)
    (hmprot : ∀ k, os.mprotectOk k = true)
    (hlen : st.pos + 56 ≤ st.file.length)
    (hph : parsePhdr ((st.file.drop st.pos).take 56) = ph)
    (htype : ph.p_type = PT_LOAD)
    (hF : ph.p_filesz < 2 ^ 64)
    (hdata : ph.p_offset + ph.p_filesz ≤ st.file.length) :
    ∃ st2, load_segments os 1 st = .cont st2 ∧
      st2.mem = ((st.mem.map ph.p_vaddr ph.p_memsz (protOf ph.p_flags ||| PROT_WRITE)).store
        ph.p_vaddr ((st.file.drop ph.p_offset).take ph.p_filesz)).protect
          ph.p_vaddr ph.p_memsz (protOf ph.p_flags) := by
  have hmin : min 56 (st.file.length - st.pos) = 56 := by omega
  have hret : (sys_read_buf os st PHDR_SIZE).ret = 56 := by
    simp [sys_read_buf, hread, ReadResp.ret, PHDR_SIZE, hmin]
  have hbuf : (sys_read_buf os st PHDR_SIZE).buf = (st.file.drop st.pos).take 56 := by
    simp [sys_read_buf, hread, ReadResp.got, PHDR_SIZE, hmin]
  have hph2 : parsePhdr (sys_read_buf os st PHDR_SIZE).buf = ph := by rw [hbuf]; exact hph
  obtain ⟨st2, hseg, hmem⟩ := load_segment_nice os
    { sys_read_buf os st PHDR_SIZE with
      examined := (sys_read_buf os st PHDR_SIZE).examined ++ [(st.pos, ph)] } ph
    hread hseek hmmap hmprot hF hdata
  refine ⟨st2, ?_, hmem⟩
  unfold load_segments
  simp only [] at hseg ⊢
  rw [if_neg (by rw [hret, toU64_phdr_size]; simp [PHDR_SIZE]), hph2, if_pos htype, hseg]
  simp [load_segments]

theorem or_write_writable (p : Nat) : (p ||| PROT_WRITE) &&& PROT_WRITE ≠ 0 := by
  intro h
  have h1 : ((p ||| PROT_WRITE) &&& PROT_WRITE).testBit 1 = true := by
    rw [Nat.testBit_and, Nat.testBit_or]
    have : PROT_WRITE.testBit 1 = true := by decide
    simp [this]
  rw [h] at h1
  simp at h1

/-- The bytes of a freshly mapped, filled and protected segment. -/
theorem segment_mem_val (m : Mem) (v len prot : Nat) (data : List Nat) (i : Nat)
    (hi : i < len) :
    ((((m.map v len (prot ||| PROT_WRITE)).store v data).protect v len prot) (v + i)).map
      Cell.val = some (data.getD i 0) := by
  have hr : v ≤ v + i ∧ v + i < v + pageRound len := by
    have := pageRound_ge len
    omega
  have hmap : (m.map v len (prot ||| PROT_WRITE)) (v + i) = some ⟨0, prot ||| PROT_WRITE⟩ := by
    unfold Mem.map
    rw [if_pos hr]
  unfold Mem.protect
  rw [if_pos hr]
  unfold Mem.store
  by_cases hd : i < data.length
  · rw [if_pos ⟨by omega, by omega⟩, hmap]
    simp [or_write_writable]
  · rw [if_neg (by omega), hmap]
    have : data.getD i 0 = 0 := by
      simp [List.getD_eq_getElem?_getD, List.getElem?_eq_none (by omega : data.length ≤ i)]
    rw [this]
    rfl

theorem pageRound_stack : pageRound STACK_SIZE = 0x200000 := by
  norm_num [pageRound, STACK_SIZE, PAGE_SIZE]

theorem specTableCalls_mprotect_mem (l : List Phdr) (ph : Phdr) (hmem : ph ∈ l)
    (htype : ph.p_type = 1) :
    Call.mprotect ph.p_vaddr ph.p_memsz (specProt ph.p_flags) ∈ specTableCalls l := by
  induction l with
  | nil => cases hmem
  | cons q rest ih =>
    simp only [specTableCalls, List.mem_cons, List.mem_append]
    rcases List.mem_cons.1 hmem with h | h
    · subst h
      right; left
      simp [htype, specSegmentCalls]
    · right; right
      exact ih h

theorem Outcome.jump_of_target (o : Outcome) (h : o.target?.isSome = true) :
    ∃ cpu t, o = Outcome.jump cpu t := by
  cases o with
  | exit s => simp [Outcome.target?] at h
  | jump cpu t => exact ⟨cpu, t, rfl⟩
  | returned => simp [Outcome.target?] at h

/-! ## The supervisor: single calls -/

/-- The three calls of `handle_shutdown_signal`. -/
theorem handle_shutdown_signal_trace (os : SvOS) (st : SvState) (sig : Nat) :
    handle_shutdown_signal os st sig =
      (if os.rebootOk (st.trace.length + 2) then
        SvStep.halt { st with trace := st.trace ++
          [SvCall.printf "\nInit: Shutdown signal received. Powering off.\n".toList,
            SvCall.sync, SvCall.reboot RB_POWER_OFF] } SvOutcome.poweredOff
      else
        SvStep.cont { st with trace := st.trace ++
          [SvCall.printf "\nInit: Shutdown signal received. Powering off.\n".toList,
            SvCall.sync, SvCall.reboot RB_POWER_OFF] }) := by
  simp [handle_shutdown_signal]

/-- With no effective power-off, the delivery of a signal changes the trace
only. -/
theorem deliver_on (os : SvOS) (st : SvState) (hon : ∀ k, os.rebootOk k = false) :
    ∃ st1, deliver os st = SvStep.cont st1 ∧ st1.ops = st.ops ∧ st1.ret = st.ret ∧
      st1.handlers = st.handlers ∧ st1.reaped = st.reaped := by
  unfold deliver
  cases hs : os.signalAt st.ops.length with
  | none => exact ⟨st, rfl, rfl, rfl, rfl, rfl⟩
  | some sig =>
    simp only []
    cases hl : st.handlers.lookup sig with
    | none => exact ⟨st, rfl, rfl, rfl, rfl, rfl⟩
    | some h =>
      cases h
      simp only [handle_shutdown_signal_trace, hon]
      exact ⟨_, rfl, rfl, rfl, rfl, rfl⟩

theorem sv_call_on (os : SvOS) (st : SvState) (c : SvCall) (r : Int)
    (hon : ∀ k, os.rebootOk k = false) :
    ∃ st1, sv_call os st c r = SvStep.cont st1 ∧ st1.ops = st.ops ++ [c] ∧ st1.ret = r ∧
      st1.handlers = st.handlers ∧ st1.reaped = st.reaped := by
  obtain ⟨st0, h0, hops, _, hh, hr⟩ := deliver_on os st hon
  unfold sv_call
  rw [h0]
  exact ⟨_, rfl, by simp [hops], rfl, hh, hr⟩

theorem sv_fork_on (os : SvOS) (st : SvState) (hon : ∀ k, os.rebootOk k = false) :
    ∃ st1, sv_fork os st = SvStep.cont st1 ∧ st1.ops = st.ops ++ [SvCall.fork] ∧
      st1.ret = os.forkRet st.ops.length ∧ st1.handlers = st.handlers ∧
      st1.reaped = st.reaped :=
  sv_call_on os st _ _ hon

theorem sv_sleep_on (os : SvOS) (st : SvState) (n : Nat) (hon : ∀ k, os.rebootOk k = false) :
    ∃ st1, sv_sleep os st n = SvStep.cont st1 ∧ st1.ops = st.ops ++ [SvCall.sleep n] ∧
      st1.handlers = st.handlers ∧ st1.reaped = st.reaped := by
  obtain ⟨st1, h, h1, _, h3, h4⟩ := sv_call_on os st (SvCall.sleep n) 0 hon
  exact ⟨st1, h, h1, h3, h4⟩

theorem sv_waitpid_on (os : SvOS) (st : SvState) (pid : Int) (opts : Nat)
    (hon : ∀ k, os.rebootOk k = false) :
    ∃ st1, sv_waitpid os st pid opts = SvStep.cont st1 ∧
      st1.ops = st.ops ++ [SvCall.waitpid pid opts] ∧
      st1.ret = os.waitRet st.ops.length ∧ st1.handlers = st.handlers ∧
      st1.reaped = (if os.waitRet st.ops.length > 0 then
        st.reaped ++ [os.waitRet st.ops.length] else st.reaped) := by
  obtain ⟨st1, h, h1, h2, h3, h4⟩ :=
    sv_call_on os st (SvCall.waitpid pid opts) (os.waitRet st.ops.length) hon
  unfold sv_waitpid
  rw [h]
  refine ⟨_, rfl, h1, h2, h3, ?_⟩
  simp only [h2, h4]

/-- The sweep when the kernel hands out the pids of `Z` and then a value that
is not positive: `|Z| + 1` calls, all of `Z` reaped. -/
theorem reap_sweep_reaps (os : SvOS) (hon : ∀ k, os.rebootOk k = false) (Z : List Int) :
    ∀ (f : Nat) (st : SvState), (∀ z ∈ Z, 0 < z) →
      (∀ j, j < Z.length → Z[j]? = some (os.waitRet (st.ops.length + j))) →
      os.waitRet (st.ops.length + Z.length) ≤ 0 → Z.length + 1 ≤ f →
      ∃ st1, reap_sweep os f st = SvStep.cont st1 ∧
        st1.ops = st.ops ++ List.replicate (Z.length + 1) (SvCall.waitpid (-1) WNOHANG) ∧
        st1.reaped = st.reaped ++ Z ∧ st1.handlers = st.handlers := by
  induction Z with
  | nil =>
    intro f st _ _ hend hf
    obtain ⟨g, rfl⟩ : ∃ g, f = g + 1 := ⟨f - 1, by simp at hf; omega⟩
    obtain ⟨st1, h, h1, h2, h3, h4⟩ := sv_waitpid_on os st (-1) WNOHANG hon
    have hend2 : os.waitRet st.ops.length ≤ 0 := by simpa using hend
    have hnot : ¬ os.waitRet st.ops.length > 0 := by omega
    unfold reap_sweep
    rw [h]
    simp only [h2, hnot, if_false]
    refine ⟨st1, rfl, by simp [h1], ?_, h3⟩
    rw [h4, if_neg hnot]
    simp
  | cons z rest ih =>
    intro f st hpos hret hend hf
    obtain ⟨g, rfl⟩ : ∃ g, f = g + 1 := ⟨f - 1, by simp at hf; omega⟩
    obtain ⟨st1, h, h1, h2, h3, h4⟩ := sv_waitpid_on os st (-1) WNOHANG hon
    have hz : os.waitRet st.ops.length = z := by
      have := hret 0 (by simp)
      simpa using this.symm
    have hzpos : os.waitRet st.ops.length > 0 := by
      rw [hz]; exact hpos z (List.mem_cons_self _ _)
    have hlen : st1.ops.length = st.ops.length + 1 := by simp [h1]
    obtain ⟨st2, hs, hs1, hs2, hs3⟩ := ih g st1
      (fun y hy => hpos y (List.mem_cons_of_mem _ hy))
      (by
        intro j hj
        have := hret (j + 1) (by simp; omega)
        rw [hlen]
        simpa [Nat.add_assoc, Nat.add_comm 1 j] using this)
      (by
        rw [hlen]
        have : st.ops.length + 1 + rest.length = st.ops.length + (z :: rest).length := by
          simp; omega
        rw [this]; exact hend)
      (by simp at hf; omega)
    unfold reap_sweep
    rw [h]
    simp only [h2, hzpos, if_true]
    refine ⟨st2, hs, ?_, ?_, by rw [hs3, h3]⟩
    · rw [hs1, h1]
      simp [List.replicate_succ]
    · rw [hs2, h4, if_pos hzpos, hz]
      simp

theorem sv_getpid_init (os : SvOS) :
    sv_getpid os SvState.init = SvStep.cont (afterGetpid os) := by
  unfold sv_getpid sv_call deliver
  cases hs : os.signalAt SvState.init.ops.length with
  | none => rfl
  | some sig => rfl

/-! ## The supervisor: the calls of the main program only grow -/

theorem Extends.refl {α : Type} (a : List α) : Extends a a := ⟨[], by simp⟩

theorem Extends.trans {α : Type} {a b c : List α} (h1 : Extends a b) (h2 : Extends b c) :
    Extends a c := by
  obtain ⟨r1, rfl⟩ := h1
  obtain ⟨r2, rfl⟩ := h2
  exact ⟨r1 ++ r2, by simp⟩

theorem Extends.append {α : Type} (a r : List α) : Extends a (a ++ r) := ⟨r, rfl⟩

theorem Extends.getElem? {α : Type} {a b : List α} (h : Extends a b) (i : Nat)
    (hi : i < a.length) : b[i]? = a[i]? := by
  obtain ⟨r, rfl⟩ := h
  exact List.getElem?_append_left hi

theorem Extends.take {α : Type} {a b : List α} (h : Extends a b) : b.take a.length = a := by
  obtain ⟨r, rfl⟩ := h
  simp

theorem deliver_ops (os : SvOS) (st : SvState) :
    (deliver os st).state.ops = st.ops ∧ (deliver os st).state.handlers = st.handlers ∧
    (deliver os st).state.ret = st.ret ∧ (deliver os st).state.reaped = st.reaped := by
  unfold deliver
  cases hs : os.signalAt st.ops.length with
  | none => exact ⟨rfl, rfl, rfl, rfl⟩
  | some sig =>
    simp only []
    cases hl : st.handlers.lookup sig with
    | none => exact ⟨rfl, rfl, rfl, rfl⟩
    | some h =>
      cases h
      simp only [handle_shutdown_signal_trace]
      split_ifs <;> exact ⟨rfl, rfl, rfl, rfl⟩

/-- A call that is issued extends the calls of the main program by itself; a
call that is not issued (the machine was powered off) leaves them unchanged. -/
theorem sv_call_cont (os : SvOS) (st st1 : SvState) (c : SvCall) (r : Int)
    (h : sv_call os st c r = SvStep.cont st1) :
    st1.ops = st.ops ++ [c] ∧ st1.ret = r ∧ st1.handlers = st.handlers ∧
      st1.reaped = st.reaped := by
  have hd := deliver_ops os st
  unfold sv_call at h
  cases hdel : deliver os st with
  | halt st0 o => rw [hdel] at h; cases h
  | cont st0 =>
    rw [hdel] at h hd
    simp only [SvStep.state] at hd
    simp only [SvStep.cont.injEq] at h
    subst h
    simp [hd.1, hd.2.1, hd.2.2.2]

theorem sv_call_halt (os : SvOS) (st st1 : SvState) (c : SvCall) (r : Int) (o : SvOutcome)
    (h : sv_call os st c r = SvStep.halt st1 o) :
    st1.ops = st.ops ∧ st1.handlers = st.handlers ∧ st1.reaped = st.reaped := by
  have hd := deliver_ops os st
  unfold sv_call at h
  cases hdel : deliver os st with
  | cont st0 => rw [hdel] at h; cases h
  | halt st0 o0 =>
    rw [hdel] at h hd
    simp only [SvStep.state] at hd
    simp only [SvStep.halt.injEq] at h
    obtain ⟨h1, _⟩ := h
    subst h1
    exact ⟨hd.1, hd.2.1, hd.2.2.2⟩

theorem sv_call_ext (os : SvOS) (st : SvState) (c : SvCall) (r : Int) :
    Extends st.ops (sv_call os st c r).state.ops := by
  cases h : sv_call os st c r with
  | cont st1 =>
    simp only [SvStep.state]
    rw [(sv_call_cont os st st1 c r h).1]
    exact Extends.append _ _
  | halt st1 o =>
    simp only [SvStep.state]
    rw [(sv_call_halt os st st1 c r o h).1]
    exact Extends.refl _

theorem sv_signal_cont (os : SvOS) (st st1 : SvState) (s : Nat) (hd : Handler)
    (h : sv_signal os st s hd = SvStep.cont st1) :
    st1.ops = st.ops ++ [SvCall.signal s hd] ∧ st1.handlers = (s, hd) :: st.handlers := by
  unfold sv_signal at h
  cases hc : sv_call os st (SvCall.signal s hd) 0 with
  | halt st0 o => rw [hc] at h; cases h
  | cont st0 =>
    rw [hc] at h
    simp only [SvStep.cont.injEq] at h
    subst h
    have := sv_call_cont os st st0 _ _ hc
    exact ⟨this.1, by simp [this.2.2.1]⟩

theorem sv_signal_halt (os : SvOS) (st st1 : SvState) (s : Nat) (hd : Handler) (o : SvOutcome)
    (h : sv_signal os st s hd = SvStep.halt st1 o) : st1.ops = st.ops := by
  unfold sv_signal at h
  cases hc : sv_call os st (SvCall.signal s hd) 0 with
  | cont st0 => rw [hc] at h; cases h
  | halt st0 o0 =>
    rw [hc] at h
    simp only [SvStep.halt.injEq] at h
    obtain ⟨h1, _⟩ := h
    subst h1
    exact (sv_call_halt os st st0 _ _ o0 hc).1

theorem sv_waitpid_ext (os : SvOS) (st : SvState) (pid : Int) (opts : Nat) :
    Extends st.ops (sv_waitpid os st pid opts).state.ops := by
  have := sv_call_ext os st (SvCall.waitpid pid opts) (os.waitRet st.ops.length)
  unfold sv_waitpid
  cases hc : sv_call os st (SvCall.waitpid pid opts) (os.waitRet st.ops.length) with
  | cont st0 => rw [hc] at this; exact this
  | halt st0 o => rw [hc] at this; exact this

theorem sv_execve_ext (os : SvOS) (st : SvState) (p : List Char) (a e : List (List Char)) :
    Extends st.ops (sv_execve os st p a e).state.ops := by
  have := sv_call_ext os st (SvCall.execve p a e) (-1)
  unfold sv_execve
  cases hc : sv_call os st (SvCall.execve p a e) (-1) with
  | cont st0 =>
    rw [hc] at this
    simp only []
    split_ifs <;> exact this
  | halt st0 o => rw [hc] at this; exact this

theorem reap_sweep_ext (os : SvOS) (f : Nat) (st : SvState) :
    Extends st.ops (reap_sweep os f st).state.ops := by
  induction f generalizing st with
  | zero => exact Extends.refl _
  | succ f ih =>
    have h1 := sv_waitpid_ext os st (-1) WNOHANG
    unfold reap_sweep
    cases hc : sv_waitpid os st (-1) WNOHANG with
    | halt st1 o => rw [hc] at h1; exact h1
    | cont st1 =>
      rw [hc] at h1
      simp only []
      split_ifs
      · exact Extends.trans h1 (ih st1)
      · exact h1

/-- After a `fork` that was issued, the rest of the iteration and of the loop
only adds calls. -/
theorem supervise_after_fork (os : SvOS) (f : Nat) (st st1 : SvState)
    (hc : sv_fork os st = SvStep.cont st1)
    (ih : ∀ st2, Extends st2.ops (supervise os f st2).1.ops) :
    Extends st1.ops (supervise os (f + 1) st).1.ops := by
  unfold supervise
  rw [hc]
  simp only []
  split_ifs
  · have h2 := sv_call_ext os st1 (SvCall.sleep 5) 0
    cases hs : sv_sleep os st1 5 with
    | halt st2 o =>
      rw [show sv_call os st1 (SvCall.sleep 5) 0 = sv_sleep os st1 5 from rfl, hs] at h2
      exact h2
    | cont st2 =>
      rw [show sv_call os st1 (SvCall.sleep 5) 0 = sv_sleep os st1 5 from rfl, hs] at h2
      exact Extends.trans h2 (ih st2)
  · have h2 := sv_execve_ext os st1 SHELL_PATH [SHELL_PATH] ["PATH=/TinyDOS/system32".toList]
    cases hs : sv_execve os st1 SHELL_PATH [SHELL_PATH] ["PATH=/TinyDOS/system32".toList] with
    | halt st2 o => rw [hs] at h2; exact h2
    | cont st2 => rw [hs] at h2; exact h2
  · have h2 := sv_waitpid_ext os st1 st1.ret 0
    cases hs : sv_waitpid os st1 st1.ret 0 with
    | halt st2 o => rw [hs] at h2; exact h2
    | cont st2 =>
      rw [hs] at h2
      have h3 := reap_sweep_ext os f st2
      simp only []
      cases hr : reap_sweep os f st2 with
      | halt st3 o => rw [hr] at h3; exact Extends.trans h2 h3
      | cont st3 =>
        rw [hr] at h3
        have h4 := sv_call_ext os st3 (SvCall.sleep 2) 0
        simp only []
        cases hs2 : sv_sleep os st3 2 with
        | halt st4 o =>
          rw [show sv_call os st3 (SvCall.sleep 2) 0 = sv_sleep os st3 2 from rfl, hs2] at h4
          exact Extends.trans h2 (Extends.trans h3 h4)
        | cont st4 =>
          rw [show sv_call os st3 (SvCall.sleep 2) 0 = sv_sleep os st3 2 from rfl, hs2] at h4
          exact Extends.trans h2 (Extends.trans h3 (Extends.trans h4 (ih st4)))

theorem supervise_ext (os : SvOS) (f : Nat) (st : SvState) :
    Extends st.ops (supervise os f st).1.ops := by
  induction f generalizing st with
  | zero => exact Extends.refl _
  | succ f ih =>
    cases hc : sv_fork os st with
    | halt st1 o =>
      unfold supervise
      rw [hc]
      rw [(sv_call_halt os st st1 _ _ o hc).1]
      exact Extends.refl _
    | cont st1 =>
      have h1 : Extends st.ops st1.ops := by
        rw [(sv_call_cont os st st1 _ _ hc).1]
        exact Extends.append _ _
      exact Extends.trans h1 (supervise_after_fork os f st st1 hc ih)

/-- Whenever the loop issues a call at all, the first one is a `fork`. -/
theorem supervise_first_call (os : SvOS) (f : Nat) (st : SvState) :
    (supervise os f st).1.ops = st.ops ∨
      ((supervise os f st).1.ops)[st.ops.length]? = some SvCall.fork := by
  cases f with
  | zero => left; rfl
  | succ f =>
    cases hc : sv_fork os st with
    | halt st1 o =>
      left
      unfold supervise
      rw [hc]
      exact (sv_call_halt os st st1 _ _ o hc).1
    | cont st1 =>
      right
      have h1 := (sv_call_cont os st st1 _ _ hc).1
      have h2 := supervise_after_fork os f st st1 hc (supervise_ext os f)
      rw [Extends.getElem? h2 st.ops.length (by simp [h1]), h1]
      simp

/-- Under no effective power-off the loop begins with a `fork`. -/
theorem supervise_starts_with_fork (os : SvOS) (hon : ∀ k, os.rebootOk k = false)
    (g : Nat) (st : SvState) :
    ((supervise os (g + 1) st).1.ops)[st.ops.length]? = some SvCall.fork := by
  obtain ⟨st1, hc, h1, _⟩ := sv_fork_on os st hon
  have h2 := supervise_after_fork os g st st1 hc (supervise_ext os g)
  rw [Extends.getElem? h2 st.ops.length (by simp [h1]), h1]
  simp

/-! ## The supervisor: nothing follows an effective power-off -/

theorem powerOffAt_lt (os : SvOS) (tr : List SvCall) (i : Nat)
    (h : powerOffAt os tr i = true) : i < tr.length := by
  by_contra hk
  have : tr[i]? = none := List.getElem?_eq_none (by omega)
  simp [powerOffAt, this] at h

theorem powerOffAt_append_lt (os : SvOS) (tr r : List SvCall) (i : Nat) (hi : i < tr.length) :
    powerOffAt os (tr ++ r) i = powerOffAt os tr i := by
  simp [powerOffAt, List.getElem?_append_left hi]

theorem GoodSv_nil (os : SvOS) : GoodSv os [] := by
  intro i
  simp [powerOffAt]

theorem GoodSv_snoc (os : SvOS) (tr : List SvCall) (c : SvCall) (hg : GoodSv os tr)
    (hc : powerOffAt os (tr ++ [c]) tr.length = false) : GoodSv os (tr ++ [c]) := by
  intro i
  by_contra h
  have h : powerOffAt os (tr ++ [c]) i = true := by simpa using h
  have hlt := powerOffAt_lt os _ i h
  simp at hlt
  by_cases hi : i < tr.length
  · rw [powerOffAt_append_lt os tr [c] i hi, hg i] at h
    cases h
  · have : i = tr.length := by omega
    subst this
    rw [hc] at h
    cases h

theorem GoodSv_snoc_other (os : SvOS) (tr : List SvCall) (c : SvCall) (hg : GoodSv os tr)
    (hc : c.isReboot = false) : GoodSv os (tr ++ [c]) := by
  apply GoodSv_snoc os tr c hg
  cases c <;> simp [powerOffAt, SvCall.isReboot] at hc ⊢

theorem powerOffAt_snoc_reboot (os : SvOS) (tr : List SvCall) (cmd : Nat) :
    powerOffAt os (tr ++ [SvCall.reboot cmd]) tr.length = os.rebootOk tr.length := by
  simp [powerOffAt]

/-- A run whose trace holds an effective power-off ends there. -/
theorem ends_of_powerOffAt (os : SvOS) (tr : List SvCall) (o : SvOutcome)
    (h : GoodSv os tr ∨ EndsPoweredOff os tr o) (i : Nat) (hi : powerOffAt os tr i = true) :
    o = SvOutcome.poweredOff ∧ tr.length = i + 1 := by
  rcases h with hg | ⟨ho, tr0, c, htr, hg0, _⟩
  · rw [hg i] at hi; cases hi
  · refine ⟨ho, ?_⟩
    subst htr
    have hlt := powerOffAt_lt os _ i hi
    simp at hlt ⊢
    by_contra hne
    have hi2 : i < tr0.length := by omega
    rw [powerOffAt_append_lt os tr0 [c] i hi2, hg0 i] at hi
    cases hi

theorem handle_shutdown_signal_inv (os : SvOS) (st : SvState) (sig : Nat)
    (hg : GoodSv os st.trace) : SvInv os (handle_shutdown_signal os st sig) := by
  have g2 : GoodSv os (st.trace ++
      [SvCall.printf "\nInit: Shutdown signal received. Powering off.\n".toList] ++
      [SvCall.sync]) :=
    GoodSv_snoc_other os _ _ (GoodSv_snoc_other os _ _ hg rfl) rfl
  have hlen : (st.trace ++
      [SvCall.printf "\nInit: Shutdown signal received. Powering off.\n".toList] ++
      [SvCall.sync]).length = st.trace.length + 2 := by simp
  rw [handle_shutdown_signal_trace]
  by_cases hr : os.rebootOk (st.trace.length + 2) = true
  · rw [if_pos hr]
    right
    refine ⟨rfl, _, SvCall.reboot RB_POWER_OFF, ?_, g2, ?_⟩
    · simp
    · rw [powerOffAt_snoc_reboot, hlen]; exact hr
  · rw [if_neg hr]
    have : GoodSv os ((st.trace ++
        [SvCall.printf "\nInit: Shutdown signal received. Powering off.\n".toList] ++
        [SvCall.sync]) ++ [SvCall.reboot RB_POWER_OFF]) :=
      GoodSv_snoc os _ _ g2 (by rw [powerOffAt_snoc_reboot, hlen]; simpa using hr)
    simpa [SvInv] using this

theorem deliver_inv (os : SvOS) (st : SvState) (hg : GoodSv os st.trace) :
    SvInv os (deliver os st) := by
  unfold deliver
  cases hs : os.signalAt st.ops.length with
  | none => exact hg
  | some sig =>
    simp only []
    cases hl : st.handlers.lookup sig with
    | none => exact hg
    | some h =>
      cases h
      exact handle_shutdown_signal_inv os st sig hg

theorem sv_call_inv (os : SvOS) (st : SvState) (c : SvCall) (r : Int)
    (hg : GoodSv os st.trace) (hc : c.isReboot = false) : SvInv os (sv_call os st c r) := by
  have hd := deliver_inv os st hg
  unfold sv_call
  cases hdel : deliver os st with
  | halt st0 o => rw [hdel] at hd; exact hd
  | cont st0 =>
    rw [hdel] at hd
    exact GoodSv_snoc_other os _ _ hd hc

theorem sv_signal_inv (os : SvOS) (st : SvState) (s : Nat) (h : Handler)
    (hg : GoodSv os st.trace) : SvInv os (sv_signal os st s h) := by
  have hd := sv_call_inv os st (SvCall.signal s h) 0 hg rfl
  unfold sv_signal
  cases hc : sv_call os st (SvCall.signal s h) 0 with
  | halt st0 o => rw [hc] at hd; exact hd
  | cont st0 => rw [hc] at hd; exact hd

theorem sv_waitpid_inv (os : SvOS) (st : SvState) (pid : Int) (opts : Nat)
    (hg : GoodSv os st.trace) : SvInv os (sv_waitpid os st pid opts) := by
  have hd := sv_call_inv os st (SvCall.waitpid pid opts) (os.waitRet st.ops.length) hg rfl
  unfold sv_waitpid
  cases hc : sv_call os st (SvCall.waitpid pid opts) (os.waitRet st.ops.length) with
  | halt st0 o => rw [hc] at hd; exact hd
  | cont st0 => rw [hc] at hd; exact hd

theorem sv_execve_inv (os : SvOS) (st : SvState) (p : List Char) (a e : List (List Char))
    (hg : GoodSv os st.trace) : SvInv os (sv_execve os st p a e) := by
  have hd := sv_call_inv os st (SvCall.execve p a e) (-1) hg rfl
  unfold sv_execve
  cases hc : sv_call os st (SvCall.execve p a e) (-1) with
  | halt st0 o => rw [hc] at hd; exact hd
  | cont st0 =>
    rw [hc] at hd
    simp only []
    split_ifs
    · left; exact hd
    · exact hd

theorem reap_sweep_inv (os : SvOS) (f : Nat) (st : SvState) (hg : GoodSv os st.trace) :
    SvInv os (reap_sweep os f st) := by
  induction f generalizing st with
  | zero => left; exact hg
  | succ f ih =>
    have h1 := sv_waitpid_inv os st (-1) WNOHANG hg
    unfold reap_sweep
    cases hc : sv_waitpid os st (-1) WNOHANG with
    | halt st1 o => rw [hc] at h1; exact h1
    | cont st1 =>
      rw [hc] at h1
      simp only []
      split_ifs
      · exact ih st1 h1
      · exact h1

theorem supervise_inv (os : SvOS) (f : Nat) (st : SvState) (hg : GoodSv os st.trace) :
    GoodSv os (supervise os f st).1.trace ∨
      EndsPoweredOff os (supervise os f st).1.trace (supervise os f st).2 := by
  induction f generalizing st with
  | zero => left; exact hg
  | succ f ih =>
    have h1 := sv_call_inv os st SvCall.fork (os.forkRet st.ops.length) hg rfl
    unfold supervise
    cases hc : sv_fork os st with
    | halt st1 o =>
      rw [show sv_call os st SvCall.fork (os.forkRet st.ops.length) = sv_fork os st from rfl,
        hc] at h1
      exact h1
    | cont st1 =>
      rw [show sv_call os st SvCall.fork (os.forkRet st.ops.length) = sv_fork os st from rfl,
        hc] at h1
      simp only []
      split_ifs
      · have h2 := sv_call_inv os st1 (SvCall.sleep 5) 0 h1 rfl
        cases hs : sv_sleep os st1 5 with
        | halt st2 o =>
          rw [show sv_call os st1 (SvCall.sleep 5) 0 = sv_sleep os st1 5 from rfl, hs] at h2
          exact h2
        | cont st2 =>
          rw [show sv_call os st1 (SvCall.sleep 5) 0 = sv_sleep os st1 5 from rfl, hs] at h2
          exact ih st2 h2
      · have h2 := sv_execve_inv os st1 SHELL_PATH [SHELL_PATH]
          ["PATH=/TinyDOS/system32".toList] h1
        cases hs : sv_execve os st1 SHELL_PATH [SHELL_PATH] ["PATH=/TinyDOS/system32".toList] with
        | halt st2 o => rw [hs] at h2; exact h2
        | cont st2 => rw [hs] at h2; left; exact h2
      · have h2 := sv_waitpid_inv os st1 st1.ret 0 h1
        cases hs : sv_waitpid os st1 st1.ret 0 with
        | halt st2 o => rw [hs] at h2; exact h2
        | cont st2 =>
          rw [hs] at h2
          have h3 := reap_sweep_inv os f st2 h2
          simp only []
          cases hr : reap_sweep os f st2 with
          | halt st3 o => rw [hr] at h3; exact h3
          | cont st3 =>
            rw [hr] at h3
            have h4 := sv_call_inv os st3 (SvCall.sleep 2) 0 h3 rfl
            simp only []
            cases hs2 : sv_sleep os st3 2 with
            | halt st4 o =>
              rw [show sv_call os st3 (SvCall.sleep 2) 0 = sv_sleep os st3 2 from rfl, hs2] at h4
              exact h4
            | cont st4 =>
              rw [show sv_call os st3 (SvCall.sleep 2) 0 = sv_sleep os st3 2 from rfl, hs2] at h4
              exact ih st4 h4

theorem init_main_inv (os : SvOS) (fuel : Nat) (argv environ : List (List Char)) :
    GoodSv os (init_main os fuel argv environ).1.trace ∨
      EndsPoweredOff os (init_main os fuel argv environ).1.trace
        (init_main os fuel argv environ).2 := by
  have g1 : GoodSv os [SvCall.getpid] := GoodSv_snoc_other os [] _ (GoodSv_nil os) rfl
  unfold init_main
  rw [sv_getpid_init]
  simp only []
  split_ifs
  · left; exact g1
  · have h2 := sv_signal_inv os (afterGetpid os) SIGTERM Handler.handle_shutdown_signal g1
    cases hs : sv_signal os (afterGetpid os) SIGTERM Handler.handle_shutdown_signal with
    | halt st2 o => rw [hs] at h2; exact h2
    | cont st2 =>
      rw [hs] at h2
      have h3 := sv_signal_inv os st2 SIGINT Handler.handle_shutdown_signal h2
      simp only []
      cases hs2 : sv_signal os st2 SIGINT Handler.handle_shutdown_signal with
      | halt st3 o => rw [hs2] at h3; exact h3
      | cont st3 =>
        rw [hs2] at h3
        exact supervise_inv os fuel st3 h3

/-- The calls of `main` before the loop: every run either stops before the
second handler is installed, without any `fork`, or continues the three calls
`getpid`, `signal(SIGTERM, h)`, `signal(SIGINT, h)`. -/
theorem init_main_setup (os : SvOS) (fuel : Nat) (argv environ : List (List Char)) :
    (∀ c ∈ (init_main os fuel argv environ).1.ops, c ≠ SvCall.fork) ∨
    Extends [SvCall.getpid, SvCall.signal SIGTERM Handler.handle_shutdown_signal,
      SvCall.signal SIGINT Handler.handle_shutdown_signal]
      (init_main os fuel argv environ).1.ops := by
  unfold init_main
  rw [sv_getpid_init]
  simp only []
  split_ifs
  · left; simp [afterGetpid]
  · cases hs : sv_signal os (afterGetpid os) SIGTERM Handler.handle_shutdown_signal with
    | halt st2 o =>
      left
      have := sv_signal_halt os _ st2 _ _ o hs
      simp only [this]
      simp [afterGetpid]
    | cont st2 =>
      have h2 := (sv_signal_cont os _ st2 _ _ hs).1
      simp only [List.singleton_append] at h2
      simp only []
      cases hs2 : sv_signal os st2 SIGINT Handler.handle_shutdown_signal with
      | halt st3 o =>
        left
        have := sv_signal_halt os _ st3 _ _ o hs2
        simp only [this, h2]
        simp [afterGetpid]
      | cont st3 =>
        right
        have h3 := (sv_signal_cont os _ st3 _ _ hs2).1
        have hext := supervise_ext os fuel st3
        rw [h3, h2] at hext
        simpa [afterGetpid] using hext

/-! ## Further facts used by the claims -/

/-- When the file opens, its header is read in full and is valid, the run is
the walk of the program-header table followed, if the walk went through, by the
end stage. -/
theorem load_and_run_elf_of_table (os : OS) (cc : AsmOperands) (regs : Cpu)
    (filepath original_command : List Char) (file : List Nat)
    (hopen : os.fs filepath = some file)
    (hread : (os.readResp 1).ret 64 file.length = 64)
    (hvalid : validEhdr (parseEhdr (file.take 64)) = true) :
    load_and_run_elf os cc regs filepath original_command =
      (match tableStep os filepath with
       | .halt st4 o => (st4, o)
       | .cont st4 => map_stack_and_jump os cc regs st4 (parseEhdr (file.take 64))) := by
  have hret := headerState_ret os filepath file hopen
  have hbuf := headerState_buf os filepath file hopen hread
  rw [load_and_run_elf_of_open os cc regs filepath original_command file hopen]
  rw [if_neg (by rw [hret, hread]; simp [EHDR_SIZE, toU64_ehdr_size]),
    if_neg (by rw [hbuf, hvalid]; simp)]
  unfold tableStep
  rw [hbuf]

/-- The end stage issues the close and the mmap of the stack and nothing else. -/
theorem map_stack_and_jump_trace (os : OS) (cc : AsmOperands) (regs : Cpu) (st : LState)
    (ehdr : Ehdr) :
    (map_stack_and_jump os cc regs st ehdr).1.trace =
      st.trace ++ [Call.close, Call.mmap 0x700000000000 0x200000 3 0x32] := by
  unfold map_stack_and_jump
  simp only []
  split_ifs
  · simp [do_perror, sys_mmap, sys_close, STACK_ADDR, STACK_SIZE, PROT_READ, PROT_WRITE,
      MAP_PRIVATE, MAP_ANONYMOUS, MAP_FIXED]
  · simp [sys_mmap, sys_close, STACK_ADDR, STACK_SIZE, PROT_READ, PROT_WRITE,
      MAP_PRIVATE, MAP_ANONYMOUS, MAP_FIXED]

/-- The end stage exits with status 1 when the mmap of the stack is refused and
jumps otherwise. -/
theorem map_stack_and_jump_outcome (os : OS) (cc : AsmOperands) (regs : Cpu) (st : LState)
    (ehdr : Ehdr) :
    (os.mmapOk (st.trace.length + 1) = false →
      (map_stack_and_jump os cc regs st ehdr).2 = Outcome.exit 1) ∧
    (os.mmapOk (st.trace.length + 1) = true →
      (map_stack_and_jump os cc regs st ehdr).2.target?.isSome = true) := by
  have hlen : (sys_close st).trace.length = st.trace.length + 1 := by simp [sys_close]
  have hiff := sys_mmap_failed_iff os (sys_close st) STACK_ADDR STACK_SIZE
    (PROT_READ ||| PROT_WRITE) (MAP_PRIVATE ||| MAP_ANONYMOUS ||| MAP_FIXED)
  rw [hlen] at hiff
  unfold map_stack_and_jump
  simp only []
  constructor
  · intro h
    rw [if_pos (hiff.2 h)]
  · intro h
    rw [if_neg (fun hc => by rw [hiff.1 hc] at h; cases h)]
    rfl

theorem sv_execve_on (os : SvOS) (st : SvState) (p : List Char) (a e : List (List Char))
    (hon : ∀ k, os.rebootOk k = false) :
    ∃ st1, st1.ops = st.ops ++ [SvCall.execve p a e] ∧ st1.handlers = st.handlers ∧
      sv_execve os st p a e =
        (if os.execOk st.ops.length then SvStep.halt st1 SvOutcome.replaced
         else SvStep.cont st1) := by
  obtain ⟨st1, h, h1, _, h3, _⟩ := sv_call_on os st (SvCall.execve p a e) (-1) hon
  refine ⟨st1, h1, h3, ?_⟩
  unfold sv_execve
  rw [h]

theorem supervise_retry (os : SvOS) (hon : ∀ k, os.rebootOk k = false) (n f : Nat) :
    ∀ st : SvState, (∀ j, j < n → os.forkRet (st.ops.length + 2 * j) < 0) →
      ∃ st1, supervise os (f + n) st = supervise os f st1 ∧
        st1.ops = st.ops ++ retryCalls n ∧ st1.handlers = st.handlers := by
  induction n with
  | zero => intro st _; exact ⟨st, rfl, by simp [retryCalls], rfl⟩
  | succ n ih =>
    intro st hfail
    obtain ⟨sa, ha, ha1, ha2, ha3, _⟩ := sv_fork_on os st hon
    obtain ⟨sb, hb, hb1, hb3, _⟩ := sv_sleep_on os sa 5 hon
    have hneg : sa.ret < 0 := by
      rw [ha2]
      simpa using hfail 0 (by omega)
    have hlen : sb.ops.length = st.ops.length + 2 := by simp [hb1, ha1]
    obtain ⟨sc, hc, hc1, hc3⟩ := ih sb (by
      intro j hj
      rw [hlen]
      have := hfail (j + 1) (by omega)
      have e : st.ops.length + 2 * (j + 1) = st.ops.length + 2 + 2 * j := by ring
      rw [e] at this
      exact this)
    refine ⟨sc, ?_, ?_, ?_⟩
    · rw [← hc]
      have e : f + (n + 1) = (f + n) + 1 := by ring
      rw [e]
      conv_lhs => unfold supervise
      rw [ha]
      simp only [hneg, if_true, hb]
    · rw [hc1, hb1, ha1]
      simp [retryCalls]
    · rw [hc3, hb3, ha3]

theorem retryCalls_count (n : Nat) :
    (retryCalls n).count SvCall.fork = n ∧ (retryCalls n).count (SvCall.sleep 5) = n ∧
    (retryCalls n).length = 2 * n := by
  induction n with
  | zero => simp [retryCalls]
  | succ n ih =>
    obtain ⟨h1, h2, h3⟩ := ih
    refine ⟨?_, ?_, ?_⟩
    · simp [retryCalls, h1]
    · simp [retryCalls, h2]
    · simp [retryCalls, h3]; ring

theorem tokenize_nil : tokenize [] = [] := by decide

/-! ## The copy of a segment and the memory around it -/

theorem sys_mmap_outside (os : OS) (st : LState) (addr len prot flags a : Nat)
    (hout : ¬ (addr ≤ a ∧ a < addr + pageRound len)) :
    (sys_mmap os st addr len prot flags).mem a = st.mem a := by
  simp only [sys_mmap]
  split_ifs
  · simp only [Mem.map]
    rw [if_neg hout]
  · rfl

theorem sys_mprotect_outside (os : OS) (st : LState) (addr len prot a : Nat)
    (hout : ¬ (addr ≤ a ∧ a < addr + pageRound len)) :
    (sys_mprotect os st addr len prot).mem a = st.mem a := by
  simp only [sys_mprotect]
  split_ifs
  · simp only [Mem.protect]
    rw [if_neg hout]
  · rfl

theorem exec_xor_self (r : Reg) (is : List Instr) (cpu : Cpu) :
    exec (Instr.xor r r :: is) cpu = exec is (cpu.set r 0) := by
  simp [exec]

/-- The template ends with a jump; every register but rsp is zero there, and
rsp holds what `%0` held at the start. -/
theorem exec_asmTemplate (cc : AsmOperands) (cpu : Cpu) :
    exec (asmTemplate cc) cpu =
      Outcome.jump (fun q => if q = Reg.rsp then cpu cc.op0 else 0)
        (if cc.op1 = Reg.rsp then cpu cc.op0 else 0) := by
  obtain ⟨op0, op1⟩ := cc
  unfold asmTemplate
  simp only [exec_xor_self, exec]
  congr 1
  · funext q
    cases q <;> simp [Cpu.set]
  · cases op1 <;> simp [Cpu.set]

/-- The value the `asm` statement finds in `%0`. -/
theorem transfer_op0 (cc : AsmOperands) (regs : Cpu) (top entry : Nat) :
    ((regs.set cc.op0 top).set cc.op1 entry) cc.op0 = if cc.op0 = cc.op1 then entry else top := by
  simp [Cpu.set]

/-- The registers and the target of the jump do not depend on the registers
of the loader before the `asm` statement. -/
theorem transfer_eq (cc : AsmOperands) (regs : Cpu) (top entry : Nat) :
    transfer cc regs top entry =
      Outcome.jump (fun q => if q = Reg.rsp then (if cc.op0 = cc.op1 then entry else top) else 0)
        (if cc.op1 = Reg.rsp then (if cc.op0 = cc.op1 then entry else top) else 0) := by
  unfold transfer
  rw [exec_asmTemplate, transfer_op0]

/-- A run that ends with a jump ends with the same jump whatever the registers
of the loader were. -/
theorem load_and_run_elf_regs_irrelevant (os : OS) (cc : AsmOperands) (regs1 regs2 : Cpu)
    (filepath original_command : List Char) :
    load_and_run_elf os cc regs1 filepath original_command =
      load_and_run_elf os cc regs2 filepath original_command := by
  unfold load_and_run_elf map_stack_and_jump
  simp only [transfer_eq]

/-! ## The address of a segment and the decisions of the loader -/

/-- What the handling of one loadable entry leaves behind, apart from the
memory: whether the run goes on, the exit status, the file position, the calls
without their address arguments, the text printed and the records examined. -/
theorem load_segment_vaddr_irrelevant (os : OS) (st : LState) (ph : Phdr) (v : Nat) :
    (load_segment os st { ph with p_vaddr := v }).isCont = (load_segment os st ph).isCont ∧
    (load_segment os st { ph with p_vaddr := v }).status? = (load_segment os st ph).status? ∧
    (load_segment os st { ph with p_vaddr := v }).state.pos = (load_segment os st ph).state.pos ∧
    (load_segment os st { ph with p_vaddr := v }).state.trace.map Call.shape =
      (load_segment os st ph).state.trace.map Call.shape ∧
    (load_segment os st { ph with p_vaddr := v }).state.out = (load_segment os st ph).state.out ∧
    (load_segment os st { ph with p_vaddr := v }).state.examined =
      (load_segment os st ph).state.examined := by
  have hm : ∀ a : Nat, ((sys_mmap os st a ph.p_memsz (protOf ph.p_flags ||| PROT_WRITE)
      (MAP_PRIVATE ||| MAP_ANONYMOUS ||| MAP_FIXED)).ret = -1) ↔
      os.mmapOk st.trace.length = false := fun a => sys_mmap_failed_iff os st a _ _ _
  unfold load_segment
  simp only []
  by_cases h1 : os.mmapOk st.trace.length = false
  · rw [if_pos ((hm v).2 h1), if_pos ((hm ph.p_vaddr).2 h1)]
    simp [Step.isCont, Step.status?, Step.state, do_perror, sys_mmap, Call.shape]
  · rw [if_neg (fun h => h1 ((hm v).1 h)), if_neg (fun h => h1 ((hm ph.p_vaddr).1 h))]
    simp only [sys_read_mem, sys_lseek, sys_mmap, sys_mprotect, List.length_append,
      List.length_singleton]
    split_ifs <;>
      simp [Step.isCont, Step.status?, Step.state, do_perror, Call.shape]

/-- After a granted mmap of the stack every byte of the stack region is zero,
readable and writable, not executable. -/
theorem stack_fresh (m : Mem) (a : Nat) (h1 : STACK_ADDR ≤ a) (h2 : a < STACK_ADDR + STACK_SIZE) :
    (m.map STACK_ADDR STACK_SIZE (PROT_READ ||| PROT_WRITE)) a = some ⟨0, 3⟩ := by
  unfold Mem.map
  rw [pageRound_stack, if_pos ⟨h1, by simpa [STACK_SIZE] using h2⟩]
  rfl

/-! ## Paths -/

/-- A command of at most 255 characters that does not start with a slash is
looked up in `/TinyDOS/System64/`. -/
theorem resolve_full_path_bare (c : List Char) (hlen : c.length ≤ 255)
    (hbare : c.head? ≠ some '/') :
    resolve_full_path c = "/TinyDOS/System64/".toList ++ c := by
  have hpre : "/TinyDOS/System64/".toList.length = 18 := by decide
  unfold resolve_full_path
  rw [if_neg hbare]
  exact List.take_of_length_le (by rw [List.length_append, hpre]; unfold PATH_MAX_LEN; omega)

theorem map_slash_of_no_backslash (p : List Char) (hp : BACKSLASH ∉ p) :
    (p.map (fun c => if c = '/' then BACKSLASH else c)).map
      (fun c => if c = BACKSLASH then '/' else c) = p := by
  induction p with
  | nil => rfl
  | cons x xs ih =>
    simp only [List.mem_cons, not_or] at hp
    simp only [List.map_cons, List.map_map] at ih ⊢
    rw [ih hp.2]
    congr 1
    by_cases hx : x = '/'
    · simp [hx]
    · have hx2 : x ≠ BACKSLASH := fun h => hp.1 h.symm
      simp [hx, hx2]

theorem normalize_no_backslash (q : List Char) : BACKSLASH ∉ normalize_path_to_linux q := by
  unfold normalize_path_to_linux
  simp only [List.mem_map, not_exists, not_and]
  intro x _ hx
  by_cases h : x = BACKSLASH
  · rw [if_pos h] at hx
    exact absurd hx (by decide)
  · rw [if_neg h] at hx
    exact h hx

theorem normalize_length (q : List Char) :
    (normalize_path_to_linux q).length =
      if hasDrivePrefix q then q.length - 2 else q.length := by
  unfold normalize_path_to_linux
  simp only [List.length_map]
  match q with
  | [] => simp [hasDrivePrefix]
  | [_] => simp [hasDrivePrefix]
  | c0 :: c1 :: rest =>
    simp only [hasDrivePrefix]
    by_cases h : (c0 = 'C' ∨ c0 = 'c') ∧ c1 = ':'
    · simp [h]
    · simp [h]

/-! ## The editor: saving and opening -/

/-- The text written for a list of rows: each row followed by a newline. -/
theorem rowsToString_foldl (rows : List (List Char)) (acc : List Char) :
    rows.foldl (fun buf r => buf ++ r ++ ['\n']) acc =
      acc ++ (rows.map (fun r => r ++ ['\n'])).flatten := by
  induction rows generalizing acc with
  | nil => simp
  | cons r rs ih =>
    simp only [List.foldl_cons, List.map_cons, List.flatten_cons]
    rw [ih]
    simp

theorem totlen_foldl (rows : List (List Char)) (acc : Int) :
    rows.foldl (fun totlen r => totlen + ((r.length : Int) + 1)) acc =
      acc + (rows.map (fun r => (r.length : Int) + 1)).sum := by
  induction rows generalizing acc with
  | nil => simp
  | cons r rs ih =>
    simp only [List.foldl_cons, List.map_cons, List.sum_cons]
    rw [ih]
    ring

theorem join_rows_length (rows : List (List Char)) :
    (((rows.map (fun r => r ++ ['\n'])).flatten.length : Nat) : Int) =
      (rows.map (fun r => (r.length : Int) + 1)).sum := by
  induction rows with
  | nil => simp
  | cons r rs ih =>
    simp only [List.map_cons, List.flatten_cons, List.length_append, List.sum_cons,
      List.length_singleton]
    rw [← ih]
    push_cast
    ring

/-- `getline` on a row without newline, followed by a newline. -/
theorem getline_row (r s : List Char) (hnl : '\n' ∉ r) :
    getline (r ++ '\n' :: s) = some (r ++ ['\n'], s) := by
  have hp : ∀ a ∈ r, (fun x : Char => x != '\n') a = true := by
    intro a ha
    have : a ≠ '\n' := fun h => hnl (h ▸ ha)
    simpa using this
  have ht : (r ++ '\n' :: s).takeWhile (fun x => x != '\n') = r := by
    rw [List.takeWhile_append_of_pos hp]
    simp
  have hd : (r ++ '\n' :: s).dropWhile (fun x => x != '\n') = '\n' :: s := by
    rw [List.dropWhile_append_of_pos hp]
    simp
  cases hrs : r ++ '\n' :: s with
  | nil => simp at hrs
  | cons c cs =>
    rw [hrs] at ht hd
    simp only [getline, ht, hd]

/-- Stripping the line end of a written row gives the row back. -/
theorem stripEol_row (r : List Char) (hnl : '\n' ∉ r) (hcr : r.getLast? ≠ some '\r') :
    stripEol (r ++ ['\n']) = r := by
  unfold stripEol
  rw [List.rdropWhile_concat_pos _ _ _ (by simp)]
  rw [List.rdropWhile_eq_self_iff]
  intro hl
  have hlast : r.getLast? = some (r.getLast hl) := List.getLast?_eq_getLast r hl
  have hmem : r.getLast hl ∈ r := List.getLast_mem hl
  have h1 : r.getLast hl ≠ '\n' := fun h => hnl (h ▸ hmem)
  have h2 : r.getLast hl ≠ '\r' := fun h => hcr (by rw [hlast, h])
  simp [h1, h2]

theorem editorInsertRow_end (E : editorConfig) (s : List Char) :
    editorInsertRow E E.numrows s = { E with row := E.row ++ [s], dirty := E.dirty + 1 } := by
  unfold editorInsertRow editorConfig.numrows
  rw [if_neg (by omega)]
  simp

/-- Reading back the text written for `rows` appends `rows` to the buffer. -/
theorem editorOpenLoop_rows (rows : List (List Char))
    (hnl : ∀ r ∈ rows, '\n' ∉ r) (hcr : ∀ r ∈ rows, r.getLast? ≠ some '\r') :
    ∀ (fuel : Nat) (E : editorConfig), rows.length < fuel →
      (editorOpenLoop fuel ((rows.map (fun r => r ++ ['\n'])).flatten) E).row = E.row ++ rows := by
  induction rows with
  | nil =>
    intro fuel E hf
    cases fuel with
    | zero => simp at hf
    | succ f => simp [editorOpenLoop, getline]
  | cons r rs ih =>
    intro fuel E hf
    cases fuel with
    | zero => simp at hf
    | succ f =>
      have hr := hnl r (List.mem_cons_self _ _)
      have hc := hcr r (List.mem_cons_self _ _)
      have hjoin : ((r :: rs).map (fun r => r ++ ['\n'])).flatten =
          r ++ '\n' :: (rs.map (fun r => r ++ ['\n'])).flatten := by simp
      rw [hjoin]
      simp only [editorOpenLoop, getline_row r _ hr, stripEol_row r hr hc]
      rw [ih (fun x hx => hnl x (List.mem_cons_of_mem _ hx))
        (fun x hx => hcr x (List.mem_cons_of_mem _ hx)) f _
        (by simp only [List.length_cons] at hf; omega)]
      rw [editorInsertRow_end]
      simp

/-! ## The supervisor: what follows a run of the handler -/

theorem getElem?_lt_of_some {α : Type} (l : List α) (i : Nat) (a : α) (h : l[i]? = some a) :
    i < l.length := by
  by_contra hk
  rw [List.getElem?_eq_none (by omega)] at h
  cases h

theorem HandlerShaped_nil (os : SvOS) : HandlerShaped os [] := by
  intro i c h
  simp at h

/-- The events of a trace stay what they are when the trace goes on. -/
theorem HandlerShaped_extend (os : SvOS) (tr r : List SvCall)
    (hs : HandlerShaped os tr)
    (hr : ∀ j c, r[j]? = some (SvCall.reboot c) →
      c = RB_POWER_OFF ∧ 2 ≤ tr.length + j ∧
      (tr ++ r)[tr.length + j - 1]? = some SvCall.sync ∧
      (tr ++ r)[tr.length + j - 2]? =
        some (SvCall.printf "\nInit: Shutdown signal received. Powering off.\n".toList) ∧
      (os.rebootOk (tr.length + j) = false →
        ∃ next, (tr ++ r)[tr.length + j + 1]? = some next ∧ next.isMainCall = true)) :
    HandlerShaped os (tr ++ r) := by
  intro i c h
  by_cases hi : i < tr.length
  · rw [List.getElem?_append_left hi] at h
    obtain ⟨hc, h2, h3, h4, h5⟩ := hs i c h
    refine ⟨hc, h2, ?_, ?_, ?_⟩
    · rw [List.getElem?_append_left (by omega)]; exact h3
    · rw [List.getElem?_append_left (by omega)]; exact h4
    · intro hf
      obtain ⟨next, hn, hm⟩ := h5 hf
      have hlt := getElem?_lt_of_some _ _ _ hn
      exact ⟨next, by rw [List.getElem?_append_left hlt]; exact hn, hm⟩
  · obtain ⟨j, rfl⟩ : ∃ j, i = tr.length + j := ⟨i - tr.length, by omega⟩
    rw [List.getElem?_append_right (by omega), Nat.add_sub_cancel_left] at h
    exact hr j c h

theorem HandlerShaped_snoc_main (os : SvOS) (tr : List SvCall) (c : SvCall)
    (hs : HandlerShaped os tr) (hc : c.isMainCall = true) : HandlerShaped os (tr ++ [c]) := by
  apply HandlerShaped_extend os tr [c] hs
  intro j c0 h
  cases j with
  | zero =>
    simp only [List.getElem?_cons_zero, Option.some.injEq] at h
    subst h
    cases hc
  | succ j => simp at h

/-- The three events of the handler, alone when the power-off took effect,
else followed by the call of the main program that was about to be issued. -/
theorem HandlerShaped_handler (os : SvOS) (tr tail : List SvCall)
    (hs : HandlerShaped os tr)
    (htail : (tail = [] ∧ os.rebootOk (tr.length + 2) = true) ∨
      ∃ c, tail = [c] ∧ c.isMainCall = true) :
    HandlerShaped os (tr ++ ([SvCall.printf
      "\nInit: Shutdown signal received. Powering off.\n".toList, SvCall.sync,
      SvCall.reboot RB_POWER_OFF] ++ tail)) := by
  apply HandlerShaped_extend os tr _ hs
  intro j c0 h
  have e1 : tr.length + 2 - 1 = tr.length + 1 := by omega
  have e2 : tr.length + 2 - 2 = tr.length + 0 := by omega
  rcases htail with ⟨rfl, hok⟩ | ⟨c, rfl, hc⟩
  · match j, h with
    | 2, h =>
      simp only [List.append_nil, List.getElem?_cons_succ, List.getElem?_cons_zero,
        Option.some.injEq, SvCall.reboot.injEq] at h
      refine ⟨h.symm, by omega, ?_, ?_, ?_⟩
      · rw [e1, List.getElem?_append_right (by omega), Nat.add_sub_cancel_left]; rfl
      · rw [e2, List.getElem?_append_right (by omega), Nat.add_sub_cancel_left]; rfl
      · intro hf; rw [hok] at hf; cases hf
    | 0, h => simp at h
    | 1, h => simp at h
    | j + 3, h => simp at h
  · match j, h with
    | 2, h =>
      simp only [List.cons_append, List.nil_append, List.getElem?_cons_succ,
        List.getElem?_cons_zero, Option.some.injEq, SvCall.reboot.injEq] at h
      refine ⟨h.symm, by omega, ?_, ?_, ?_⟩
      · rw [e1, List.getElem?_append_right (by omega), Nat.add_sub_cancel_left]; rfl
      · rw [e2, List.getElem?_append_right (by omega), Nat.add_sub_cancel_left]; rfl
      · intro _
        refine ⟨c, ?_, hc⟩
        rw [show tr.length + 2 + 1 = tr.length + 3 by omega,
          List.getElem?_append_right (by omega), Nat.add_sub_cancel_left]
        rfl
    | 0, h => simp at h
    | 1, h => simp at h
    | 3, h =>
      simp only [List.cons_append, List.nil_append, List.getElem?_cons_succ,
        List.getElem?_cons_zero, Option.some.injEq] at h
      subst h
      cases hc
    | j + 4, h => simp at h

/-- One call of the main program keeps the trace shaped. -/
theorem sv_call_shaped (os : SvOS) (st : SvState) (c : SvCall) (r : Int)
    (hs : HandlerShaped os st.trace) (hc : c.isMainCall = true) :
    HandlerShaped os (sv_call os st c r).state.trace := by
  unfold sv_call deliver
  cases hsig : os.signalAt st.ops.length with
  | none =>
    simp only [SvStep.state]
    exact HandlerShaped_snoc_main os _ c hs hc
  | some sig =>
    simp only []
    cases hl : st.handlers.lookup sig with
    | none =>
      simp only [SvStep.state]
      exact HandlerShaped_snoc_main os _ c hs hc
    | some h =>
      cases h
      simp only [handle_shutdown_signal_trace]
      by_cases hok : os.rebootOk (st.trace.length + 2) = true
      · rw [if_pos hok]
        simp only [SvStep.state]
        have := HandlerShaped_handler os st.trace [] hs (Or.inl ⟨rfl, hok⟩)
        simpa using this
      · rw [if_neg hok]
        simp only [SvStep.state]
        have := HandlerShaped_handler os st.trace [c] hs (Or.inr ⟨c, rfl, hc⟩)
        simpa using this

theorem sv_signal_trace_eq (os : SvOS) (st : SvState) (s : Nat) (h : Handler) :
    (sv_signal os st s h).state.trace = (sv_call os st (SvCall.signal s h) 0).state.trace := by
  unfold sv_signal
  cases sv_call os st (SvCall.signal s h) 0 <;> rfl

theorem sv_waitpid_trace_eq (os : SvOS) (st : SvState) (pid : Int) (opts : Nat) :
    (sv_waitpid os st pid opts).state.trace =
      (sv_call os st (SvCall.waitpid pid opts) (os.waitRet st.ops.length)).state.trace := by
  unfold sv_waitpid
  cases sv_call os st (SvCall.waitpid pid opts) (os.waitRet st.ops.length) <;> rfl

theorem sv_execve_trace_eq (os : SvOS) (st : SvState) (p : List Char) (a e : List (List Char)) :
    (sv_execve os st p a e).state.trace =
      (sv_call os st (SvCall.execve p a e) (-1)).state.trace := by
  unfold sv_execve
  cases sv_call os st (SvCall.execve p a e) (-1) with
  | halt st1 o => rfl
  | cont st1 =>
    simp only []
    split_ifs <;> rfl

theorem reap_sweep_shaped (os : SvOS) (f : Nat) (st : SvState)
    (hs : HandlerShaped os st.trace) : HandlerShaped os (reap_sweep os f st).state.trace := by
  induction f generalizing st with
  | zero => exact hs
  | succ f ih =>
    have h1 : HandlerShaped os (sv_waitpid os st (-1) WNOHANG).state.trace := by
      rw [sv_waitpid_trace_eq]
      exact sv_call_shaped os st _ _ hs rfl
    unfold reap_sweep
    cases hc : sv_waitpid os st (-1) WNOHANG with
    | halt st1 o => rw [hc] at h1; exact h1
    | cont st1 =>
      rw [hc] at h1
      simp only []
      split_ifs
      · exact ih st1 h1
      · exact h1

theorem supervise_shaped (os : SvOS) (f : Nat) (st : SvState)
    (hs : HandlerShaped os st.trace) : HandlerShaped os (supervise os f st).1.trace := by
  induction f generalizing st with
  | zero => exact hs
  | succ f ih =>
    have h1 : HandlerShaped os (sv_fork os st).state.trace :=
      sv_call_shaped os st _ _ hs rfl
    unfold supervise
    cases hc : sv_fork os st with
    | halt st1 o => rw [hc] at h1; exact h1
    | cont st1 =>
      rw [hc] at h1
      simp only [SvStep.state] at h1
      simp only []
      split_ifs
      · have h2 : HandlerShaped os (sv_sleep os st1 5).state.trace :=
          sv_call_shaped os st1 _ _ h1 rfl
        cases hsl : sv_sleep os st1 5 with
        | halt st2 o => rw [hsl] at h2; exact h2
        | cont st2 => rw [hsl] at h2; exact ih st2 h2
      · have h2 : HandlerShaped os (sv_execve os st1 SHELL_PATH [SHELL_PATH]
            ["PATH=/TinyDOS/system32".toList]).state.trace := by
          rw [sv_execve_trace_eq]
          exact sv_call_shaped os st1 _ _ h1 rfl
        cases hex : sv_execve os st1 SHELL_PATH [SHELL_PATH]
            ["PATH=/TinyDOS/system32".toList] with
        | halt st2 o => rw [hex] at h2; exact h2
        | cont st2 => rw [hex] at h2; exact h2
      · have h2 : HandlerShaped os (sv_waitpid os st1 st1.ret 0).state.trace := by
          rw [sv_waitpid_trace_eq]
          exact sv_call_shaped os st1 _ _ h1 rfl
        cases hw : sv_waitpid os st1 st1.ret 0 with
        | halt st2 o => rw [hw] at h2; exact h2
        | cont st2 =>
          rw [hw] at h2
          simp only [SvStep.state] at h2
          have h3 := reap_sweep_shaped os f st2 h2
          simp only []
          cases hr : reap_sweep os f st2 with
          | halt st3 o => rw [hr] at h3; exact h3
          | cont st3 =>
            rw [hr] at h3
            simp only [SvStep.state] at h3
            have h4 : HandlerShaped os (sv_sleep os st3 2).state.trace :=
              sv_call_shaped os st3 _ _ h3 rfl
            simp only []
            cases hs2 : sv_sleep os st3 2 with
            | halt st4 o => rw [hs2] at h4; exact h4
            | cont st4 => rw [hs2] at h4; exact ih st4 h4

theorem init_main_shaped (os : SvOS) (fuel : Nat) (argv environ : List (List Char)) :
    HandlerShaped os (init_main os fuel argv environ).1.trace := by
  have h0 : HandlerShaped os (sv_getpid os SvState.init).state.trace :=
    sv_call_shaped os SvState.init _ _ (HandlerShaped_nil os) rfl
  unfold init_main
  cases hg : sv_getpid os SvState.init with
  | halt st1 o => rw [hg] at h0; exact h0
  | cont st1 =>
    rw [hg] at h0
    simp only [SvStep.state] at h0
    simp only []
    split_ifs
    · exact h0
    · have h2 : HandlerShaped os
          (sv_signal os st1 SIGTERM Handler.handle_shutdown_signal).state.trace := by
        rw [sv_signal_trace_eq]
        exact sv_call_shaped os st1 _ _ h0 rfl
      cases hs : sv_signal os st1 SIGTERM Handler.handle_shutdown_signal with
      | halt st2 o => rw [hs] at h2; exact h2
      | cont st2 =>
        rw [hs] at h2
        simp only [SvStep.state] at h2
        have h3 : HandlerShaped os
            (sv_signal os st2 SIGINT Handler.handle_shutdown_signal).state.trace := by
          rw [sv_signal_trace_eq]
          exact sv_call_shaped os st2 _ _ h2 rfl
        simp only []
        cases hs2 : sv_signal os st2 SIGINT Handler.handle_shutdown_signal with
        | halt st3 o => rw [hs2] at h3; exact h3
        | cont st3 =>
          rw [hs2] at h3
          exact supervise_shaped os fuel st3 h3

/-! ## Two images that differ in the addresses of their segments -/

theorem SameDecisions.length {f g : List Nat} {s t : LState} (h : SameDecisions f g s t) :
    s.trace.length = t.trace.length := by
  have := congrArg List.length h.2.2.2.1
  simpa using this

theorem load_segment_examined (os : OS) (st : LState) (ph : Phdr) :
    (load_segment os st ph).state.examined = st.examined := by
  unfold load_segment
  simp only []
  split_ifs <;> rfl

/-- One loadable entry, handled from two states that agree, for two addresses:
the two steps end alike and leave states that agree. -/
theorem load_segment_same (os : OS) (path : List Char) (f g : List Nat) (s t : LState)
    (ph : Phdr) (v : Nat) (hfg : g.length = f.length) (hs : SameDecisions f g s t) :
    StepSame f g (load_segment os s ph)
      (load_segment (os.withFile path g) t { ph with p_vaddr := v }) := by
  have hlen := hs.length
  obtain ⟨hf, hg, hpos, htr, hout⟩ := hs
  have hm1 := sys_mmap_failed_iff os s ph.p_vaddr ph.p_memsz (protOf ph.p_flags ||| PROT_WRITE)
    (MAP_PRIVATE ||| MAP_ANONYMOUS ||| MAP_FIXED)
  have hm2 := sys_mmap_failed_iff (os.withFile path g) t v ph.p_memsz
    (protOf ph.p_flags ||| PROT_WRITE) (MAP_PRIVATE ||| MAP_ANONYMOUS ||| MAP_FIXED)
  have hok : (os.withFile path g).mmapOk t.trace.length = os.mmapOk s.trace.length := by
    rw [hlen]; rfl
  rw [hok] at hm2
  have hfl : t.file.length = s.file.length := by rw [hf, hg, hfg]
  unfold load_segment
  simp only []
  by_cases h1 : os.mmapOk s.trace.length = false
  · rw [if_pos (hm1.2 h1), if_pos (hm2.2 h1)]
    simp only [StepSame, SameDecisions, Step.isCont, Step.outcome?, Step.state, do_perror,
      sys_mmap, List.map_append, List.map_cons, List.map_nil, Call.shape]
    exact ⟨trivial, trivial, hf, hg, hpos, by rw [htr], by rw [hout]⟩
  · rw [if_neg (fun h => h1 (hm1.1 h)), if_neg (fun h => h1 (hm2.1 h))]
    simp only [sys_read_mem, sys_lseek, sys_mmap, sys_mprotect, List.length_append,
      List.length_singleton, OS.withFile]
    rw [← hlen, ← hpos, hfl]
    split_ifs <;>
      simp [StepSame, SameDecisions, Step.isCont, Step.outcome?, Step.state, do_perror,
        Call.shape, hf, hg, hpos, htr, hout]

/-- The records examined are never forgotten. -/
theorem load_segments_examined_mono (os : OS) (n : Nat) :
    ∀ (st : LState) (e : Nat × Phdr), e ∈ st.examined →
      e ∈ (load_segments os n st).state.examined := by
  induction n with
  | zero => intro st e he; exact he
  | succ n ih =>
    intro st e he
    unfold load_segments
    simp only []
    split_ifs with h1 h2
    · exact he
    · have hx := load_segment_examined os
        { sys_read_buf os st PHDR_SIZE with
          examined := (sys_read_buf os st PHDR_SIZE).examined ++
            [(st.pos, parsePhdr (sys_read_buf os st PHDR_SIZE).buf)] }
        (parsePhdr (sys_read_buf os st PHDR_SIZE).buf)
      have he2 : e ∈ (load_segment os
          { sys_read_buf os st PHDR_SIZE with
            examined := (sys_read_buf os st PHDR_SIZE).examined ++
              [(st.pos, parsePhdr (sys_read_buf os st PHDR_SIZE).buf)] }
          (parsePhdr (sys_read_buf os st PHDR_SIZE).buf)).state.examined := by
        rw [hx]
        exact List.mem_append_left _ he
      cases hc : load_segment os
          { sys_read_buf os st PHDR_SIZE with
            examined := (sys_read_buf os st PHDR_SIZE).examined ++
              [(st.pos, parsePhdr (sys_read_buf os st PHDR_SIZE).buf)] }
          (parsePhdr (sys_read_buf os st PHDR_SIZE).buf) with
      | cont st3 =>
        rw [hc] at he2
        exact ih st3 e he2
      | halt st3 o =>
        rw [hc] at he2
        exact he2
    · exact ih _ e (List.mem_append_left _ he)

/-- A read of a record that returned its full size delivered that many bytes of
the file. -/
theorem sys_read_buf_full (os : OS) (st : LState) (n : Nat) (hn : n < 2 ^ 64 - 1)
    (h : toU64 (sys_read_buf os st n).ret = n) :
    (sys_read_buf os st n).buf = (st.file.drop st.pos).take n := by
  simp only [sys_read_buf] at h ⊢
  have h2 := (toU64_ret_eq_iff _ _ _ hn).1 h
  rw [ReadResp.got_of_ret _ _ _ _ h2]

/-- The walk of the program-header table on two files of the same length whose
records, at the offsets examined, differ in `p_vaddr` only: from states that
agree, the two walks end alike and leave states that agree. -/
theorem load_segments_same (os : OS) (path : List Char) (f g : List Nat)
    (hfg : g.length = f.length) (n : Nat) :
    ∀ (s t : LState), SameDecisions f g s t →
      (∀ e ∈ (load_segments os n s).state.examined, relocatedAt g e = true) →
      StepSame f g (load_segments os n s) (load_segments (os.withFile path g) n t) := by
  induction n with
  | zero =>
    intro s t hs _
    exact ⟨rfl, rfl, hs⟩
  | succ n ih =>
    intro s t hs hrec
    have hlen := hs.length
    obtain ⟨hf, hg, hpos, htr, hout⟩ := hs
    have hret : (sys_read_buf (os.withFile path g) t PHDR_SIZE).ret =
        (sys_read_buf os s PHDR_SIZE).ret := by
      simp only [sys_read_buf, OS.withFile]
      rw [← hlen, ← hpos, hf, hg, hfg]
    have hs1 : SameDecisions f g (sys_read_buf os s PHDR_SIZE)
        (sys_read_buf (os.withFile path g) t PHDR_SIZE) := by
      refine ⟨hf, hg, ?_, ?_, hout⟩
      · simp only [sys_read_buf, OS.withFile]
        rw [← hlen, ← hpos, hf, hg, hfg]
      · simp only [sys_read_buf_trace, List.map_append, htr]
    unfold load_segments at hrec ⊢
    simp only [] at hrec ⊢
    by_cases h1 : toU64 (sys_read_buf os s PHDR_SIZE).ret ≠ PHDR_SIZE
    · have h1' : toU64 (sys_read_buf (os.withFile path g) t PHDR_SIZE).ret ≠ PHDR_SIZE := by
        rw [hret]; exact h1
      rw [if_pos h1, if_pos h1']
      obtain ⟨a1, a2, a3, a4, a5⟩ := hs1
      refine ⟨rfl, rfl, a1, a2, a3, ?_, ?_⟩
      · simp only [Step.state, sys_close_trace, do_perror_trace, List.map_append, a4]
      · simp only [Step.state, sys_close, do_perror, a5]
    · rw [if_neg h1] at hrec
      have h1' : ¬ toU64 (sys_read_buf (os.withFile path g) t PHDR_SIZE).ret ≠ PHDR_SIZE := by
        rw [hret]; exact h1
      rw [if_neg h1, if_neg h1']
      have h1e : toU64 (sys_read_buf os s PHDR_SIZE).ret = PHDR_SIZE := not_not.1 h1
      have hb1 := sys_read_buf_full os s PHDR_SIZE (by decide) h1e
      have hb2 := sys_read_buf_full (os.withFile path g) t PHDR_SIZE (by decide)
        (by rw [hret]; exact h1e)
      rw [hf] at hb1
      rw [hg, ← hpos] at hb2
      have hb2 : (sys_read_buf (os.withFile path g) t PHDR_SIZE).buf =
          (g.drop s.pos).take 56 := hb2
      -- the record examined by the first walk is among the records of its result
      have hmem : (s.pos, parsePhdr (sys_read_buf os s PHDR_SIZE).buf) ∈
          ({ sys_read_buf os s PHDR_SIZE with
            examined := (sys_read_buf os s PHDR_SIZE).examined ++
              [(s.pos, parsePhdr (sys_read_buf os s PHDR_SIZE).buf)] } : LState).examined :=
        List.mem_append_right _ (List.mem_singleton_self _)
      -- the states after the record has been noted
      have hs2 : SameDecisions f g
          { sys_read_buf os s PHDR_SIZE with
            examined := (sys_read_buf os s PHDR_SIZE).examined ++
              [(s.pos, parsePhdr (sys_read_buf os s PHDR_SIZE).buf)] }
          { sys_read_buf (os.withFile path g) t PHDR_SIZE with
            examined := (sys_read_buf (os.withFile path g) t PHDR_SIZE).examined ++
              [(t.pos, parsePhdr (sys_read_buf (os.withFile path g) t PHDR_SIZE).buf)] } :=
        hs1
      by_cases h2 : (parsePhdr (sys_read_buf os s PHDR_SIZE).buf).p_type = PT_LOAD
      · rw [if_pos h2] at hrec
        -- the record is relocated
        have hx := load_segment_examined os
          { sys_read_buf os s PHDR_SIZE with
            examined := (sys_read_buf os s PHDR_SIZE).examined ++
              [(s.pos, parsePhdr (sys_read_buf os s PHDR_SIZE).buf)] }
          (parsePhdr (sys_read_buf os s PHDR_SIZE).buf)
        have hreloc : relocatedAt g (s.pos, parsePhdr (sys_read_buf os s PHDR_SIZE).buf) = true := by
          apply hrec
          cases hc : load_segment os
              { sys_read_buf os s PHDR_SIZE with
                examined := (sys_read_buf os s PHDR_SIZE).examined ++
                  [(s.pos, parsePhdr (sys_read_buf os s PHDR_SIZE).buf)] }
              (parsePhdr (sys_read_buf os s PHDR_SIZE).buf) with
          | cont st3 =>
            rw [hc] at hx
            simp only [Step.state] at hx
            exact load_segments_examined_mono os n st3 _ (by rw [hx]; exact hmem)
          | halt st3 o =>
            rw [hc] at hx
            simp only [Step.state] at hx ⊢
            rw [hx]; exact hmem
        simp only [relocatedAt, decide_eq_true_eq] at hreloc
        rw [← hb2] at hreloc
        have h2' : (parsePhdr (sys_read_buf (os.withFile path g) t PHDR_SIZE).buf).p_type =
            PT_LOAD := by
          rw [hreloc]; exact h2
        rw [if_pos h2, if_pos h2']
        have hstep := load_segment_same os path f g _ _
          (parsePhdr (sys_read_buf os s PHDR_SIZE).buf)
          (parsePhdr (sys_read_buf (os.withFile path g) t PHDR_SIZE).buf).p_vaddr hfg hs2
        rw [← hreloc] at hstep
        cases hc : load_segment os
            { sys_read_buf os s PHDR_SIZE with
              examined := (sys_read_buf os s PHDR_SIZE).examined ++
                [(s.pos, parsePhdr (sys_read_buf os s PHDR_SIZE).buf)] }
            (parsePhdr (sys_read_buf os s PHDR_SIZE).buf) with
        | cont st3 =>
          rw [hc] at hstep hrec
          cases hc2 : load_segment (os.withFile path g)
              { sys_read_buf (os.withFile path g) t PHDR_SIZE with
                examined := (sys_read_buf (os.withFile path g) t PHDR_SIZE).examined ++
                  [(t.pos, parsePhdr (sys_read_buf (os.withFile path g) t PHDR_SIZE).buf)] }
              (parsePhdr (sys_read_buf (os.withFile path g) t PHDR_SIZE).buf) with
          | cont tt3 =>
            rw [hc2] at hstep
            exact ih st3 tt3 hstep.2.2 hrec
          | halt tt3 o2 =>
            rw [hc2] at hstep
            exact absurd hstep.1 (by simp [Step.isCont])
        | halt st3 o =>
          rw [hc] at hstep
          cases hc2 : load_segment (os.withFile path g)
              { sys_read_buf (os.withFile path g) t PHDR_SIZE with
                examined := (sys_read_buf (os.withFile path g) t PHDR_SIZE).examined ++
                  [(t.pos, parsePhdr (sys_read_buf (os.withFile path g) t PHDR_SIZE).buf)] }
              (parsePhdr (sys_read_buf (os.withFile path g) t PHDR_SIZE).buf) with
          | cont tt3 =>
            rw [hc2] at hstep
            exact absurd hstep.1 (by simp [Step.isCont])
          | halt tt3 o2 =>
            rw [hc2] at hstep
            exact hstep
      · rw [if_neg h2] at hrec
        have hreloc : relocatedAt g (s.pos, parsePhdr (sys_read_buf os s PHDR_SIZE).buf) = true := by
          apply hrec
          exact load_segments_examined_mono os n _ _ hmem
        simp only [relocatedAt, decide_eq_true_eq] at hreloc
        rw [← hb2] at hreloc
        have h2' : ¬ (parsePhdr (sys_read_buf (os.withFile path g) t PHDR_SIZE).buf).p_type =
            PT_LOAD := by
          rw [hreloc]; exact h2
        rw [if_neg h2, if_neg h2']
        exact ih _ _ hs2 hrec

theorem headerState_out (os : OS) (filepath : List Char) :
    (headerState os filepath).out = [] := by
  unfold headerState sys_read_buf sys_open
  cases os.fs filepath <;> rfl

theorem map_stack_and_jump_examined (os : OS) (cc : AsmOperands) (regs : Cpu) (st : LState)
    (ehdr : Ehdr) : (map_stack_and_jump os cc regs st ehdr).1.examined = st.examined := by
  unfold map_stack_and_jump
  simp only []
  split_ifs <;> rfl

/-- The end stage from two states that agree: same outcome, same calls up to
the address argument, same text. -/
theorem map_stack_and_jump_same (os : OS) (path : List Char) (cc : AsmOperands) (regs : Cpu)
    (f g : List Nat) (s t : LState) (ehdr : Ehdr) (hs : SameDecisions f g s t) :
    (map_stack_and_jump (os.withFile path g) cc regs t ehdr).2 =
      (map_stack_and_jump os cc regs s ehdr).2 ∧
    (map_stack_and_jump (os.withFile path g) cc regs t ehdr).1.trace.map Call.shape =
      (map_stack_and_jump os cc regs s ehdr).1.trace.map Call.shape ∧
    (map_stack_and_jump (os.withFile path g) cc regs t ehdr).1.out =
      (map_stack_and_jump os cc regs s ehdr).1.out := by
  have hlen := hs.length
  obtain ⟨_, _, _, htr, hout⟩ := hs
  have hl1 : (sys_close s).trace.length = s.trace.length + 1 := by simp [sys_close]
  have hl2 : (sys_close t).trace.length = s.trace.length + 1 := by simp [sys_close, hlen]
  have hm1 := sys_mmap_failed_iff os (sys_close s) STACK_ADDR STACK_SIZE
    (PROT_READ ||| PROT_WRITE) (MAP_PRIVATE ||| MAP_ANONYMOUS ||| MAP_FIXED)
  have hm2 := sys_mmap_failed_iff (os.withFile path g) (sys_close t) STACK_ADDR STACK_SIZE
    (PROT_READ ||| PROT_WRITE) (MAP_PRIVATE ||| MAP_ANONYMOUS ||| MAP_FIXED)
  rw [hl1] at hm1
  rw [hl2] at hm2
  have hok : (os.withFile path g).mmapOk (s.trace.length + 1) = os.mmapOk (s.trace.length + 1) :=
    rfl
  rw [hok] at hm2
  unfold map_stack_and_jump
  simp only []
  by_cases h1 : os.mmapOk (s.trace.length + 1) = false
  · rw [if_pos (hm1.2 h1), if_pos (hm2.2 h1)]
    refine ⟨rfl, ?_, ?_⟩
    · simp only [do_perror_trace, sys_mmap_trace, sys_close_trace, List.map_append, htr]
    · simp only [do_perror, sys_mmap, sys_close, hout]
  · rw [if_neg (fun h => h1 (hm1.1 h)), if_neg (fun h => h1 (hm2.1 h))]
    refine ⟨rfl, ?_, ?_⟩
    · simp only [sys_mmap_trace, sys_close_trace, List.map_append, htr]
    · simp only [sys_mmap, sys_close, hout]

/-- Two images of the same length, with the same header, whose program-header
records at the offsets the loader examines differ in `p_vaddr` only: under the
same answers of the operating system the two runs end alike, issue the same
calls up to the address argument and print the same text. -/
theorem load_and_run_elf_same (os : OS) (cc : AsmOperands) (regs : Cpu)
    (filepath original_command : List Char) (f g : List Nat)
    (hopen : os.fs filepath = some f) (hfg : g.length = f.length)
    (hhdr : g.take 64 = f.take 64)
    (hrec : ∀ e ∈ (load_and_run_elf os cc regs filepath original_command).1.examined,
      relocatedAt g e = true) :
    (load_and_run_elf (os.withFile filepath g) cc regs filepath original_command).2 =
      (load_and_run_elf os cc regs filepath original_command).2 ∧
    (load_and_run_elf (os.withFile filepath g) cc regs filepath original_command).1.trace.map
        Call.shape =
      (load_and_run_elf os cc regs filepath original_command).1.trace.map Call.shape ∧
    (load_and_run_elf (os.withFile filepath g) cc regs filepath original_command).1.out =
      (load_and_run_elf os cc regs filepath original_command).1.out := by
  have hopen2 : (os.withFile filepath g).fs filepath = some g := by simp [OS.withFile]
  have hr1 := headerState_ret os filepath f hopen
  have hr2 := headerState_ret (os.withFile filepath g) filepath g hopen2
  have hret : (headerState (os.withFile filepath g) filepath).ret =
      (headerState os filepath).ret := by
    rw [hr1, hr2, hfg]; rfl
  have ht1 := headerState_trace os filepath f hopen
  have ht2 := headerState_trace (os.withFile filepath g) filepath g hopen2
  have ho1 := headerState_out os filepath
  have ho2 := headerState_out (os.withFile filepath g) filepath
  rw [load_and_run_elf_of_open os cc regs filepath original_command f hopen] at hrec ⊢
  rw [load_and_run_elf_of_open (os.withFile filepath g) cc regs filepath original_command g
    hopen2]
  by_cases c1 : toU64 (headerState os filepath).ret ≠ EHDR_SIZE
  · have c1' : toU64 (headerState (os.withFile filepath g) filepath).ret ≠ EHDR_SIZE := by
      rw [hret]; exact c1
    rw [if_pos c1, if_pos c1']
    refine ⟨rfl, ?_, ?_⟩
    · simp only [sys_close_trace, do_perror_trace, ht1, ht2]
    · simp only [sys_close, do_perror, ho1, ho2]
  · have c1' : ¬ toU64 (headerState (os.withFile filepath g) filepath).ret ≠ EHDR_SIZE := by
      rw [hret]; exact c1
    rw [if_neg c1] at hrec
    rw [if_neg c1, if_neg c1']
    have hread : (os.readResp 1).ret 64 f.length = 64 := by
      have h := not_not.1 c1
      rw [hr1] at h
      exact (toU64_ret_eq_iff _ 64 _ (by decide)).1 h
    have hread2 : ((os.withFile filepath g).readResp 1).ret 64 g.length = 64 := by
      rw [hfg]; exact hread
    have hb1 := headerState_buf os filepath f hopen hread
    have hb2 := headerState_buf (os.withFile filepath g) filepath g hopen2 hread2
    have hbuf : (headerState (os.withFile filepath g) filepath).buf =
        (headerState os filepath).buf := by rw [hb1, hb2, hhdr]
    rw [hbuf]
    by_cases c2 : ¬ validEhdr (parseEhdr (headerState os filepath).buf) = true
    · rw [if_pos c2, if_pos c2]
      refine ⟨rfl, ?_, ?_⟩
      · simp only [sys_close_trace, do_printf_trace, ht1, ht2]
      · simp only [sys_close, do_printf, ho1, ho2]
    · rw [if_neg c2] at hrec
      rw [if_neg c2, if_neg c2]
      have hsim : SameDecisions f g
          (sys_lseek os (headerState os filepath)
            (parseEhdr (headerState os filepath).buf).e_phoff)
          (sys_lseek (os.withFile filepath g) (headerState (os.withFile filepath g) filepath)
            (parseEhdr (headerState os filepath).buf).e_phoff) := by
        refine ⟨headerState_file os filepath f hopen,
          headerState_file (os.withFile filepath g) filepath g hopen2, ?_, ?_, ?_⟩
        · simp only [sys_lseek, ht1, ht2, headerState_pos os filepath f hopen hread,
            headerState_pos (os.withFile filepath g) filepath g hopen2 hread2]
          rfl
        · simp only [sys_lseek_trace, ht1, ht2]
        · simp only [sys_lseek, ho1, ho2]
      have hex : ∀ e ∈ (load_segments os (parseEhdr (headerState os filepath).buf).e_phnum
          (sys_lseek os (headerState os filepath)
            (parseEhdr (headerState os filepath).buf).e_phoff)).state.examined,
          relocatedAt g e = true := by
        intro e he
        apply hrec
        cases hc : load_segments os (parseEhdr (headerState os filepath).buf).e_phnum
            (sys_lseek os (headerState os filepath)
              (parseEhdr (headerState os filepath).buf).e_phoff) with
        | halt st4 o => rw [hc] at he; exact he
        | cont st4 =>
          rw [hc] at he
          simp only [Step.state] at he
          simp only []
          rw [map_stack_and_jump_examined]
          exact he
      have hstep := load_segments_same os filepath f g hfg _ _ _ hsim hex
      cases hc : load_segments os (parseEhdr (headerState os filepath).buf).e_phnum
          (sys_lseek os (headerState os filepath)
            (parseEhdr (headerState os filepath).buf).e_phoff) with
      | halt st4 o =>
        rw [hc] at hstep
        cases hc2 : load_segments (os.withFile filepath g)
            (parseEhdr (headerState os filepath).buf).e_phnum
            (sys_lseek (os.withFile filepath g) (headerState (os.withFile filepath g) filepath)
              (parseEhdr (headerState os filepath).buf).e_phoff) with
        | cont tt4 =>
          rw [hc2] at hstep
          exact absurd hstep.1 (by simp [Step.isCont])
        | halt tt4 o2 =>
          rw [hc2] at hstep
          obtain ⟨_, ho, _, _, _, htr, hout⟩ := hstep
          simp only [Step.outcome?, Option.some.injEq] at ho
          simp only [Step.state] at htr hout
          exact ⟨ho.symm, htr.symm, hout.symm⟩
      | cont st4 =>
        rw [hc] at hstep
        cases hc2 : load_segments (os.withFile filepath g)
            (parseEhdr (headerState os filepath).buf).e_phnum
            (sys_lseek (os.withFile filepath g) (headerState (os.withFile filepath g) filepath)
              (parseEhdr (headerState os filepath).buf).e_phoff) with
        | halt tt4 o2 =>
          rw [hc2] at hstep
          exact absurd hstep.1 (by simp [Step.isCont])
        | cont tt4 =>
          rw [hc2] at hstep
          exact map_stack_and_jump_same os filepath cc regs f g st4 tt4 _ hstep.2.2

/-! ## The calls and the memory of one loadable entry -/

/-- The calls of one loadable entry, whether it is handled to the end or not:
the first one, three or four of the prescribed calls, all four when the run
goes on, and exit status 1 when it does not. -/
theorem load_segment_calls (os : OS) (st : LState) (ph : Phdr) :
    ∃ k, (k = 1 ∨ k = 3 ∨ k = 4) ∧
      (load_segment os st ph).state.trace = st.trace ++ (specSegmentCalls ph).take k ∧
      ((load_segment os st ph).isCont = true → k = 4) ∧
      ((load_segment os st ph).isCont = false → (load_segment os st ph).status? = some 1) := by
  unfold load_segment
  simp only []
  split_ifs
  · exact ⟨1, Or.inl rfl, by
      simp [Step.state, specSegmentCalls, protOf_eq_specProt, PROT_WRITE, MAP_PRIVATE,
        MAP_ANONYMOUS, MAP_FIXED], by simp [Step.isCont], fun _ => rfl⟩
  · exact ⟨3, Or.inr (Or.inl rfl), by
      simp [Step.state, specSegmentCalls, protOf_eq_specProt, PROT_WRITE, MAP_PRIVATE,
        MAP_ANONYMOUS, MAP_FIXED], by simp [Step.isCont], fun _ => rfl⟩
  · exact ⟨4, Or.inr (Or.inr rfl), by
      simp [Step.state, specSegmentCalls, protOf_eq_specProt, PROT_WRITE, MAP_PRIVATE,
        MAP_ANONYMOUS, MAP_FIXED], fun _ => rfl, fun _ => rfl⟩
  · exact ⟨4, Or.inr (Or.inr rfl), by
      simp [Step.state, specSegmentCalls, protOf_eq_specProt, PROT_WRITE, MAP_PRIVATE,
        MAP_ANONYMOUS, MAP_FIXED], fun _ => rfl, by simp [Step.isCont]⟩

theorem Mem.store_prot_eq (m : Mem) (addr : Nat) (data : List Nat) (a : Nat) :
    (m.store addr data a).map Cell.prot = (m a).map Cell.prot := by
  unfold Mem.store
  split_ifs
  · cases m a with
    | none => rfl
    | some c =>
      simp only [Option.map_some']
      split_ifs <;> rfl
  · rfl

/-- After an entry has been handled to the end, every byte of its pages has
the final protection. -/
theorem load_segment_prot_inside (os : OS) (st st2 : LState) (ph : Phdr) (a : Nat)
    (h : load_segment os st ph = .cont st2) (ha : ph.covers a = true) :
    (st2.mem a).map Cell.prot = some (specProt ph.p_flags) := by
  obtain ⟨hm, hp, _, hst⟩ := load_segment_cont_inv os st st2 ph h
  simp only [Phdr.covers, decide_eq_true_eq] at ha
  subst hst
  have hlen : (sys_read_mem os (sys_lseek os (sys_mmap os st ph.p_vaddr ph.p_memsz
      (protOf ph.p_flags ||| PROT_WRITE) (MAP_PRIVATE ||| MAP_ANONYMOUS ||| MAP_FIXED))
      ph.p_offset) ph.p_vaddr ph.p_filesz).trace.length = st.trace.length + 3 := by simp
  simp only [sys_mprotect, hlen, hp, if_true, Mem.protect]
  rw [if_pos ha, Option.map_map]
  have hs := Mem.store_prot_eq (sys_lseek os (sys_mmap os st ph.p_vaddr ph.p_memsz
      (protOf ph.p_flags ||| PROT_WRITE) (MAP_PRIVATE ||| MAP_ANONYMOUS ||| MAP_FIXED))
      ph.p_offset).mem ph.p_vaddr
    ((List.drop (sys_lseek os (sys_mmap os st ph.p_vaddr ph.p_memsz
      (protOf ph.p_flags ||| PROT_WRITE) (MAP_PRIVATE ||| MAP_ANONYMOUS ||| MAP_FIXED))
      ph.p_offset).pos (sys_lseek os (sys_mmap os st ph.p_vaddr ph.p_memsz
      (protOf ph.p_flags ||| PROT_WRITE) (MAP_PRIVATE ||| MAP_ANONYMOUS ||| MAP_FIXED))
      ph.p_offset).file).take ((os.readResp (sys_lseek os (sys_mmap os st ph.p_vaddr
      ph.p_memsz (protOf ph.p_flags ||| PROT_WRITE) (MAP_PRIVATE ||| MAP_ANONYMOUS ||| MAP_FIXED))
      ph.p_offset).trace.length).got ph.p_filesz ((sys_lseek os (sys_mmap os st ph.p_vaddr
      ph.p_memsz (protOf ph.p_flags ||| PROT_WRITE) (MAP_PRIVATE ||| MAP_ANONYMOUS ||| MAP_FIXED))
      ph.p_offset).file.length - (sys_lseek os (sys_mmap os st ph.p_vaddr ph.p_memsz
      (protOf ph.p_flags ||| PROT_WRITE) (MAP_PRIVATE ||| MAP_ANONYMOUS ||| MAP_FIXED))
      ph.p_offset).pos))) a
  have hmapped : ((sys_lseek os (sys_mmap os st ph.p_vaddr ph.p_memsz
      (protOf ph.p_flags ||| PROT_WRITE) (MAP_PRIVATE ||| MAP_ANONYMOUS ||| MAP_FIXED))
      ph.p_offset).mem a).isSome = true := by
    simp only [sys_lseek, sys_mmap, hm, if_true, Mem.map]
    rw [if_pos ha]
    rfl
  simp only [sys_read_mem]
  cases hc : (Mem.store (sys_lseek os (sys_mmap os st ph.p_vaddr ph.p_memsz
      (protOf ph.p_flags ||| PROT_WRITE) (MAP_PRIVATE ||| MAP_ANONYMOUS ||| MAP_FIXED))
      ph.p_offset).mem ph.p_vaddr _ a) with
  | none =>
    rw [hc] at hs
    cases hmm : (sys_lseek os (sys_mmap os st ph.p_vaddr ph.p_memsz
      (protOf ph.p_flags ||| PROT_WRITE) (MAP_PRIVATE ||| MAP_ANONYMOUS ||| MAP_FIXED))
      ph.p_offset).mem a with
    | none => rw [hmm] at hmapped; cases hmapped
    | some c => rw [hmm] at hs; cases hs
  | some c =>
    simp [protOf_eq_specProt]

/-- The handling of an entry leaves the protection of every byte outside its
pages as it was. -/
theorem load_segment_prot_outside (os : OS) (st : LState) (ph : Phdr) (a : Nat)
    (ha : ph.covers a = false) :
    ((load_segment os st ph).state.mem a).map Cell.prot = (st.mem a).map Cell.prot := by
  simp only [Phdr.covers, decide_eq_false_iff_not] at ha
  have h1 := sys_mmap_outside os st ph.p_vaddr ph.p_memsz (protOf ph.p_flags ||| PROT_WRITE)
    (MAP_PRIVATE ||| MAP_ANONYMOUS ||| MAP_FIXED) a ha
  have h2 : ∀ s : LState, ((sys_read_mem os s ph.p_vaddr ph.p_filesz).mem a).map Cell.prot =
      (s.mem a).map Cell.prot := by
    intro s
    simp only [sys_read_mem]
    exact Mem.store_prot_eq _ _ _ _
  have h3 := fun s : LState => sys_mprotect_outside os s ph.p_vaddr ph.p_memsz
    (protOf ph.p_flags) a ha
  have hl : ∀ s : LState, (sys_lseek os s ph.p_offset).mem = s.mem := fun _ => rfl
  unfold load_segment
  simp only []
  split_ifs
  · simp only [Step.state, do_perror]; rw [h1]
  · simp only [Step.state, do_perror]; rw [h2, hl, h1]
  · simp only [Step.state, do_perror]; rw [h3, h2, hl, h1]
  · simp only [Step.state]; rw [h3, h2, hl, h1]

/-- The bytes of a freshly mapped, filled and protected segment, page by page. -/
theorem segment_mem_val_pages (m : Mem) (v len prot : Nat) (data : List Nat) (i : Nat)
    (hi : i < pageRound len) :
    ((((m.map v len (prot ||| PROT_WRITE)).store v data).protect v len prot) (v + i)).map
      Cell.val = some (data.getD i 0) := by
  have hr : v ≤ v + i ∧ v + i < v + pageRound len := by omega
  have hmap : (m.map v len (prot ||| PROT_WRITE)) (v + i) = some ⟨0, prot ||| PROT_WRITE⟩ := by
    unfold Mem.map
    rw [if_pos hr]
  unfold Mem.protect
  rw [if_pos hr]
  unfold Mem.store
  by_cases hd : i < data.length
  · rw [if_pos ⟨by omega, by omega⟩, hmap]
    simp [or_write_writable]
  · rw [if_neg (by omega), hmap]
    have : data.getD i 0 = 0 := by
      simp [List.getD_eq_getElem?_getD, List.getElem?_eq_none (by omega : data.length ≤ i)]
    rw [this]
    rfl

/-- After an entry has been handled to the end with a seek that succeeded, the
bytes of the segment are the bytes of the file at `p_offset`. -/
theorem load_segment_data (os : OS) (st st2 : LState) (ph : Phdr)
    (h : load_segment os st ph = .cont st2)
    (hseek : os.lseekOk (st.trace.length + 1) = true)
    (hF : ph.p_filesz < 2 ^ 64 - 1) (i : Nat)
    (hi : i < ph.p_filesz) (hp : i < pageRound ph.p_memsz) :
    ph.p_offset + i < st.file.length ∧
    (st2.mem (ph.p_vaddr + i)).map Cell.val = some (st.file.getD (ph.p_offset + i) 0) := by
  obtain ⟨hm, hpr, hret, hst⟩ := load_segment_cont_inv os st st2 ph h
  rw [hseek, if_pos rfl] at hret
  have hret2 := (toU64_ret_eq_iff _ _ _ hF).1 hret
  have hgot := ReadResp.got_of_ret _ _ _ _ hret2
  have hle := (ReadResp.got_le (os.readResp (st.trace.length + 2)) ph.p_filesz
    (st.file.length - ph.p_offset)).2
  rw [hgot] at hle
  have hlt : ph.p_offset + i < st.file.length := by omega
  refine ⟨hlt, ?_⟩
  subst hst
  have hl1 : (sys_mmap os st ph.p_vaddr ph.p_memsz (protOf ph.p_flags ||| PROT_WRITE)
      (MAP_PRIVATE ||| MAP_ANONYMOUS ||| MAP_FIXED)).trace.length = st.trace.length + 1 := by
    simp
  have hmem : (sys_mprotect os (sys_read_mem os (sys_lseek os (sys_mmap os st ph.p_vaddr
      ph.p_memsz (protOf ph.p_flags ||| PROT_WRITE) (MAP_PRIVATE ||| MAP_ANONYMOUS ||| MAP_FIXED))
      ph.p_offset) ph.p_vaddr ph.p_filesz) ph.p_vaddr ph.p_memsz (protOf ph.p_flags)).mem =
      ((st.mem.map ph.p_vaddr ph.p_memsz (protOf ph.p_flags ||| PROT_WRITE)).store ph.p_vaddr
        ((st.file.drop ph.p_offset).take ph.p_filesz)).protect ph.p_vaddr ph.p_memsz
          (protOf ph.p_flags) := by
    simp only [sys_mprotect, sys_read_mem, sys_lseek, sys_mmap, List.length_append,
      List.length_singleton, hm, hpr, hseek, if_true, hgot]
  rw [hmem, segment_mem_val_pages _ _ _ _ _ _ hp]
  congr 1
  rw [List.getD_eq_getElem?_getD, List.getD_eq_getElem?_getD, List.getElem?_take_of_lt hi,
    List.getElem?_drop]

/-! ## The protection of the bytes after the whole table -/

/-- After a walk of the table that went to the end: a byte outside the pages of
every loadable entry examined keeps its protection; a byte in the pages of a
loadable entry, and in the pages of none examined after it, has the final
protection of that entry. -/
theorem load_segments_prot (os : OS) (n : Nat) :
    ∀ (st st2 : LState), load_segments os n st = .cont st2 →
      ∃ new : List (Nat × Phdr), st2.examined = st.examined ++ new ∧
        ∀ a,
          ((∀ e ∈ new, e.2.p_type = PT_LOAD → e.2.covers a = false) →
            (st2.mem a).map Cell.prot = (st.mem a).map Cell.prot) ∧
          (∀ pre e post, new = pre ++ e :: post → e.2.p_type = PT_LOAD → e.2.covers a = true →
            (∀ x ∈ post, x.2.p_type = PT_LOAD → x.2.covers a = false) →
            (st2.mem a).map Cell.prot = some (specProt e.2.p_flags)) := by
  induction n with
  | zero =>
    intro st st2 h
    simp only [load_segments, Step.cont.injEq] at h
    subst h
    refine ⟨[], by simp, fun a => ⟨fun _ => rfl, ?_⟩⟩
    intro pre e post hnew
    cases pre <;> cases hnew
  | succ n ih =>
    intro st st2 h
    unfold load_segments at h
    simp only [] at h
    split_ifs at h with h1 h2
    · -- a loadable entry
      revert h
      cases hseg : load_segment os
          { sys_read_buf os st PHDR_SIZE with
            examined := (sys_read_buf os st PHDR_SIZE).examined ++
              [(st.pos, parsePhdr (sys_read_buf os st PHDR_SIZE).buf)] }
          (parsePhdr (sys_read_buf os st PHDR_SIZE).buf) with
      | halt st3 o => intro h; cases h
      | cont st3 =>
        intro h
        simp only [] at h
        obtain ⟨new, hex, hprot⟩ := ih st3 st2 h
        have hx := load_segment_examined os
          { sys_read_buf os st PHDR_SIZE with
            examined := (sys_read_buf os st PHDR_SIZE).examined ++
              [(st.pos, parsePhdr (sys_read_buf os st PHDR_SIZE).buf)] }
          (parsePhdr (sys_read_buf os st PHDR_SIZE).buf)
        rw [hseg] at hx
        simp only [Step.state] at hx
        have hout := fun a (ha : (parsePhdr (sys_read_buf os st PHDR_SIZE).buf).covers a = false) =>
          load_segment_prot_outside os
            { sys_read_buf os st PHDR_SIZE with
              examined := (sys_read_buf os st PHDR_SIZE).examined ++
                [(st.pos, parsePhdr (sys_read_buf os st PHDR_SIZE).buf)] }
            (parsePhdr (sys_read_buf os st PHDR_SIZE).buf) a ha
        rw [hseg] at hout
        simp only [Step.state] at hout
        have hin := fun a (ha : (parsePhdr (sys_read_buf os st PHDR_SIZE).buf).covers a = true) =>
          load_segment_prot_inside os _ st3 (parsePhdr (sys_read_buf os st PHDR_SIZE).buf) a
            hseg ha
        refine ⟨(st.pos, parsePhdr (sys_read_buf os st PHDR_SIZE).buf) :: new, ?_, ?_⟩
        · rw [hex, hx]
          simp [sys_read_buf]
        · intro a
          obtain ⟨hp1, hp2⟩ := hprot a
          constructor
          · intro hall
            rw [hp1 (fun e he => hall e (List.mem_cons_of_mem _ he)),
              hout a (hall _ (List.mem_cons_self _ _) h2)]
            rfl
          · intro pre e post hnew htype hcov hlater
            cases pre with
            | nil =>
              simp only [List.nil_append, List.cons.injEq] at hnew
              obtain ⟨he, hpost⟩ := hnew
              subst hpost
              subst he
              rw [hp1 hlater]
              exact hin a hcov
            | cons x pre2 =>
              simp only [List.cons_append, List.cons.injEq] at hnew
              exact hp2 pre2 e post hnew.2 htype hcov hlater
    · -- an entry of another type
      obtain ⟨new, hex, hprot⟩ := ih _ st2 h
      refine ⟨(st.pos, parsePhdr (sys_read_buf os st PHDR_SIZE).buf) :: new, ?_, ?_⟩
      · rw [hex]
        simp [sys_read_buf]
      · intro a
        obtain ⟨hp1, hp2⟩ := hprot a
        constructor
        · intro hall
          rw [hp1 (fun e he => hall e (List.mem_cons_of_mem _ he))]
          rfl
        · intro pre e post hnew htype hcov hlater
          cases pre with
          | nil =>
            simp only [List.nil_append, List.cons.injEq] at hnew
            obtain ⟨he, _⟩ := hnew
            subst he
            exact absurd htype h2
          | cons x pre2 =>
            simp only [List.cons_append, List.cons.injEq] at hnew
            exact hp2 pre2 e post hnew.2 htype hcov hlater

/-! ## The calls of a walk of the table that ends the run -/

/-- A walk of the table that ends the run does so with exit status 1, after the
full calls of the entries handled before, and either at the read of the next
record (followed by the close) or within the calls of a last loadable entry,
after the first one, three or four of them. -/
theorem load_segments_halt_calls (os : OS) (n : Nat) :
    ∀ (st st2 : LState) (o : Outcome), load_segments os n st = .halt st2 o →
      o = Outcome.exit 1 ∧ ∃ done : List (Nat × Phdr),
        (st2.examined = st.examined ++ done ∧
          st2.trace = st.trace ++ specTableCalls (done.map Prod.snd) ++
            [Call.read 56 none, Call.close]) ∨
        (∃ last k, st2.examined = st.examined ++ done ++ [last] ∧ last.2.p_type = PT_LOAD ∧
          (k = 1 ∨ k = 3 ∨ k = 4) ∧
          st2.trace = st.trace ++ specTableCalls (done.map Prod.snd) ++
            (Call.read 56 none :: (specSegmentCalls last.2).take k)) := by
  induction n with
  | zero => intro st st2 o h; simp [load_segments] at h
  | succ n ih =>
    intro st st2 o h
    refine ⟨load_segments_halt_exit os _ st st2 o h, ?_⟩
    unfold load_segments at h
    simp only [] at h
    split_ifs at h with h1 h2
    · injection h with hst _
      subst hst
      refine ⟨[], Or.inl ⟨by simp [sys_close, do_perror, sys_read_buf], ?_⟩⟩
      simp [specTableCalls, PHDR_SIZE]
    · revert h
      cases hseg : load_segment os
          { sys_read_buf os st PHDR_SIZE with
            examined := (sys_read_buf os st PHDR_SIZE).examined ++
              [(st.pos, parsePhdr (sys_read_buf os st PHDR_SIZE).buf)] }
          (parsePhdr (sys_read_buf os st PHDR_SIZE).buf) with
      | cont st3 =>
        intro h
        simp only [] at h
        obtain ⟨hx, htr, _⟩ := load_segment_cont_facts os _ st3 _ hseg
        obtain ⟨_, done, hd⟩ := ih st3 st2 o h
        have h2' : (parsePhdr (sys_read_buf os st PHDR_SIZE).buf).p_type = 1 := h2
        refine ⟨(st.pos, parsePhdr (sys_read_buf os st PHDR_SIZE).buf) :: done, ?_⟩
        rcases hd with ⟨he, ht⟩ | ⟨last, k, he, hl, hk, ht⟩
        · left
          refine ⟨by rw [he, hx]; simp [sys_read_buf], ?_⟩
          rw [ht, htr]
          simp only [List.map_cons, specTableCalls, if_pos h2']
          simp [PHDR_SIZE]
        · right
          refine ⟨last, k, by rw [he, hx]; simp [sys_read_buf], hl, hk, ?_⟩
          rw [ht, htr]
          simp only [List.map_cons, specTableCalls, if_pos h2']
          simp [PHDR_SIZE]
      | halt st3 o3 =>
        intro h
        simp only [] at h
        injection h with hst _
        subst hst
        obtain ⟨k, hk, htr, _, _⟩ := load_segment_calls os
          { sys_read_buf os st PHDR_SIZE with
            examined := (sys_read_buf os st PHDR_SIZE).examined ++
              [(st.pos, parsePhdr (sys_read_buf os st PHDR_SIZE).buf)] }
          (parsePhdr (sys_read_buf os st PHDR_SIZE).buf)
        have hx := load_segment_examined os
          { sys_read_buf os st PHDR_SIZE with
            examined := (sys_read_buf os st PHDR_SIZE).examined ++
              [(st.pos, parsePhdr (sys_read_buf os st PHDR_SIZE).buf)] }
          (parsePhdr (sys_read_buf os st PHDR_SIZE).buf)
        rw [hseg] at htr hx
        simp only [Step.state] at htr hx
        refine ⟨[], Or.inr ⟨(st.pos, parsePhdr (sys_read_buf os st PHDR_SIZE).buf), k, ?_, h2,
          hk, ?_⟩⟩
        · rw [hx]; simp [sys_read_buf]
        · rw [htr]; simp [specTableCalls, PHDR_SIZE]
    · obtain ⟨_, done, hd⟩ := ih _ st2 o h
      refine ⟨(st.pos, parsePhdr (sys_read_buf os st PHDR_SIZE).buf) :: done, ?_⟩
      have h2' : ¬ (parsePhdr (sys_read_buf os st PHDR_SIZE).buf).p_type = 1 := h2
      rcases hd with ⟨he, ht⟩ | ⟨last, k, he, hl, hk, ht⟩
      · left
        refine ⟨by rw [he]; simp [sys_read_buf], ?_⟩
        rw [ht]
        simp only [List.map_cons, specTableCalls, if_neg h2']
        simp [PHDR_SIZE]
      · right
        refine ⟨last, k, by rw [he]; simp [sys_read_buf], hl, hk, ?_⟩
        rw [ht]
        simp only [List.map_cons, specTableCalls, if_neg h2']
        simp [PHDR_SIZE]

theorem load_segment_read_ret (os : OS) (st : LState) (ph : Phdr) :
    (sys_read_mem os (sys_lseek os (sys_mmap os st ph.p_vaddr ph.p_memsz
      (protOf ph.p_flags ||| PROT_WRITE) (MAP_PRIVATE ||| MAP_ANONYMOUS ||| MAP_FIXED))
      ph.p_offset) ph.p_vaddr ph.p_filesz).ret =
    (os.readResp (st.trace.length + 2)).ret ph.p_filesz
      (st.file.length - (if os.lseekOk (st.trace.length + 1) then ph.p_offset else st.pos)) := by
  simp [sys_read_mem, sys_lseek, sys_mmap]

/-- Which of the calls of an entry are issued, by the answers of the operating
system: the run stops at the first call that fails. -/
theorem load_segment_calls_exact (os : OS) (st : LState) (ph : Phdr) :
    ∃ k, (k = 1 ∨ k = 3 ∨ k = 4) ∧
      (load_segment os st ph).state.trace = st.trace ++ (specSegmentCalls ph).take k ∧
      (k = 1 ↔ os.mmapOk st.trace.length = false) ∧
      (k = 3 ↔ os.mmapOk st.trace.length = true ∧
        toU64 ((os.readResp (st.trace.length + 2)).ret ph.p_filesz
          (st.file.length - (if os.lseekOk (st.trace.length + 1) then ph.p_offset
            else st.pos))) ≠ ph.p_filesz) ∧
      ((load_segment os st ph).isCont = true ↔
        k = 4 ∧ os.mprotectOk (st.trace.length + 3) = true) ∧
      ((load_segment os st ph).isCont = false → (load_segment os st ph).status? = some 1) := by
  have hret := load_segment_read_ret os st ph
  have hlen : (sys_read_mem os (sys_lseek os (sys_mmap os st ph.p_vaddr ph.p_memsz
      (protOf ph.p_flags ||| PROT_WRITE) (MAP_PRIVATE ||| MAP_ANONYMOUS ||| MAP_FIXED))
      ph.p_offset) ph.p_vaddr ph.p_filesz).trace.length = st.trace.length + 3 := by simp
  have hmm := sys_mmap_failed_iff os st ph.p_vaddr ph.p_memsz (protOf ph.p_flags ||| PROT_WRITE)
    (MAP_PRIVATE ||| MAP_ANONYMOUS ||| MAP_FIXED)
  have hpp := sys_mprotect_failed_iff os (sys_read_mem os (sys_lseek os (sys_mmap os st
    ph.p_vaddr ph.p_memsz (protOf ph.p_flags ||| PROT_WRITE)
    (MAP_PRIVATE ||| MAP_ANONYMOUS ||| MAP_FIXED)) ph.p_offset) ph.p_vaddr ph.p_filesz)
    ph.p_vaddr ph.p_memsz (protOf ph.p_flags)
  rw [hlen] at hpp
  unfold load_segment
  simp only []
  by_cases h1 : (sys_mmap os st ph.p_vaddr ph.p_memsz (protOf ph.p_flags ||| PROT_WRITE)
      (MAP_PRIVATE ||| MAP_ANONYMOUS ||| MAP_FIXED)).ret = -1
  · have hm : os.mmapOk st.trace.length = false := hmm.1 h1
    rw [if_pos h1]
    exact ⟨1, Or.inl rfl, by
      simp [Step.state, specSegmentCalls, protOf_eq_specProt, PROT_WRITE, MAP_PRIVATE,
        MAP_ANONYMOUS, MAP_FIXED], by simp [hm], by simp [hm], by simp [Step.isCont],
      fun _ => rfl⟩
  · have hm : os.mmapOk st.trace.length = true := by
      cases hc : os.mmapOk st.trace.length
      · exact absurd (hmm.2 hc) h1
      · rfl
    rw [if_neg h1]
    by_cases h2 : toU64 (sys_read_mem os (sys_lseek os (sys_mmap os st ph.p_vaddr ph.p_memsz
        (protOf ph.p_flags ||| PROT_WRITE) (MAP_PRIVATE ||| MAP_ANONYMOUS ||| MAP_FIXED))
        ph.p_offset) ph.p_vaddr ph.p_filesz).ret ≠ ph.p_filesz
    · rw [if_pos h2]
      rw [hret] at h2
      exact ⟨3, Or.inr (Or.inl rfl), by
        simp [Step.state, specSegmentCalls, protOf_eq_specProt, PROT_WRITE, MAP_PRIVATE,
          MAP_ANONYMOUS, MAP_FIXED], by simp [hm], ⟨fun _ => ⟨hm, h2⟩, fun _ => rfl⟩,
        by simp [Step.isCont], fun _ => rfl⟩
    · rw [if_neg h2]
      rw [hret] at h2
      by_cases h3 : (sys_mprotect os (sys_read_mem os (sys_lseek os (sys_mmap os st ph.p_vaddr
          ph.p_memsz (protOf ph.p_flags ||| PROT_WRITE)
          (MAP_PRIVATE ||| MAP_ANONYMOUS ||| MAP_FIXED)) ph.p_offset) ph.p_vaddr ph.p_filesz)
          ph.p_vaddr ph.p_memsz (protOf ph.p_flags)).ret ≠ 0
      · have hp : os.mprotectOk (st.trace.length + 3) = false := hpp.1 h3
        rw [if_pos h3]
        exact ⟨4, Or.inr (Or.inr rfl), by
          simp [Step.state, specSegmentCalls, protOf_eq_specProt, PROT_WRITE, MAP_PRIVATE,
            MAP_ANONYMOUS, MAP_FIXED], by simp [hm],
          ⟨fun h => by omega, fun h => absurd h.2 h2⟩, by simp [Step.isCont, hp], fun _ => rfl⟩
      · have hp : os.mprotectOk (st.trace.length + 3) = true := by
          cases hc : os.mprotectOk (st.trace.length + 3)
          · exact absurd (hpp.2 hc) h3
          · rfl
        rw [if_neg h3]
        exact ⟨4, Or.inr (Or.inr rfl), by
          simp [Step.state, specSegmentCalls, protOf_eq_specProt, PROT_WRITE, MAP_PRIVATE,
            MAP_ANONYMOUS, MAP_FIXED], by simp [hm],
          ⟨fun h => by omega, fun h => absurd h.2 h2⟩, by simp [Step.isCont, hp],
          by simp [Step.isCont]⟩

/-! # The claims -/

/-- C1. When the file opens and the read of the header delivers all 64 bytes,
a header whose magic is not 0x7F 'E' 'L' 'F', whose class byte is not 2, whose
`e_machine` is not 62 or whose `e_type` is not 2 makes the loader exit with
status 1 without any `mmap` or `mprotect`; equivalently a mapping call in the
trace implies that all four fields matched. -/
theorem C1_invalid_header_rejected (os : OS) (cc : AsmOperands) (regs : Cpu)
    (filepath original_command : List Char) (file : List Nat)
    (hopen : os.fs filepath = some file)
    (hread : (os.readResp 1).ret 64 file.length = 64) :
    ((file.take 4 ≠ [0x7f, 0x45, 0x4c, 0x46] ∨ file.getD 4 0 ≠ 2 ∨
        (parseEhdr (file.take 64)).e_machine ≠ 62 ∨ (parseEhdr (file.take 64)).e_type ≠ 2) →
      (load_and_run_elf os cc regs filepath original_command).2 = Outcome.exit 1 ∧
      ∀ c ∈ (load_and_run_elf os cc regs filepath original_command).1.trace,
        c.isMapping = false) ∧
    ((∃ c ∈ (load_and_run_elf os cc regs filepath original_command).1.trace,
        c.isMapping = true) →
      file.take 4 = [0x7f, 0x45, 0x4c, 0x46] ∧ file.getD 4 0 = 2 ∧
        (parseEhdr (file.take 64)).e_machine = 62 ∧ (parseEhdr (file.take 64)).e_type = 2) := by
  have main : ¬ (file.take 4 = [0x7f, 0x45, 0x4c, 0x46] ∧ file.getD 4 0 = 2 ∧
        (parseEhdr (file.take 64)).e_machine = 62 ∧ (parseEhdr (file.take 64)).e_type = 2) →
      (load_and_run_elf os cc regs filepath original_command).2 = Outcome.exit 1 ∧
      ∀ c ∈ (load_and_run_elf os cc regs filepath original_command).1.trace,
        c.isMapping = false := by
    intro hbad
    have hinv : validEhdr (parseEhdr (file.take 64)) = false := by
      cases hv : validEhdr (parseEhdr (file.take 64)) with
      | false => rfl
      | true => exact absurd ((validEhdr_iff file).1 hv) hbad
    rw [load_and_run_elf_of_open os cc regs filepath original_command file hopen]
    simp [headerState_ret os filepath file hopen, headerState_buf os filepath file hopen hread,
      headerState_trace os filepath file hopen, hread,
      toU64_ehdr_size, EHDR_SIZE, hinv, sys_close, do_printf, Call.isMapping]
  constructor
  · intro hbad
    apply main
    intro ⟨h1, h2, h3, h4⟩
    rcases hbad with h | h | h | h
    · exact h h1
    · exact h h2
    · exact h h3
    · exact h h4
  · intro ⟨c, hc, hmap⟩
    by_contra hbad
    have := (main hbad).2 c hc
    rw [this] at hmap
    cases hmap

set_option maxRecDepth 100000 in
/-- C1 at a sample input: a shared object (`e_type = 3`) is rejected. -/
theorem C1_invalid_header_rejected_witness :
    (niceOS samplePath imageSharedObject).fs samplePath = some imageSharedObject ∧
    ((niceOS samplePath imageSharedObject).readResp 1).ret 64 imageSharedObject.length = 64 ∧
    (parseEhdr (imageSharedObject.take 64)).e_type ≠ 2 ∧
    (load_and_run_elf (niceOS samplePath imageSharedObject) sampleOperands sampleRegs samplePath
      "prog".toList).2 = Outcome.exit 1 ∧
    ∀ c ∈ (load_and_run_elf (niceOS samplePath imageSharedObject) sampleOperands sampleRegs
      samplePath "prog".toList).1.trace, c.isMapping = false :=
  ⟨by decide, by decide, by decide,
    (C1_invalid_header_rejected (niceOS samplePath imageSharedObject) sampleOperands sampleRegs
      samplePath "prog".toList imageSharedObject (by decide) (by decide)).1
      (Or.inr (Or.inr (Or.inr (by decide))))⟩

set_option maxRecDepth 100000 in
/-- C2 fails as stated: a one-entry read+execute image whose segment lies at the
address of the stack region is loaded with every call succeeding, the jump is
reached, and the first byte of the segment reads 0 although the file holds 0xAA
there. -/
theorem C2_counterexample :
    (parsePhdr ((imageOnStack.drop 64).take 56)) =
      { p_type := 1, p_flags := 5, p_offset := 120, p_vaddr := 0x700000000000,
        p_filesz := 4, p_memsz := 4096 } ∧
    imageOnStack.getD 120 0 = 0xAA ∧
    (load_and_run_elf (niceOS samplePath imageOnStack) sampleOperands sampleRegs samplePath
      "prog".toList).2.target?.isSome = true ∧
    ((load_and_run_elf (niceOS samplePath imageOnStack) sampleOperands sampleRegs samplePath
      "prog".toList).1.mem 0x700000000000).map Cell.val = some 0 := by
  refine ⟨by decide, by decide, by decide, by decide⟩

/-- C2, amended. For an image with a valid header and exactly one program-header
entry, of type PT_LOAD with flags read+execute, sizes F ≤ M, whose file holds
the F bytes at `p_offset`, when every system call succeeds and the range
[p_vaddr, p_vaddr + M) does not meet the stack region [0x700000000000,
0x700000200000): the loader reaches the jump, and then memory holds the file
bytes at p_vaddr + i for i < F and zero for F ≤ i < M. -/
theorem C2_segment_round_trip (os : OS) (cc : AsmOperands) (regs : Cpu)
    (filepath original_command : List Char) (file : List Nat) (ph : Phdr)
    (hopen : os.fs filepath = some file)
    (hread : ∀ k, os.readResp k = ReadResp.full)
    (hseek : ∀ k, os.lseekOk k = true)
    (hmmap : ∀ k, os.mmapOk k = true)
    (hmprot : ∀ k, os.mprotectOk k = true)
    (hbytes : ∀ b ∈ file, b < 256)
    (hlen : 64 ≤ file.length)
    (hvalid : file.take 4 = [0x7f, 0x45, 0x4c, 0x46] ∧ file.getD 4 0 = 2 ∧
      (parseEhdr (file.take 64)).e_machine = 62 ∧ (parseEhdr (file.take 64)).e_type = 2)
    (hnum : (parseEhdr (file.take 64)).e_phnum = 1)
    (hphdr : (parseEhdr (file.take 64)).e_phoff + 56 ≤ file.length)
    (hph : parsePhdr ((file.drop (parseEhdr (file.take 64)).e_phoff).take 56) = ph)
    (htype : ph.p_type = 1) (_hflags : ph.p_flags = 5)
    (hFM : ph.p_filesz ≤ ph.p_memsz)
    (hdata : ph.p_offset + ph.p_filesz ≤ file.length)
    (hstack : ph.p_vaddr + ph.p_memsz ≤ 0x700000000000 ∨ 0x700000200000 ≤ ph.p_vaddr) :
    (∃ cpu t, (load_and_run_elf os cc regs filepath original_command).2 = Outcome.jump cpu t) ∧
    (∀ i, i < ph.p_filesz →
      ((load_and_run_elf os cc regs filepath original_command).1.mem (ph.p_vaddr + i)).map
        Cell.val = some (file.getD (ph.p_offset + i) 0)) ∧
    (∀ i, ph.p_filesz ≤ i → i < ph.p_memsz →
      ((load_and_run_elf os cc regs filepath original_command).1.mem (ph.p_vaddr + i)).map
        Cell.val = some 0) := by
  have hread1 : (os.readResp 1).ret 64 file.length = 64 := by
    rw [hread]
    simp only [ReadResp.ret]
    rw [min_eq_left hlen]
    rfl
  have hbuf := headerState_buf os filepath file hopen hread1
  have hret := headerState_ret os filepath file hopen
  have hpos := headerState_pos os filepath file hopen hread1
  have hfile := headerState_file os filepath file hopen
  have hmem := headerState_mem os filepath
  have hval : validEhdr (parseEhdr (file.take 64)) = true := (validEhdr_iff file).2 hvalid
  have hF : ph.p_filesz < 2 ^ 64 := by
    rw [← hph]
    exact field_lt _ 32 (fun b hb => hbytes b (List.mem_of_mem_drop (List.mem_of_mem_take hb)))
  obtain ⟨st4, hloop, hmem4⟩ := load_segments_one_nice os
    (sys_lseek os (headerState os filepath) (parseEhdr (file.take 64)).e_phoff) ph
    hread hseek hmmap hmprot
    (by simp [sys_lseek, hseek, hfile]; exact hphdr)
    (by simp [sys_lseek, hseek, hfile]; exact hph)
    htype hF
    (by simp [sys_lseek, hfile]; exact hdata)
  have hrun : load_and_run_elf os cc regs filepath original_command =
      (sys_mmap os (sys_close st4) STACK_ADDR STACK_SIZE (PROT_READ ||| PROT_WRITE)
        (MAP_PRIVATE ||| MAP_ANONYMOUS ||| MAP_FIXED),
       transfer cc regs (STACK_ADDR + STACK_SIZE) (parseEhdr (file.take 64)).e_entry) := by
    rw [load_and_run_elf_of_open os cc regs filepath original_command file hopen, hbuf, hret,
      hread1, if_neg (by rw [toU64_ehdr_size]; simp [EHDR_SIZE]), if_neg (by simp [hval]),
      hnum, hloop]
    simp only [map_stack_and_jump]
    rw [if_neg]
    rw [sys_mmap_failed_iff]; simp [hmmap]
  have hmemfinal : ∀ i, i < ph.p_memsz →
      ((load_and_run_elf os cc regs filepath original_command).1.mem (ph.p_vaddr + i)).map
        Cell.val = some (((file.drop ph.p_offset).take ph.p_filesz).getD i 0) := by
    intro i hi
    rw [hrun]
    have hout : ¬ (STACK_ADDR ≤ ph.p_vaddr + i ∧
        ph.p_vaddr + i < STACK_ADDR + pageRound STACK_SIZE) := by
      rw [pageRound_stack]
      unfold STACK_ADDR
      omega
    simp only [sys_mmap, sys_close, hmmap, if_true]
    unfold Mem.map
    rw [if_neg hout, hmem4]
    have := segment_mem_val (sys_lseek os (headerState os filepath)
      (parseEhdr (file.take 64)).e_phoff).mem ph.p_vaddr ph.p_memsz (protOf ph.p_flags)
      ((file.drop ph.p_offset).take ph.p_filesz) i hi
    simpa [sys_lseek, hfile] using this
  refine ⟨?_, ?_, ?_⟩
  · obtain ⟨cpu, t, ht⟩ := transfer_is_jump cc regs (STACK_ADDR + STACK_SIZE)
      (parseEhdr (file.take 64)).e_entry
    refine ⟨cpu, t, ?_⟩
    rw [hrun]
    exact ht
  · intro i hi
    rw [hmemfinal i (by omega)]
    congr 1
    simp [List.getD_eq_getElem?_getD, List.getElem?_take, hi]
  · intro i hi1 hi2
    rw [hmemfinal i hi2]
    congr 1
    have hnot : ¬ i < ph.p_filesz := by omega
    simp [List.getD_eq_getElem?_getD, List.getElem?_take, hnot]

set_option maxRecDepth 100000 in
/-- C2 (amended) at a sample input: 3 bytes on disk, 8 in memory, at 0x400000. -/
theorem C2_segment_round_trip_witness :
    (load_and_run_elf (niceOS samplePath imageOneSegment) sampleOperands sampleRegs samplePath
      "prog".toList).2.target?.isSome = true ∧
    ((load_and_run_elf (niceOS samplePath imageOneSegment) sampleOperands sampleRegs samplePath
      "prog".toList).1.mem (0x400000 + 2)).map Cell.val = some 0xCC ∧
    ((load_and_run_elf (niceOS samplePath imageOneSegment) sampleOperands sampleRegs samplePath
      "prog".toList).1.mem (0x400000 + 5)).map Cell.val = some 0 := by
  have h := C2_segment_round_trip (niceOS samplePath imageOneSegment) sampleOperands sampleRegs
    samplePath "prog".toList imageOneSegment
    { p_type := 1, p_flags := 5, p_offset := 120, p_vaddr := 0x400000, p_filesz := 3,
      p_memsz := 8 }
    (by decide) (fun _ => rfl) (fun _ => rfl) (fun _ => rfl) (fun _ => rfl)
    (by decide) (by decide) (by decide) (by decide) (by decide) (by decide) rfl rfl
    (by decide) (by decide) (by decide)
  obtain ⟨⟨cpu, t, hj⟩, h1, h2⟩ := h
  refine ⟨by rw [hj]; rfl, ?_, ?_⟩
  · have := h1 2 (by decide)
    simpa using this
  · exact h2 5 (by decide) (by decide)

set_option maxRecDepth 100000 in
/-- C3 fails on the code: the table of `imageTwoSegments` holds two loadable
records, at file offsets 64 and 64 + 56 = 120, yet the second record the loader
examines is read from offset 180 (just after the data of the first segment,
where the descriptor was left by the copy), it is not the table record, and the
only segment mapped is the first one; the loader still reaches the jump. -/
theorem C3_second_entry_read_after_segment_data :
    (parseEhdr (imageTwoSegments.take 64)).e_phoff = 64 ∧
    (parseEhdr (imageTwoSegments.take 64)).e_phnum = 2 ∧
    (parsePhdr ((imageTwoSegments.drop 64).take 56)).p_type = 1 ∧
    (parsePhdr ((imageTwoSegments.drop 120).take 56)).p_type = 1 ∧
    (load_and_run_elf (niceOS samplePath imageTwoSegments) sampleOperands sampleRegs samplePath
      "prog".toList).1.examined.map Prod.fst = [64, 180] ∧
    (load_and_run_elf (niceOS samplePath imageTwoSegments) sampleOperands sampleRegs samplePath
      "prog".toList).1.examined.map Prod.snd ≠
      [parsePhdr ((imageTwoSegments.drop 64).take 56),
       parsePhdr ((imageTwoSegments.drop 120).take 56)] ∧
    (load_and_run_elf (niceOS samplePath imageTwoSegments) sampleOperands sampleRegs samplePath
      "prog".toList).1.trace.filter Call.isMapping =
      [Call.mmap 0x400000 4096 7 0x32, Call.mprotect 0x400000 4096 5,
       Call.mmap 0x700000000000 0x200000 3 0x32] ∧
    (load_and_run_elf (niceOS samplePath imageTwoSegments) sampleOperands sampleRegs samplePath
      "prog".toList).2.target?.isSome = true := by
  refine ⟨by decide, by decide, by decide, by decide, by decide, by decide, by decide,
    by decide⟩

set_option maxRecDepth 100000 in
/-- C4 fails as stated, in two ways.  On `imageBadOffset`, with the seek to
p_offset = 2^63 refused (its result is not checked), the loader reads the 3
bytes at the file position it has, 120, copies them to 0x400000 and reaches the
jump: the read is not from file offset p_offset, where the file of 124 bytes
holds nothing.  On `imageOnStack` the read+execute segment (flags 5, no PF_W)
gets its mprotect with protection 5, yet at the jump its first byte is
writable, protection 3: the mapping of the stack covers it. -/
theorem C4_counterexample :
    ((load_and_run_elf (seekFailingOS samplePath imageBadOffset 5) sampleOperands sampleRegs
        samplePath "prog".toList).1.trace =
      [Call.openRd samplePath, Call.read 64 none, Call.lseek 64, Call.read 56 none,
        Call.mmap 0x400000 8 7 0x32, Call.lseek 0x8000000000000000,
        Call.read 3 (some 0x400000), Call.mprotect 0x400000 8 5,
        Call.close, Call.mmap 0x700000000000 0x200000 3 0x32] ∧
      (load_and_run_elf (seekFailingOS samplePath imageBadOffset 5) sampleOperands sampleRegs
        samplePath "prog".toList).2.target?.isSome = true ∧
      (load_and_run_elf (seekFailingOS samplePath imageBadOffset 5) sampleOperands sampleRegs
        samplePath "prog".toList).1.mem 0x400000 = some ⟨0xAA, 5⟩ ∧
      imageBadOffset.length = 124 ∧ imageBadOffset.getD 120 0 = 0xAA) ∧
    ((load_and_run_elf (niceOS samplePath imageOnStack) sampleOperands sampleRegs samplePath
        "prog".toList).1.examined.map Prod.snd =
        [{ p_type := 1, p_flags := 5, p_offset := 120, p_vaddr := 0x700000000000, p_filesz := 4,
           p_memsz := 4096 }] ∧
      5 &&& PF_W = 0 ∧
      Call.mprotect 0x700000000000 4096 5 ∈
        (load_and_run_elf (niceOS samplePath imageOnStack) sampleOperands sampleRegs samplePath
          "prog".toList).1.trace ∧
      (load_and_run_elf (niceOS samplePath imageOnStack) sampleOperands sampleRegs samplePath
        "prog".toList).2.target?.isSome = true ∧
      (load_and_run_elf (niceOS samplePath imageOnStack) sampleOperands sampleRegs samplePath
        "prog".toList).1.mem 0x700000000000 = some ⟨0, 3⟩ ∧
      3 &&& PROT_WRITE ≠ 0) := by
  decide

/-- C4, amended.  (1) For every loadable entry, in every state of the loader,
the calls issued are the first one, three or four of: mmap at p_vaddr of
p_memsz bytes with protection prot plus write and flags private+anonymous+fixed;
seek to p_offset and read of p_filesz bytes into p_vaddr; mprotect of
(p_vaddr, p_memsz) with protection prot.  Only the mmap is issued exactly when
it is refused; the calls stop after the read exactly when the mmap was granted
and the result of the read, as an unsigned number, is not p_filesz; the run goes
on exactly when all four are issued and the mprotect is granted; otherwise it
ends with exit status 1.  prot has read, write, execute exactly when p_flags has
PF_R, PF_W, PF_X.
(2) When the entry has been handled to the end, every byte of its pages has
protection prot, and when the seek succeeded (and p_filesz is not 2^64 - 1) the
bytes of the segment are the bytes of the file at p_offset.
(3) A walk of the table that ends the run ends it with exit status 1, after the
full calls of the entries before, at the read of a record or within the calls
of the last entry.
(4) In a run that reaches the control transfer the calls are the open, the read
of the header, the seek to the table, the calls of every entry examined, the
close and the mmap of the stack; and at the transfer a byte in the pages of a
loadable entry, in the pages of no entry examined after it and outside the
stack region, has the protection prot of that entry: it is not writable when the
flags lack PF_W. -/
theorem C4_segment_calls_in_order (os : OS) (cc : AsmOperands) (regs : Cpu)
    (filepath original_command : List Char) :
    (∀ (st : LState) (ph : Phdr), ∃ k, (k = 1 ∨ k = 3 ∨ k = 4) ∧
      (load_segment os st ph).state.trace = st.trace ++
        ([Call.mmap ph.p_vaddr ph.p_memsz (specProt ph.p_flags ||| 2) 0x32,
          Call.lseek ph.p_offset, Call.read ph.p_filesz (some ph.p_vaddr),
          Call.mprotect ph.p_vaddr ph.p_memsz (specProt ph.p_flags)]).take k ∧
      (k = 1 ↔ os.mmapOk st.trace.length = false) ∧
      (k = 3 ↔ os.mmapOk st.trace.length = true ∧
        toU64 ((os.readResp (st.trace.length + 2)).ret ph.p_filesz
          (st.file.length - (if os.lseekOk (st.trace.length + 1) then ph.p_offset
            else st.pos))) ≠ ph.p_filesz) ∧
      ((load_segment os st ph).isCont = true ↔
        k = 4 ∧ os.mprotectOk (st.trace.length + 3) = true) ∧
      ((load_segment os st ph).isCont = false → (load_segment os st ph).status? = some 1)) ∧
    (∀ p_flags : Nat, protOf p_flags = specProt p_flags ∧
      (specProt p_flags &&& PROT_READ ≠ 0 ↔ p_flags &&& PF_R ≠ 0) ∧
      (specProt p_flags &&& PROT_WRITE ≠ 0 ↔ p_flags &&& PF_W ≠ 0) ∧
      (specProt p_flags &&& PROT_EXEC ≠ 0 ↔ p_flags &&& PF_X ≠ 0) ∧
      specProt p_flags < 8) ∧
    (∀ (st st2 : LState) (ph : Phdr), load_segment os st ph = .cont st2 →
      (∀ a, ph.covers a = true → (st2.mem a).map Cell.prot = some (specProt ph.p_flags)) ∧
      (os.lseekOk (st.trace.length + 1) = true → ph.p_filesz < 2 ^ 64 - 1 →
        ∀ i, i < ph.p_filesz → i < pageRound ph.p_memsz →
          ph.p_offset + i < st.file.length ∧
          (st2.mem (ph.p_vaddr + i)).map Cell.val =
            some (st.file.getD (ph.p_offset + i) 0))) ∧
    (∀ (n : Nat) (st st2 : LState) (o : Outcome), load_segments os n st = .halt st2 o →
      o = Outcome.exit 1 ∧ ∃ done : List (Nat × Phdr),
        (st2.examined = st.examined ++ done ∧
          st2.trace = st.trace ++ specTableCalls (done.map Prod.snd) ++
            [Call.read 56 none, Call.close]) ∨
        (∃ last k, st2.examined = st.examined ++ done ++ [last] ∧ last.2.p_type = PT_LOAD ∧
          (k = 1 ∨ k = 3 ∨ k = 4) ∧
          st2.trace = st.trace ++ specTableCalls (done.map Prod.snd) ++
            (Call.read 56 none :: (specSegmentCalls last.2).take k))) ∧
    ((load_and_run_elf os cc regs filepath original_command).2.target?.isSome = true →
      (∃ file, os.fs filepath = some file ∧
        (load_and_run_elf os cc regs filepath original_command).1.trace =
          [Call.openRd filepath, Call.read 64 none,
            Call.lseek (parseEhdr (file.take 64)).e_phoff] ++
          specTableCalls
            ((load_and_run_elf os cc regs filepath original_command).1.examined.map Prod.snd) ++
          [Call.close, Call.mmap 0x700000000000 0x200000 3 0x32]) ∧
      (∀ e ∈ (load_and_run_elf os cc regs filepath original_command).1.examined,
        e.2.p_type = PT_LOAD →
          (protOf e.2.p_flags &&& PROT_READ ≠ 0 ↔ e.2.p_flags &&& PF_R ≠ 0) ∧
          (protOf e.2.p_flags &&& PROT_WRITE ≠ 0 ↔ e.2.p_flags &&& PF_W ≠ 0) ∧
          (protOf e.2.p_flags &&& PROT_EXEC ≠ 0 ↔ e.2.p_flags &&& PF_X ≠ 0) ∧
          protOf e.2.p_flags < 8 ∧
          Call.mprotect e.2.p_vaddr e.2.p_memsz (protOf e.2.p_flags) ∈
            (load_and_run_elf os cc regs filepath original_command).1.trace) ∧
      (∀ (pre : List (Nat × Phdr)) (e : Nat × Phdr) (post : List (Nat × Phdr)) (a : Nat),
        (load_and_run_elf os cc regs filepath original_command).1.examined = pre ++ e :: post →
        e.2.p_type = PT_LOAD → e.2.covers a = true →
        (∀ x ∈ post, x.2.p_type = PT_LOAD → x.2.covers a = false) →
        inStack a = false →
          ((load_and_run_elf os cc regs filepath original_command).1.mem a).map Cell.prot =
            some (specProt e.2.p_flags) ∧
          (e.2.p_flags &&& PF_W = 0 → specProt e.2.p_flags &&& PROT_WRITE = 0))) := by
  refine ⟨?_, ?_, ?_, ?_, ?_⟩
  · intro st ph
    exact load_segment_calls_exact os st ph
  · intro f
    exact ⟨protOf_eq_specProt f, specProt_read f, specProt_write f, specProt_exec f,
      specProt_lt f⟩
  · intro st st2 ph h
    exact ⟨fun a ha => load_segment_prot_inside os st st2 ph a h ha,
      fun hseek hF i hi hp => load_segment_data os st st2 ph h hseek hF i hi hp⟩
  · intro n st st2 o h
    exact load_segments_halt_calls os n st st2 o h
  · intro hjump
    obtain ⟨cpu, t, hj⟩ := Outcome.jump_of_target _ hjump
    obtain ⟨file, st4, hfs, hr1, _, hloop, hrun, hok, _⟩ :=
      jump_inv os cc regs filepath original_command cpu t hj
    obtain ⟨new, hex, _, htr, _⟩ := load_segments_cont os _ _ st4 hloop
    have hbuf := headerState_buf os filepath file hfs hr1
    have hexam : (load_and_run_elf os cc regs filepath original_command).1.examined = new := by
      rw [hrun]
      simp only [sys_mmap, sys_close]
      rw [hex]
      simp [sys_lseek, headerState_examined]
    have htrace : (load_and_run_elf os cc regs filepath original_command).1.trace =
        [Call.openRd filepath, Call.read 64 none,
          Call.lseek (parseEhdr (file.take 64)).e_phoff] ++
        specTableCalls (new.map Prod.snd) ++
        [Call.close, Call.mmap 0x700000000000 0x200000 3 0x32] := by
      rw [hrun, sys_mmap_trace, sys_close_trace, htr, sys_lseek_trace,
        headerState_trace os filepath file hfs, hbuf]
      simp [STACK_ADDR, STACK_SIZE, PROT_READ, PROT_WRITE, MAP_PRIVATE, MAP_ANONYMOUS, MAP_FIXED]
    refine ⟨⟨file, hfs, ?_⟩, ?_, ?_⟩
    · rw [hexam]; exact htrace
    · intro e he htype
      rw [hexam] at he
      rw [protOf_eq_specProt]
      refine ⟨specProt_read _, specProt_write _, specProt_exec _, specProt_lt _, ?_⟩
      rw [htrace]
      apply List.mem_append_left
      apply List.mem_append_right
      exact specTableCalls_mprotect_mem _ e.2 (List.mem_map_of_mem Prod.snd he) htype
    · intro pre e post a hsplit htype hcov hlater hstack
      obtain ⟨new2, hex2, hprot⟩ := load_segments_prot os _ _ st4 hloop
      have hnew : new2 = new := by
        have := hex.symm.trans hex2
        exact (List.append_cancel_left this).symm
      subst hnew
      rw [hexam] at hsplit
      have h1 := (hprot a).2 pre e post hsplit htype hcov hlater
      refine ⟨?_, ?_⟩
      · rw [hrun]
        have hlen : (sys_close st4).trace.length = st4.trace.length + 1 := by simp [sys_close]
        simp only [sys_mmap, hlen, hok, if_true, Mem.map]
        rw [if_neg]
        · exact h1
        · simp only [inStack, decide_eq_false_iff_not] at hstack
          rw [pageRound_stack]
          simpa [STACK_SIZE] using hstack
      · intro hw
        by_contra hne
        exact absurd hw ((specProt_write e.2.p_flags).1 hne)

set_option maxRecDepth 100000 in
/-- C4 (amended) at a sample input: the calls of the run on `imageOneSegment`,
and the protection of the first byte of its read+execute segment at the
transfer. -/
theorem C4_segment_calls_in_order_witness :
    (load_and_run_elf (niceOS samplePath imageOneSegment) sampleOperands sampleRegs samplePath
      "prog".toList).1.examined =
        [(64, { p_type := 1, p_flags := 5, p_offset := 120, p_vaddr := 0x400000,
                p_filesz := 3, p_memsz := 8 })] ∧
    (∃ file, (niceOS samplePath imageOneSegment).fs samplePath = some file ∧
      (load_and_run_elf (niceOS samplePath imageOneSegment) sampleOperands sampleRegs samplePath
        "prog".toList).1.trace =
        [Call.openRd samplePath, Call.read 64 none,
          Call.lseek (parseEhdr (file.take 64)).e_phoff] ++
        specTableCalls ((load_and_run_elf (niceOS samplePath imageOneSegment) sampleOperands
          sampleRegs samplePath "prog".toList).1.examined.map Prod.snd) ++
        [Call.close, Call.mmap 0x700000000000 0x200000 3 0x32]) ∧
    ((load_and_run_elf (niceOS samplePath imageOneSegment) sampleOperands sampleRegs samplePath
      "prog".toList).1.mem 0x400000).map Cell.prot = some (specProt 5) ∧
    specProt 5 &&& PROT_WRITE = 0 :=
  ⟨by decide,
    ((C4_segment_calls_in_order (niceOS samplePath imageOneSegment) sampleOperands sampleRegs
      samplePath "prog".toList).2.2.2.2 (by decide)).1,
    (((C4_segment_calls_in_order (niceOS samplePath imageOneSegment) sampleOperands sampleRegs
      samplePath "prog".toList).2.2.2.2 (by decide)).2.2 []
      (64, { p_type := 1, p_flags := 5, p_offset := 120, p_vaddr := 0x400000,
             p_filesz := 3, p_memsz := 8 }) [] 0x400000 (by decide) (by decide) (by decide) (by simp)
      (by decide)).1,
    by decide⟩

set_option maxRecDepth 100000 in
/-- C5 fails as stated: a segment whose flags are read+write+execute is mapped,
the jump is reached, and its bytes are writable and executable together. -/
theorem C5_counterexample :
    (load_and_run_elf (niceOS samplePath imageRWX) sampleOperands sampleRegs samplePath
      "prog".toList).2.target?.isSome = true ∧
    (load_and_run_elf (niceOS samplePath imageRWX) sampleOperands sampleRegs samplePath
      "prog".toList).1.mem 0x400000 = some { val := 0xAA, prot := 7 } ∧
    (7 &&& PROT_WRITE ≠ 0 ∧ 7 &&& PROT_EXEC ≠ 0) := by
  refine ⟨by decide, by decide, by decide⟩

/-- C5, amended. In a run that reaches the control transfer and in which no
loadable entry examined has both PF_W and PF_X in its flags, no byte mapped by
the loader (segment or stack) is writable and executable together. -/
theorem C5_no_writable_executable_mapping (os : OS) (cc : AsmOperands) (regs : Cpu)
    (filepath original_command : List Char)
    (hjump : (load_and_run_elf os cc regs filepath original_command).2.target?.isSome = true)
    (hflags : ∀ e ∈ (load_and_run_elf os cc regs filepath original_command).1.examined,
      e.2.p_type = PT_LOAD → ¬ (e.2.p_flags &&& PF_W ≠ 0 ∧ e.2.p_flags &&& PF_X ≠ 0)) :
    ∀ a c, (load_and_run_elf os cc regs filepath original_command).1.mem a = some c →
      ¬ (c.prot &&& PROT_WRITE ≠ 0 ∧ c.prot &&& PROT_EXEC ≠ 0) := by
  obtain ⟨cpu, t, hj⟩ := Outcome.jump_of_target _ hjump
  obtain ⟨file, st4, hfs, hr1, _, hloop, hrun, hm, _⟩ :=
    jump_inv os cc regs filepath original_command cpu t hj
  obtain ⟨new, hex, _, _, hmem⟩ := load_segments_cont os _ _ st4 hloop
  have hexam : (load_and_run_elf os cc regs filepath original_command).1.examined = new := by
    rw [hrun]
    simp only [sys_mmap, sys_close]
    rw [hex]
    simp [sys_lseek, headerState_examined]
  rw [hexam] at hflags
  have h0 : NoWX (sys_lseek os (headerState os filepath)
      (parseEhdr (headerState os filepath).buf).e_phoff).mem := by
    intro a c hc
    simp [sys_lseek, headerState_mem] at hc
  have h4 : NoWX st4.mem := hmem hflags h0
  have hfinal : NoWX (load_and_run_elf os cc regs filepath original_command).1.mem := by
    rw [hrun]
    have hm2 : os.mmapOk (sys_close st4).trace.length = true := by simpa using hm
    simp only [sys_mmap, hm2, if_true]
    exact NoWX_stack _ h4
  exact hfinal

set_option maxRecDepth 100000 in
/-- C5 (amended) at a sample input: the read+execute segment of
`imageOneSegment` is not writable after loading. -/
theorem C5_no_writable_executable_mapping_witness :
    (load_and_run_elf (niceOS samplePath imageOneSegment) sampleOperands sampleRegs samplePath
      "prog".toList).1.mem 0x400000 = some { val := 0xAA, prot := 5 } ∧
    ¬ (5 &&& PROT_WRITE ≠ 0 ∧ 5 &&& PROT_EXEC ≠ 0) :=
  ⟨by decide,
    C5_no_writable_executable_mapping (niceOS samplePath imageOneSegment) sampleOperands
      sampleRegs samplePath "prog".toList (by decide) (by decide) 0x400000
      { val := 0xAA, prot := 5 } (by decide)⟩

set_option maxRecDepth 100000 in
/-- C6 fails on the code: `imageOneSegment` has the entry point 0x401000 and is
loaded with every call succeeding; the stack pointer is 0x700000200000 at the
jump, but the jump goes to address 0, because the register holding `%1` is
cleared by the `xor` lines before `jmp *%1`.  The same holds for every pair of
registers the compiler may choose for `%0` and `%1`. -/
theorem C6_jump_target_is_cleared :
    (parseEhdr (imageOneSegment.take 64)).e_entry = 0x401000 ∧
    (load_and_run_elf (niceOS samplePath imageOneSegment) sampleOperands sampleRegs samplePath
      "prog".toList).2.target? = some 0 ∧
    (load_and_run_elf (niceOS samplePath imageOneSegment) sampleOperands sampleRegs samplePath
      "prog".toList).2.cpu?.map (fun cpu => cpu Reg.rsp) = some 0x700000200000 ∧
    (allocatable.all fun op0 => allocatable.all fun op1 =>
      decide ((transfer ⟨op0, op1⟩ sampleRegs (STACK_ADDR + STACK_SIZE) 0x401000).target? =
        some 0)) = true := by
  refine ⟨by decide, by decide, by decide, by decide⟩

/-- C7. When the file cannot be opened the loader exits with status 127; its
only system call is the failed open (no read, no mmap, no mprotect), and it
ends by process exit, not by a return to its caller. -/
theorem C7_open_failure_exits_127 (os : OS) (cc : AsmOperands) (regs : Cpu)
    (filepath original_command : List Char) (hopen : os.fs filepath = none) :
    (load_and_run_elf os cc regs filepath original_command).2 = Outcome.exit 127 ∧
    (load_and_run_elf os cc regs filepath original_command).1.trace = [Call.openRd filepath] ∧
    ∀ c ∈ (load_and_run_elf os cc regs filepath original_command).1.trace,
      c.isRead = false ∧ c.isMapping = false := by
  rw [load_and_run_elf_of_open_failed os cc regs filepath original_command hopen]
  simp [do_printf, Call.isRead, Call.isMapping]

/-- C7 at a sample input: a path that does not exist. -/
theorem C7_open_failure_exits_127_witness :
    (niceOS samplePath imageOneSegment).fs "/bin/ls".toList = none ∧
    (load_and_run_elf (niceOS samplePath imageOneSegment) sampleOperands sampleRegs
      "/bin/ls".toList "/bin/ls".toList).2 = Outcome.exit 127 :=
  ⟨by decide,
    (C7_open_failure_exits_127 (niceOS samplePath imageOneSegment) sampleOperands sampleRegs
      "/bin/ls".toList "/bin/ls".toList (by decide)).1⟩

set_option maxRecDepth 100000 in
/-- C8 fails on the code: for the command typed as `/bin/ls`, which cannot be
opened, the child exits with status 127 and the only line printed is
`Bad command or file name: C:\bin\ls`; the name as typed is saved in
`original_command` and handed to the loader, which never uses it, so the line
does not contain it. -/
theorem C8_diagnostic_omits_original_command :
    save_original_command "/bin/ls".toList = "/bin/ls".toList ∧
    (niceOS samplePath imageOneSegment).fs
      (resolve_full_path (normalize_path_to_linux "/bin/ls".toList)) = none ∧
    (run_external_child (niceOS samplePath imageOneSegment) sampleOperands sampleRegs
      "/bin/ls".toList).2.status? = some 127 ∧
    (run_external_child (niceOS samplePath imageOneSegment) sampleOperands sampleRegs
      "/bin/ls".toList).1.out =
      [Out.printf ("Bad command or file name: C:".toList ++ [BACKSLASH] ++ "bin".toList ++
        [BACKSLASH] ++ "ls\n".toList)] ∧
    ¬ List.IsInfix "/bin/ls".toList
      ("Bad command or file name: C:".toList ++ [BACKSLASH] ++ "bin".toList ++
        [BACKSLASH] ++ "ls\n".toList) := by
  refine ⟨by decide, by decide, by decide, by decide, by decide⟩

set_option maxRecDepth 100000 in
/-- C9 fails as stated: a file of ten bytes opens, the read of the header
returns 10 instead of 64, and the loader exits with status 1, not 127. -/
theorem C9_counterexample :
    (niceOS samplePath imageTruncated).fs samplePath = some imageTruncated ∧
    ((niceOS samplePath imageTruncated).readResp 1).ret 64 imageTruncated.length = 10 ∧
    (load_and_run_elf (niceOS samplePath imageTruncated) sampleOperands sampleRegs samplePath
      "prog".toList).2.status? = some 1 ∧
    (load_and_run_elf (niceOS samplePath imageTruncated) sampleOperands sampleRegs samplePath
      "prog".toList).2.status? ≠ some 127 := by
  refine ⟨by decide, by decide, by decide, by decide⟩

/-- C9, amended. If the file opens but the read of the 64-byte header reports an
error or delivers fewer than 64 bytes, the loader exits with the generic failure
status 1 (not the status 127 of an open failure) and issues no `mmap` and no
`mprotect`. -/
theorem C9_short_header_exits_1 (os : OS) (cc : AsmOperands) (regs : Cpu)
    (filepath original_command : List Char) (file : List Nat)
    (hopen : os.fs filepath = some file)
    (hshort : (os.readResp 1).ret 64 file.length ≠ 64) :
    (load_and_run_elf os cc regs filepath original_command).2 = Outcome.exit 1 ∧
    ∀ c ∈ (load_and_run_elf os cc regs filepath original_command).1.trace,
      c.isMapping = false := by
  have h1 : toU64 (headerState os filepath).ret ≠ EHDR_SIZE := by
    rw [headerState_ret os filepath file hopen]
    intro h
    exact hshort ((toU64_ret_eq_iff _ 64 _ (by norm_num)).1 h)
  rw [load_and_run_elf_of_open os cc regs filepath original_command file hopen, if_pos h1]
  simp [headerState_trace os filepath file hopen, sys_close, do_perror, Call.isMapping]

/-- C9 (amended) at a sample input: the file of ten bytes. -/
theorem C9_short_header_exits_1_witness :
    (niceOS samplePath imageTruncated).fs samplePath = some imageTruncated ∧
    ((niceOS samplePath imageTruncated).readResp 1).ret 64 imageTruncated.length ≠ 64 ∧
    (load_and_run_elf (niceOS samplePath imageTruncated) sampleOperands sampleRegs samplePath
      "prog".toList).2 = Outcome.exit 1 :=
  ⟨by decide, by decide,
    (C9_short_header_exits_1 (niceOS samplePath imageTruncated) sampleOperands sampleRegs
      samplePath "prog".toList imageTruncated (by decide) (by decide)).1⟩

/-- C10. If an `mmap` or `mprotect` issued by the loader is refused (call number
`k` of the trace), the loader exits with status 1 and that call is the last
system call of the run: no retry, no further `mmap` or `mprotect`, no unmapping,
no control transfer and no return to the caller. -/
theorem C10_refused_mapping_is_fatal (os : OS) (cc : AsmOperands) (regs : Cpu)
    (filepath original_command : List Char) (k : Nat)
    (hfail : failedMappingAt os
      (load_and_run_elf os cc regs filepath original_command).1.trace k = true) :
    (load_and_run_elf os cc regs filepath original_command).2 = Outcome.exit 1 ∧
    (load_and_run_elf os cc regs filepath original_command).1.trace.length = k + 1 :=
  ends_of_failedMappingAt os _ _
    (load_and_run_elf_good os cc regs filepath original_command) k hfail

set_option maxRecDepth 100000 in
/-- C10 at two sample inputs: the `mmap` of the segment refused (call 4), and
the `mprotect` of the segment refused (call 7). -/
theorem C10_refused_mapping_is_fatal_witness :
    ((load_and_run_elf (failingOS samplePath imageOneSegment 4) sampleOperands sampleRegs
        samplePath "prog".toList).1.trace[4]? = some (Call.mmap 0x400000 8 7 0x32) ∧
     (load_and_run_elf (failingOS samplePath imageOneSegment 4) sampleOperands sampleRegs
        samplePath "prog".toList).2 = Outcome.exit 1 ∧
     (load_and_run_elf (failingOS samplePath imageOneSegment 4) sampleOperands sampleRegs
        samplePath "prog".toList).1.trace.length = 4 + 1) ∧
    ((load_and_run_elf (failingOS samplePath imageOneSegment 7) sampleOperands sampleRegs
        samplePath "prog".toList).1.trace[7]? = some (Call.mprotect 0x400000 8 5) ∧
     (load_and_run_elf (failingOS samplePath imageOneSegment 7) sampleOperands sampleRegs
        samplePath "prog".toList).2 = Outcome.exit 1 ∧
     (load_and_run_elf (failingOS samplePath imageOneSegment 7) sampleOperands sampleRegs
        samplePath "prog".toList).1.trace.length = 7 + 1) :=
  ⟨⟨by decide, C10_refused_mapping_is_fatal (failingOS samplePath imageOneSegment 4)
      sampleOperands sampleRegs samplePath "prog".toList 4 (by decide)⟩,
   ⟨by decide, C10_refused_mapping_is_fatal (failingOS samplePath imageOneSegment 7)
      sampleOperands sampleRegs samplePath "prog".toList 7 (by decide)⟩⟩

/-- C11. When the file opens, its header is read in full and is valid, and the
walk of the program-header table went through every entry without failure, the
calls of the run are those of the walk followed by the close and exactly one
mapping call: mmap at 0x700000000000 of 0x200000 bytes (2 MiB), protection
read+write without execute, flags private+anonymous+fixed.  When that mmap is
refused the run ends with exit status 1, without a jump; otherwise the run ends
with the jump, which follows every call. -/
theorem C11_stack_mapping (os : OS) (cc : AsmOperands) (regs : Cpu)
    (filepath original_command : List Char) (file : List Nat)
    (hopen : os.fs filepath = some file)
    (hread : (os.readResp 1).ret 64 file.length = 64)
    (hvalid : validEhdr (parseEhdr (file.take 64)) = true)
    (hloop : (tableStep os filepath).isCont = true) :
    (load_and_run_elf os cc regs filepath original_command).1.trace =
      (tableStep os filepath).state.trace ++
        [Call.close, Call.mmap 0x700000000000 0x200000 3 0x32] ∧
    (PROT_READ ||| PROT_WRITE = 3 ∧ 3 &&& PROT_EXEC = 0 ∧ 0x200000 = 2 * 1024 * 1024 ∧
      MAP_PRIVATE ||| MAP_ANONYMOUS ||| MAP_FIXED = 0x32) ∧
    (os.mmapOk ((tableStep os filepath).state.trace.length + 1) = false →
      (load_and_run_elf os cc regs filepath original_command).2 = Outcome.exit 1) ∧
    (os.mmapOk ((tableStep os filepath).state.trace.length + 1) = true →
      (load_and_run_elf os cc regs filepath original_command).2.target?.isSome = true) := by
  rw [load_and_run_elf_of_table os cc regs filepath original_command file hopen hread hvalid]
  cases hstep : tableStep os filepath with
  | halt st4 o => rw [hstep] at hloop; cases hloop
  | cont st4 =>
    simp only [Step.state]
    have ho := map_stack_and_jump_outcome os cc regs st4 (parseEhdr (file.take 64))
    exact ⟨map_stack_and_jump_trace os cc regs st4 (parseEhdr (file.take 64)),
      by decide, ho.1, ho.2⟩

set_option maxRecDepth 100000 in
/-- C11 at sample inputs: `imageOneSegment` with every call granted, and with
the mmap of the stack (the call after eight others) refused. -/
theorem C11_stack_mapping_witness :
    (load_and_run_elf (niceOS samplePath imageOneSegment) sampleOperands sampleRegs samplePath
      "prog".toList).2.target?.isSome = true ∧
    (load_and_run_elf (failingOS samplePath imageOneSegment 9) sampleOperands sampleRegs
      samplePath "prog".toList).2 = Outcome.exit 1 ∧
    (load_and_run_elf (failingOS samplePath imageOneSegment 9) sampleOperands sampleRegs
      samplePath "prog".toList).1.trace.drop 8 =
        [Call.close, Call.mmap 0x700000000000 0x200000 3 0x32] :=
  ⟨(C11_stack_mapping (niceOS samplePath imageOneSegment) sampleOperands sampleRegs samplePath
      "prog".toList imageOneSegment (by decide) (by decide) (by decide) (by decide)).2.2.2
      (by decide),
   (C11_stack_mapping (failingOS samplePath imageOneSegment 9) sampleOperands sampleRegs
      samplePath "prog".toList imageOneSegment (by decide) (by decide) (by decide)
      (by decide)).2.2.1 (by decide),
   by
    rw [(C11_stack_mapping (failingOS samplePath imageOneSegment 9) sampleOperands sampleRegs
      samplePath "prog".toList imageOneSegment (by decide) (by decide) (by decide)
      (by decide)).1]
    decide⟩

/-- C12. If the process id is not 1, `main` returns 1; its only call is
`getpid`: no handler is installed, no fork, exec, wait or sleep is performed. -/
theorem C12_not_pid1_returns_1 (os : SvOS) (fuel : Nat) (argv environ : List (List Char))
    (hpid : os.pid ≠ 1) :
    (init_main os fuel argv environ).2 = SvOutcome.returned 1 ∧
    (init_main os fuel argv environ).1.trace = [SvCall.getpid] ∧
    (init_main os fuel argv environ).1.handlers = [] := by
  unfold init_main
  rw [sv_getpid_init]
  simp [hpid, afterGetpid]

/-- C12 at a sample input: process id 7. -/
theorem C12_not_pid1_returns_1_witness :
    (quietSvOS 7 (fun _ => 0) (fun _ => 0)).pid ≠ 1 ∧
    (init_main (quietSvOS 7 (fun _ => 0) (fun _ => 0)) 5 [] []).2 = SvOutcome.returned 1 ∧
    (init_main (quietSvOS 7 (fun _ => 0) (fun _ => 0)) 5 [] []).1.trace = [SvCall.getpid] ∧
    (init_main (quietSvOS 7 (fun _ => 0) (fun _ => 0)) 5 [] []).1.handlers = [] :=
  ⟨by decide, C12_not_pid1_returns_1 (quietSvOS 7 (fun _ => 0) (fun _ => 0)) 5 [] [] (by decide)⟩

/-- C13. At the head of the loop, when `fork` returns p > 0, the sweep calls
return positive values m times and then a value ≤ 0, and no power-off takes
effect meanwhile: the iteration issues exactly fork, waitpid(p, 0), m + 1 times
waitpid(-1, WNOHANG), sleep(2), and then the loop is re-entered, its next call
being the next fork. -/
theorem C13_parent_iteration (os : SvOS) (f m : Nat) (st : SvState) (p : Int)
    (hon : ∀ k, os.rebootOk k = false)
    (hfork : os.forkRet st.ops.length = p) (hp : 0 < p)
    (hpos : ∀ j, j < m → 0 < os.waitRet (st.ops.length + 2 + j))
    (hend : os.waitRet (st.ops.length + 2 + m) ≤ 0)
    (hfuel : m + 1 ≤ f) :
    ∃ st1, supervise os (f + 1) st = supervise os f st1 ∧
      st1.ops = st.ops ++ [SvCall.fork, SvCall.waitpid p 0] ++
        List.replicate (m + 1) (SvCall.waitpid (-1) 1) ++ [SvCall.sleep 2] ∧
      st1.handlers = st.handlers ∧
      ∀ g, ((supervise os (g + 1) st1).1.ops)[st1.ops.length]? = some SvCall.fork := by
  obtain ⟨sa, ha, ha1, ha2, ha3, _⟩ := sv_fork_on os st hon
  obtain ⟨sb, hb, hb1, _, hb3, _⟩ := sv_waitpid_on os sa p 0 hon
  have hblen : sb.ops.length = st.ops.length + 2 := by simp [hb1, ha1]
  obtain ⟨sc, hc, hc1, _, hc3⟩ := reap_sweep_reaps os hon
    ((List.range m).map (fun j => os.waitRet (sb.ops.length + j))) f sb
    (by
      intro z hz
      obtain ⟨j, hj, rfl⟩ := List.mem_map.1 hz
      rw [hblen]
      exact hpos j (List.mem_range.1 hj))
    (by
      intro j hj
      have hj2 : j < m := by simpa using hj
      simp [List.getElem?_map, List.getElem?_range hj2])
    (by simpa [hblen] using hend)
    (by simpa using hfuel)
  obtain ⟨sd, hd, hd1, hd3, _⟩ := sv_sleep_on os sc 2 hon
  refine ⟨sd, ?_, ?_, ?_, fun g => supervise_starts_with_fork os hon g sd⟩
  · have hret : sa.ret = p := by rw [ha2, hfork]
    have h1 : ¬ sa.ret < 0 := by omega
    have h2 : ¬ sa.ret = 0 := by omega
    rw [hret] at h1 h2
    conv_lhs => unfold supervise
    rw [ha]
    simp only [hret, h1, h2, if_false, hb, hc, hd]
  · rw [hd1, hc1, hb1, ha1]
    simp [WNOHANG]
  · rw [hd3, hc3, hb3, ha3]

/-- C13 at a sample input: the second iteration of `sampleSvOS` (fork returns
77, two orphans are reaped). -/
theorem C13_parent_iteration_witness :
    ∃ st1, supervise sampleSvOS (3 + 1) sampleLoopState = supervise sampleSvOS 3 st1 ∧
      st1.ops = sampleLoopState.ops ++ [SvCall.fork, SvCall.waitpid 77 0] ++
        List.replicate (2 + 1) (SvCall.waitpid (-1) 1) ++ [SvCall.sleep 2] ∧
      st1.handlers = sampleLoopState.handlers ∧
      ∀ g, ((supervise sampleSvOS (g + 1) st1).1.ops)[st1.ops.length]? = some SvCall.fork :=
  C13_parent_iteration sampleSvOS 3 2 sampleLoopState 77 (fun _ => rfl) (by decide) (by decide)
    (by intro j hj; interval_cases j <;> decide) (by decide) (by decide)

/-- C14. When the descendants that have terminated and are not yet reaped are
the list Z (positive pids, handed out one per successful call) and the call
after the last of them returns a value ≤ 0, the sweep ends after exactly
|Z| + 1 calls of waitpid(-1, WNOHANG), whatever number of iterations at least
|Z| + 1 is observed, and every element of Z has been reaped. -/
theorem C14_sweep_reaps_all (os : SvOS) (Z : List Int) (f : Nat) (st : SvState)
    (hon : ∀ k, os.rebootOk k = false)
    (hpos : ∀ z ∈ Z, 0 < z)
    (hret : ∀ j, j < Z.length → Z[j]? = some (os.waitRet (st.ops.length + j)))
    (hend : os.waitRet (st.ops.length + Z.length) ≤ 0)
    (hfuel : Z.length + 1 ≤ f) :
    ∃ st1, reap_sweep os f st = SvStep.cont st1 ∧
      st1.ops = st.ops ++ List.replicate (Z.length + 1) (SvCall.waitpid (-1) 1) ∧
      st1.reaped = st.reaped ++ Z := by
  obtain ⟨st1, h, h1, h2, _⟩ := reap_sweep_reaps os hon Z f st hpos hret hend hfuel
  exact ⟨st1, h, by simpa [WNOHANG] using h1, h2⟩

/-- C14 at a sample input: two orphans, pids 5 and 6. -/
theorem C14_sweep_reaps_all_witness :
    ∃ st1, reap_sweep sampleSvOS 4 sampleSweepState = SvStep.cont st1 ∧
      st1.ops = sampleSweepState.ops ++ List.replicate (2 + 1) (SvCall.waitpid (-1) 1) ∧
      st1.reaped = sampleSweepState.reaped ++ [5, 6] :=
  C14_sweep_reaps_all sampleSvOS [5, 6] 4 sampleSweepState (fun _ => rfl) (by decide)
    (by intro j hj; simp at hj; interval_cases j <;> decide) (by decide) (by decide)

/-- C15. At the head of the loop, when the next n calls of `fork` return a
negative value (and no power-off takes effect meanwhile), the supervisor issues
exactly n times the pair fork, sleep(5), nothing else (no exec, no wait, no
exit), re-enters the loop, and its next call is one more fork: n sleeps of 5
seconds and n + 1 attempts, for every n. -/
theorem C15_fork_failure_retry (os : SvOS) (n f : Nat) (st : SvState)
    (hon : ∀ k, os.rebootOk k = false)
    (hfail : ∀ j, j < n → os.forkRet (st.ops.length + 2 * j) < 0) :
    ∃ st1, supervise os (f + n) st = supervise os f st1 ∧
      st1.ops = st.ops ++ retryCalls n ∧
      (retryCalls n).count SvCall.fork = n ∧ (retryCalls n).count (SvCall.sleep 5) = n ∧
      (retryCalls n).length = 2 * n ∧
      ∀ g, ((supervise os (g + 1) st1).1.ops)[st1.ops.length]? = some SvCall.fork := by
  obtain ⟨st1, h, h1, _⟩ := supervise_retry os hon n f st hfail
  obtain ⟨c1, c2, c3⟩ := retryCalls_count n
  exact ⟨st1, h, h1, c1, c2, c3, fun g => supervise_starts_with_fork os hon g st1⟩

/-- C15 at a sample input: the first `fork` of `sampleSvOS` fails. -/
theorem C15_fork_failure_retry_witness :
    ∃ st1, supervise sampleSvOS (2 + 1) sampleInstalledState = supervise sampleSvOS 2 st1 ∧
      st1.ops = sampleInstalledState.ops ++ retryCalls 1 ∧
      (retryCalls 1).count SvCall.fork = 1 ∧ (retryCalls 1).count (SvCall.sleep 5) = 1 ∧
      (retryCalls 1).length = 2 * 1 ∧
      ∀ g, ((supervise sampleSvOS (g + 1) st1).1.ops)[st1.ops.length]? = some SvCall.fork :=
  C15_fork_failure_retry sampleSvOS 1 2 sampleInstalledState (fun _ => rfl)
    (by intro j hj; interval_cases j; decide)

/-- C16. Every `fork` of the supervisor comes after its first three calls,
which are getpid, signal(SIGTERM, h) and signal(SIGINT, h) with one and the same
handler h = handle_shutdown_signal; and a run of that handler, whatever the
signal number and the state, issues exactly the message, one sync and then one
reboot(RB_POWER_OFF). -/
theorem C16_handler_installed_and_syncs (os : SvOS) (fuel : Nat)
    (argv environ : List (List Char)) :
    (∀ i, ((init_main os fuel argv environ).1.ops)[i]? = some SvCall.fork →
      3 ≤ i ∧ (init_main os fuel argv environ).1.ops.take 3 =
        [SvCall.getpid, SvCall.signal 15 Handler.handle_shutdown_signal,
          SvCall.signal 2 Handler.handle_shutdown_signal]) ∧
    (∀ (st : SvState) (sig : Nat),
      (handle_shutdown_signal os st sig).state.trace = st.trace ++
        [SvCall.printf "\nInit: Shutdown signal received. Powering off.\n".toList,
          SvCall.sync, SvCall.reboot 0x4321fedc]) := by
  constructor
  · intro i hi
    rcases init_main_setup os fuel argv environ with h | h
    · exact absurd rfl (h SvCall.fork (List.getElem?_mem hi))
    · constructor
      · by_contra hlt
        have hlt : i < 3 := by omega
        rw [Extends.getElem? h i (by simpa using hlt)] at hi
        interval_cases i <;> simp at hi
      · have := Extends.take h
        simpa [SIGTERM, SIGINT] using this
  · intro st sig
    rw [handle_shutdown_signal_trace]
    split_ifs <;> simp [SvStep.state, RB_POWER_OFF]

/-- C16 at a sample input: the first `fork` of `sampleSvOS` is call number 3. -/
theorem C16_handler_installed_and_syncs_witness :
    ((init_main sampleSvOS 2 [] []).1.ops)[3]? = some SvCall.fork ∧
    (3 ≤ 3 ∧ (init_main sampleSvOS 2 [] []).1.ops.take 3 =
      [SvCall.getpid, SvCall.signal 15 Handler.handle_shutdown_signal,
        SvCall.signal 2 Handler.handle_shutdown_signal]) :=
  ⟨by decide, (C16_handler_installed_and_syncs sampleSvOS 2 [] []).1 3 (by decide)⟩

/-- C17 fails as stated: SIGTERM arrives while the first session runs, the
handler issues sync and reboot(RB_POWER_OFF), the request does not take effect,
the handler returns, and the loop goes on: waitpid, the sweep, sleep(2) and the
next fork follow the `reboot` request in the trace. -/
theorem C17_counterexample :
    (init_main (sigtermSvOS false) 2 [] []).1.trace.take 11 =
      [SvCall.getpid, SvCall.signal SIGTERM Handler.handle_shutdown_signal,
        SvCall.signal SIGINT Handler.handle_shutdown_signal, SvCall.fork,
        SvCall.printf "\nInit: Shutdown signal received. Powering off.\n".toList,
        SvCall.sync, SvCall.reboot RB_POWER_OFF,
        SvCall.waitpid 9 0, SvCall.waitpid (-1) WNOHANG, SvCall.sleep 2, SvCall.fork] := by
  decide

/-- C17, amended. In every run of the supervisor, every `reboot` request in the
trace is the handler's: it asks for the power-off and comes right after the
handler's message and its `sync`.  When the request takes effect, it is the
last event of the run, which ends powered off: no fork, waitpid or sleep of the
loop follows.  When it does not take effect, `reboot` returns, the handler
returns, and the next event is a call of the main program: the supervisor goes
on where the signal had arrived. -/
theorem C17_power_off_request_ends_run_or_returns (os : SvOS) (fuel : Nat)
    (argv environ : List (List Char)) (i c : Nat)
    (hev : ((init_main os fuel argv environ).1.trace)[i]? = some (SvCall.reboot c)) :
    c = RB_POWER_OFF ∧ 2 ≤ i ∧
    ((init_main os fuel argv environ).1.trace)[i - 1]? = some SvCall.sync ∧
    ((init_main os fuel argv environ).1.trace)[i - 2]? =
      some (SvCall.printf "\nInit: Shutdown signal received. Powering off.\n".toList) ∧
    (os.rebootOk i = true →
      (init_main os fuel argv environ).2 = SvOutcome.poweredOff ∧
      (init_main os fuel argv environ).1.trace.length = i + 1) ∧
    (os.rebootOk i = false →
      ∃ next, ((init_main os fuel argv environ).1.trace)[i + 1]? = some next ∧
        next.isMainCall = true) := by
  obtain ⟨hc, h2, h3, h4, h5⟩ := init_main_shaped os fuel argv environ i c hev
  refine ⟨hc, h2, h3, h4, ?_, h5⟩
  intro hok
  have hoff : powerOffAt os (init_main os fuel argv environ).1.trace i = true := by
    simp only [powerOffAt, hev, hok]
  exact ends_of_powerOffAt os _ _ (init_main_inv os fuel argv environ) i hoff

set_option maxRecDepth 100000 in
/-- C17 (amended) at sample inputs: SIGTERM arrives while the first session
runs; with a `reboot` that takes effect the request is the last event, with one
that fails the blocking wait follows it. -/
theorem C17_power_off_request_ends_run_or_returns_witness :
    ((init_main (sigtermSvOS true) 2 [] []).1.trace)[6]? = some (SvCall.reboot RB_POWER_OFF) ∧
    ((init_main (sigtermSvOS true) 2 [] []).2 = SvOutcome.poweredOff ∧
      (init_main (sigtermSvOS true) 2 [] []).1.trace.length = 6 + 1) ∧
    ((init_main (sigtermSvOS false) 2 [] []).1.trace)[6]? =
      some (SvCall.reboot RB_POWER_OFF) ∧
    (∃ next, ((init_main (sigtermSvOS false) 2 [] []).1.trace)[6 + 1]? = some next ∧
      next.isMainCall = true) ∧
    ((init_main (sigtermSvOS false) 2 [] []).1.trace)[6 + 1]? = some (SvCall.waitpid 9 0) :=
  ⟨by decide,
    (C17_power_off_request_ends_run_or_returns (sigtermSvOS true) 2 [] [] 6 RB_POWER_OFF
      (by decide)).2.2.2.2.1 rfl,
    by decide,
    (C17_power_off_request_ends_run_or_returns (sigtermSvOS false) 2 [] [] 6 RB_POWER_OFF
      (by decide)).2.2.2.2.2 rfl,
    by decide⟩

/-- C18. At the head of the loop, when `fork` returns 0 (and no power-off takes
effect), the process issues fork and then execve of "/TinyDOS/system32/tdsh"
with the argument vector ["/TinyDOS/system32/tdsh"] and the environment
["PATH=/TinyDOS/system32"], and the run ends there: replaced by the shell, or
exit status 1 when execve returns; no further call is issued.  The run of
`main` does not depend on its own arguments and environment. -/
theorem C18_child_execs_shell (os : SvOS) (f : Nat) (st : SvState)
    (hon : ∀ k, os.rebootOk k = false)
    (hchild : os.forkRet st.ops.length = 0) :
    (∃ st1, supervise os (f + 1) st =
        (st1, if os.execOk (st.ops.length + 1) then SvOutcome.replaced
              else SvOutcome.exited 1) ∧
      st1.ops = st.ops ++ [SvCall.fork,
        SvCall.execve "/TinyDOS/system32/tdsh".toList ["/TinyDOS/system32/tdsh".toList]
          ["PATH=/TinyDOS/system32".toList]]) ∧
    (∀ (fuel : Nat) (argv environ : List (List Char)),
      init_main os fuel argv environ = init_main os fuel [] []) := by
  constructor
  · obtain ⟨sa, ha, ha1, ha2, _, _⟩ := sv_fork_on os st hon
    obtain ⟨sb, hb1, _, hb⟩ := sv_execve_on os sa SHELL_PATH [SHELL_PATH]
      ["PATH=/TinyDOS/system32".toList] hon
    have hret : sa.ret = 0 := by rw [ha2, hchild]
    have hlen : sa.ops.length = st.ops.length + 1 := by simp [ha1]
    refine ⟨sb, ?_, ?_⟩
    · conv_lhs => unfold supervise
      rw [ha]
      simp only [hret, lt_irrefl, if_false, if_true, hb, hlen]
      split_ifs <;> rfl
    · rw [hb1, ha1]
      simp [SHELL_PATH]
  · intro fuel argv environ
    rfl

/-- C18 at a sample input: the first `fork` returns 0 and `execve` fails. -/
theorem C18_child_execs_shell_witness :
    ∃ st1, supervise (quietSvOS 1 (fun _ => 0) (fun _ => 0)) (0 + 1) sampleInstalledState =
        (st1, if (quietSvOS 1 (fun _ => 0) (fun _ => 0)).execOk
                (sampleInstalledState.ops.length + 1) then SvOutcome.replaced
              else SvOutcome.exited 1) ∧
      st1.ops = sampleInstalledState.ops ++ [SvCall.fork,
        SvCall.execve "/TinyDOS/system32/tdsh".toList ["/TinyDOS/system32/tdsh".toList]
          ["PATH=/TinyDOS/system32".toList]] :=
  (C18_child_execs_shell (quietSvOS 1 (fun _ => 0) (fun _ => 0)) 0 sampleInstalledState
    (fun _ => rfl) (by decide)).1

/-- C19. When the first token of the line (at most 255 characters), after
normalisation, is none of the built-in names, the pass forks exactly once.  In
the child (fork returned 0) it calls load_and_run_elf with the resolved path
(the normalised token itself when it starts with a slash, /TinyDOS/System64/
followed by it otherwise) and with the first token as typed; the child ends as
that call does, and with exit status 1 in place of a return of the call, as
`load_and_run_elf(...); exit(1);` does for every result of the call.  In the
parent (fork returned a positive value) it then waits exactly once and prompts
again; when fork fails it reports the failure and prompts again, and the loader
is not invoked. -/
theorem C19_external_command (env : ShEnv) (input token : List Char) (rest : List (List Char))
    (htok : tokenize (strip_newline input) = token :: rest)
    (hfit : token.length ≤ 255)
    (hext : normalize_path_to_linux token ∉ builtinNames) :
    shell_command env input =
      (if env.forkRet = 0 then
        ([ShCall.fork],
          ShEnd.child (resolve_full_path (normalize_path_to_linux token)) token
            (match load_and_run_elf env.os env.cc env.regs
                (resolve_full_path (normalize_path_to_linux token)) token with
             | (st, Outcome.returned) => (st, Outcome.exit 1)
             | r => r))
      else if env.forkRet > 0 then ([ShCall.fork, ShCall.wait], ShEnd.loop)
      else ([ShCall.fork, ShCall.perror "shell: fork".toList], ShEnd.loop)) ∧
    resolve_full_path (normalize_path_to_linux token) =
      (if (normalize_path_to_linux token).head? = some '/' then normalize_path_to_linux token
       else "/TinyDOS/System64/".toList ++ normalize_path_to_linux token) ∧
    (∀ st, exit_if_returned (st, Outcome.returned) = (st, Outcome.exit 1)) ∧
    (∀ st s, exit_if_returned (st, Outcome.exit s) = (st, Outcome.exit s)) ∧
    (∀ st cpu t, exit_if_returned (st, Outcome.jump cpu t) = (st, Outcome.jump cpu t)) := by
  have hne : ¬ (strip_newline input).length = 0 := by
    intro h
    have : strip_newline input = [] := List.length_eq_zero.1 h
    rw [this, tokenize_nil] at htok
    cases htok
  have horig : save_original_command token = token := by
    unfold save_original_command CMD_BUF_SIZE
    exact List.take_of_length_le (by omega)
  have hnlen : (normalize_path_to_linux token).length ≤ 255 := by
    rw [normalize_length]
    split_ifs <;> omega
  refine ⟨?_, ?_, fun _ => rfl, fun _ _ => rfl, fun _ _ _ => rfl⟩
  · simp only [builtinNames, List.map, List.mem_cons, List.mem_singleton, not_or,
      List.not_mem_nil, not_false_eq_true, and_true] at hext
    obtain ⟨h1, h2, h3, h4, h5, h6, h7, h8, h9, h10, h11, h12, h13, h14, h15, h16, h17, h18,
      h19, h20, h21, h22, h23, h24⟩ := hext
    unfold shell_command
    simp only [hne, if_false, htok, horig, h1, h2, h3, h4, h5, h6, h7, h8, h9, h10, h11, h12,
      h13, h14, h15, h16, h17, h18, h19, h20, h21, h22, h23, h24, or_self]
    rfl
  · by_cases habs : (normalize_path_to_linux token).head? = some '/'
    · rw [if_pos habs]
      unfold resolve_full_path
      rw [if_pos habs]
      exact List.take_of_length_le (by unfold PATH_MAX_LEN; omega)
    · rw [if_neg habs]
      exact resolve_full_path_bare _ hnlen habs

set_option maxRecDepth 100000 in
/-- C19 at sample inputs: the line `prog arg` in the child (fork returns 0), in
the parent (fork returns 42) and with a failed fork (fork returns -1). -/
theorem C19_external_command_witness :
    tokenize (strip_newline "prog arg\n".toList) = ["prog".toList, "arg".toList] ∧
    shell_command (sampleShEnv 0) "prog arg\n".toList =
      ([ShCall.fork], ShEnd.child "/TinyDOS/System64/prog".toList "prog".toList
        (load_and_run_elf (niceOS samplePath imageOneSegment) sampleOperands sampleRegs
          "/TinyDOS/System64/prog".toList "prog".toList)) ∧
    shell_command (sampleShEnv 42) "prog arg\n".toList =
      ([ShCall.fork, ShCall.wait], ShEnd.loop) ∧
    shell_command (sampleShEnv (-1)) "prog arg\n".toList =
      ([ShCall.fork, ShCall.perror "shell: fork".toList], ShEnd.loop) := by
  refine ⟨by decide, ?_, ?_, ?_⟩
  · rw [(C19_external_command (sampleShEnv 0) "prog arg\n".toList "prog".toList
      ["arg".toList] (by decide) (by decide) (by decide)).1]
    rfl
  · rw [(C19_external_command (sampleShEnv 42) "prog arg\n".toList "prog".toList
      ["arg".toList] (by decide) (by decide) (by decide)).1]
    rfl
  · rw [(C19_external_command (sampleShEnv (-1)) "prog arg\n".toList "prog".toList
      ["arg".toList] (by decide) (by decide) (by decide)).1]
    rfl

/-- C20. For a normalised command of at most 255 characters the path handed to
the loader is the command itself when it starts with '/', and
"/TinyDOS/System64/" followed by the command otherwise; it is not cut and, with
its terminating NUL, fits the buffer of 1024 bytes. -/
theorem C20_resolved_path (c : List Char) (hlen : c.length ≤ 255) :
    (∀ r, c = '/' :: r → resolve_full_path c = c) ∧
    ((¬ ∃ r, c = '/' :: r) → resolve_full_path c = "/TinyDOS/System64/".toList ++ c) ∧
    (resolve_full_path c).length + 1 ≤ 1024 := by
  have hpre : "/TinyDOS/System64/".toList.length = 18 := by decide
  have h1 : c.take (PATH_MAX_LEN - 1) = c :=
    List.take_of_length_le (by unfold PATH_MAX_LEN; omega)
  have h2 : ("/TinyDOS/System64/".toList ++ c).take (PATH_MAX_LEN - 1) =
      "/TinyDOS/System64/".toList ++ c :=
    List.take_of_length_le (by rw [List.length_append, hpre]; unfold PATH_MAX_LEN; omega)
  refine ⟨?_, ?_, ?_⟩
  · intro r hr
    unfold resolve_full_path
    rw [if_pos (by rw [hr]; rfl), h1]
  · intro hno
    unfold resolve_full_path
    rw [if_neg, h2]
    intro hh
    cases c with
    | nil => simp at hh
    | cons x xs =>
      simp only [List.head?_cons, Option.some.injEq] at hh
      exact hno ⟨xs, by rw [hh]⟩
  · unfold resolve_full_path
    split_ifs
    · rw [h1]; omega
    · rw [h2, List.length_append, hpre]; omega

/-- C20 at a sample input: a bare name and an absolute path. -/
theorem C20_resolved_path_witness :
    resolve_full_path "snake".toList = "/TinyDOS/System64/snake".toList ∧
    resolve_full_path "/bin/ls".toList = "/bin/ls".toList :=
  ⟨by
    have h := (C20_resolved_path "snake".toList (by decide)).2.1 (by
      intro ⟨r, hr⟩
      cases hr)
    simpa using h,
   (C20_resolved_path "/bin/ls".toList (by decide)).1 "bin/ls".toList (by decide)⟩

set_option maxRecDepth 100000 in
/-- C21. The pass of the command loop for the line `exit` or `shutdown` prints
"Shutting down system..." and leaves the loop (after which `main` returns 0):
it issues no `reboot` call and no `sync`, in every environment. -/
theorem C21_exit_only_leaves_the_loop (env : ShEnv) :
    shell_command env "exit\n".toList =
      ([ShCall.printf "Shutting down system...\n".toList], ShEnd.leave) ∧
    shell_command env "shutdown\n".toList =
      ([ShCall.printf "Shutting down system...\n".toList], ShEnd.leave) ∧
    (shell_command env "exit\n".toList).1.any ShCall.isReboot = false ∧
    (shell_command env "shutdown\n".toList).1.any ShCall.isReboot = false ∧
    ShCall.sync ∉ (shell_command env "exit\n".toList).1 := by
  have h1 : shell_command env "exit\n".toList =
      ([ShCall.printf "Shutting down system...\n".toList], ShEnd.leave) := by
    unfold shell_command
    have ht : tokenize (strip_newline "exit\n".toList) = ["exit".toList] := by decide
    have hl : ¬ (strip_newline "exit\n".toList).length = 0 := by decide
    simp only [hl, if_false, ht]
    have hn : normalize_path_to_linux "exit".toList = "exit".toList := by decide
    simp only [hn]
    rfl
  have h2 : shell_command env "shutdown\n".toList =
      ([ShCall.printf "Shutting down system...\n".toList], ShEnd.leave) := by
    unfold shell_command
    have ht : tokenize (strip_newline "shutdown\n".toList) = ["shutdown".toList] := by decide
    have hl : ¬ (strip_newline "shutdown\n".toList).length = 0 := by decide
    simp only [hl, if_false, ht]
    have hn : normalize_path_to_linux "shutdown".toList = "shutdown".toList := by decide
    simp only [hn]
    rfl
  rw [h1, h2]
  exact ⟨rfl, rfl, by decide, by decide, by decide⟩

set_option maxRecDepth 100000 in
/-- C22. On `imageHugeFilesz` (p_filesz = 2^64 - 1), when the read of the
segment's bytes fails (returns -1), the loader does not exit: the comparison of
-1 with p_filesz finds them equal, the final protection is applied, the stack is
mapped, and the run ends with the jump. -/
theorem C22_failed_copy_passes_for_all_ones :
    (readErrorOS samplePath imageHugeFilesz 6).readResp 6 = ReadResp.error ∧
    ReadResp.error.ret 0xFFFFFFFFFFFFFFFF 4 = -1 ∧
    toU64 (-1) = 0xFFFFFFFFFFFFFFFF ∧
    (load_and_run_elf (readErrorOS samplePath imageHugeFilesz 6) sampleOperands sampleRegs
      samplePath "prog".toList).1.trace =
      [Call.openRd samplePath, Call.read 64 none, Call.lseek 64, Call.read 56 none,
        Call.mmap 0x400000 8 7 0x32, Call.lseek 120,
        Call.read 0xFFFFFFFFFFFFFFFF (some 0x400000), Call.mprotect 0x400000 8 5,
        Call.close, Call.mmap 0x700000000000 0x200000 3 0x32] ∧
    (load_and_run_elf (readErrorOS samplePath imageHugeFilesz 6) sampleOperands sampleRegs
      samplePath "prog".toList).2.target?.isSome = true ∧
    (load_and_run_elf (readErrorOS samplePath imageHugeFilesz 6) sampleOperands sampleRegs
      samplePath "prog".toList).2.status? = none := by
  decide

/-- C24. When the run ends with the jump, each of rax, rbx, rcx, rdx, rsi, rdi,
rbp, r8, ..., r15 holds zero there, rsp holds the stack top 0x700000200000 (for
operands in two different registers), and the run from any other register
state of the loader ends with the same jump: same registers, same target. -/
theorem C24_registers_cleared (os : OS) (cc : AsmOperands) (regs1 regs2 : Cpu)
    (filepath original_command : List Char)
    (hjump : (load_and_run_elf os cc regs1 filepath original_command).2.target?.isSome = true) :
    ∃ cpu t, (load_and_run_elf os cc regs1 filepath original_command).2 = Outcome.jump cpu t ∧
      (load_and_run_elf os cc regs2 filepath original_command).2 = Outcome.jump cpu t ∧
      (∀ r ∈ allocatable, cpu r = 0) ∧
      (∀ r, r ≠ Reg.rsp → cpu r = 0) ∧
      (cc.op0 ≠ cc.op1 → cpu Reg.rsp = 0x700000200000) := by
  obtain ⟨cpu, t, hj⟩ := Outcome.jump_of_target _ hjump
  obtain ⟨file, st4, _, _, _, _, _, _, htr⟩ :=
    jump_inv os cc regs1 filepath original_command cpu t hj
  rw [transfer_eq] at htr
  simp only [Outcome.jump.injEq] at htr
  obtain ⟨hcpu, _⟩ := htr
  have hz : ∀ r, r ≠ Reg.rsp → cpu r = 0 := by
    intro r hr
    rw [← hcpu]
    simp [hr]
  refine ⟨cpu, t, hj, ?_, ?_, hz, ?_⟩
  · rw [← load_and_run_elf_regs_irrelevant os cc regs1 regs2]
    exact hj
  · intro r hr
    apply hz
    intro h
    subst h
    simp [allocatable] at hr
  · intro hne
    rw [← hcpu]
    simp [hne, STACK_ADDR, STACK_SIZE]

set_option maxRecDepth 100000 in
/-- C24 at a sample input: `imageOneSegment`, from the registers `sampleRegs`
and from registers that all hold 7. -/
theorem C24_registers_cleared_witness :
    ∃ cpu t, (load_and_run_elf (niceOS samplePath imageOneSegment) sampleOperands sampleRegs
        samplePath "prog".toList).2 = Outcome.jump cpu t ∧
      (load_and_run_elf (niceOS samplePath imageOneSegment) sampleOperands (fun _ => 7)
        samplePath "prog".toList).2 = Outcome.jump cpu t ∧
      (∀ r ∈ allocatable, cpu r = 0) ∧
      (∀ r, r ≠ Reg.rsp → cpu r = 0) ∧
      (sampleOperands.op0 ≠ sampleOperands.op1 → cpu Reg.rsp = 0x700000200000) :=
  C24_registers_cleared (niceOS samplePath imageOneSegment) sampleOperands sampleRegs
    (fun _ => 7) samplePath "prog".toList (by decide)

/-- C25. Take two images of the same length, with the same header, whose
program-header records at the offsets the loader examines differ in p_vaddr
only, so that the range of a segment may intersect the stack region in one and
not in the other.  Under the same answers of the operating system the two runs
end alike (same exit status, or the same jump), issue the same calls up to the
address argument and print the same text.  The same holds entry by entry:
moving a loadable entry to any other address v changes neither whether the run
goes on, nor the exit status, nor the file position, nor the calls, nor the
text printed.  And when the run ends with the jump, every byte of
[0x700000000000, 0x700000200000) reads zero with protection read+write and no
execute, whatever a segment had loaded there. -/
theorem C25_no_stack_collision_check (os : OS) (cc : AsmOperands) (regs : Cpu)
    (filepath original_command : List Char) (f g : List Nat)
    (hopen : os.fs filepath = some f)
    (hlen : g.length = f.length)
    (hhdr : g.take 64 = f.take 64)
    (hrec : ∀ e ∈ (load_and_run_elf os cc regs filepath original_command).1.examined,
      relocatedAt g e = true) :
    ((load_and_run_elf (os.withFile filepath g) cc regs filepath original_command).2 =
        (load_and_run_elf os cc regs filepath original_command).2 ∧
      (load_and_run_elf (os.withFile filepath g) cc regs filepath original_command).1.trace.map
          Call.shape =
        (load_and_run_elf os cc regs filepath original_command).1.trace.map Call.shape ∧
      (load_and_run_elf (os.withFile filepath g) cc regs filepath original_command).1.out =
        (load_and_run_elf os cc regs filepath original_command).1.out) ∧
    (∀ (st : LState) (ph : Phdr) (v : Nat),
      (load_segment os st { ph with p_vaddr := v }).isCont = (load_segment os st ph).isCont ∧
      (load_segment os st { ph with p_vaddr := v }).status? = (load_segment os st ph).status? ∧
      (load_segment os st { ph with p_vaddr := v }).state.pos =
        (load_segment os st ph).state.pos ∧
      (load_segment os st { ph with p_vaddr := v }).state.trace.map Call.shape =
        (load_segment os st ph).state.trace.map Call.shape ∧
      (load_segment os st { ph with p_vaddr := v }).state.out =
        (load_segment os st ph).state.out) ∧
    ((load_and_run_elf os cc regs filepath original_command).2.target?.isSome = true →
      ∀ a, 0x700000000000 ≤ a → a < 0x700000200000 →
        (load_and_run_elf os cc regs filepath original_command).1.mem a = some ⟨0, 3⟩ ∧
        3 = PROT_READ ||| PROT_WRITE ∧ 3 &&& PROT_EXEC = 0) := by
  refine ⟨load_and_run_elf_same os cc regs filepath original_command f g hopen hlen hhdr hrec,
    ?_, ?_⟩
  · intro st ph v
    obtain ⟨h1, h2, h3, h4, h5, _⟩ := load_segment_vaddr_irrelevant os st ph v
    exact ⟨h1, h2, h3, h4, h5⟩
  · intro hjump a ha1 ha2
    obtain ⟨cpu, t, hj⟩ := Outcome.jump_of_target _ hjump
    obtain ⟨file, st4, _, _, _, _, hrun, hok, _⟩ :=
      jump_inv os cc regs filepath original_command cpu t hj
    refine ⟨?_, by decide, by decide⟩
    rw [hrun]
    have hl : (sys_close st4).trace.length = st4.trace.length + 1 := by simp [sys_close]
    simp only [sys_mmap, hl, hok, if_true]
    exact stack_fresh _ a (by simpa [STACK_ADDR] using ha1)
      (by simpa [STACK_ADDR, STACK_SIZE] using ha2)

set_option maxRecDepth 100000 in
/-- C25 at a sample input: `imageOneSegmentOnStack`, whose segment lies at the
bottom of the stack region, and `imageOneSegment`, the same image with the
segment at 0x400000: both runs end with the same jump, and in the first the
byte at 0x700000000000, where the segment had put 0xAA, reads zero. -/
theorem C25_no_stack_collision_check_witness :
    (imageOneSegmentOnStack.getD 120 0 = 0xAA ∧
      (parsePhdr ((imageOneSegmentOnStack.drop 64).take 56)).p_vaddr = 0x700000000000 ∧
      (parsePhdr ((imageOneSegment.drop 64).take 56)).p_vaddr = 0x400000) ∧
    (load_and_run_elf (niceOS samplePath imageOneSegmentOnStack) sampleOperands sampleRegs
      samplePath "prog".toList).2.target?.isSome = true ∧
    (load_and_run_elf ((niceOS samplePath imageOneSegmentOnStack).withFile samplePath
        imageOneSegment) sampleOperands sampleRegs samplePath "prog".toList).2 =
      (load_and_run_elf (niceOS samplePath imageOneSegmentOnStack) sampleOperands sampleRegs
        samplePath "prog".toList).2 ∧
    (load_and_run_elf (niceOS samplePath imageOneSegmentOnStack) sampleOperands sampleRegs
      samplePath "prog".toList).1.mem 0x700000000000 = some ⟨0, 3⟩ :=
  ⟨by decide, by decide,
    (C25_no_stack_collision_check (niceOS samplePath imageOneSegmentOnStack) sampleOperands
      sampleRegs samplePath "prog".toList imageOneSegmentOnStack imageOneSegment (by decide)
      (by decide) (by decide) (by decide)).1.1,
    ((C25_no_stack_collision_check (niceOS samplePath imageOneSegmentOnStack) sampleOperands
      sampleRegs samplePath "prog".toList imageOneSegmentOnStack imageOneSegment (by decide)
      (by decide) (by decide) (by decide)).2.2 (by decide) 0x700000000000 (by decide)
      (by decide)).1⟩

set_option maxRecDepth 100000 in
/-- C26 fails as stated: the supervisor's child passes PATH=/TinyDOS/system32,
while the interpreter resolves the bare name `snake` to
/TinyDOS/System64/snake; the two directories differ. -/
theorem C26_counterexample :
    (execveEnvp (init_main (quietSvOS 1 (fun _ => 0) (fun _ => 0)) 1 [] []).1.ops).bind
      (envValue "PATH".toList) = some "/TinyDOS/system32".toList ∧
    resolve_full_path "snake".toList = "/TinyDOS/System64/".toList ++ "snake".toList ∧
    resolve_full_path "snake".toList ≠ "/TinyDOS/system32".toList ++ "/snake".toList ∧
    "/TinyDOS/system32".toList ≠ "/TinyDOS/System64".toList := by
  decide

/-- C26, amended. The value of PATH in the environment the supervisor's child
hands to `execve` is /TinyDOS/system32, the directory of the interpreter's own
binary (SHELL_PATH is that directory followed by /tdsh); the interpreter does
not take the directory of external programs from it: a bare command c of at
most 255 characters is resolved to /TinyDOS/System64/ followed by c, a path
that does not lie in the PATH directory. -/
theorem C26_path_names_shell_directory (os : SvOS) (f : Nat) (st : SvState) (c : List Char)
    (hon : ∀ k, os.rebootOk k = false)
    (hchild : os.forkRet st.ops.length = 0)
    (hlen : c.length ≤ 255)
    (hbare : c.head? ≠ some '/') :
    (execveEnvp ((supervise os (f + 1) st).1.ops.drop st.ops.length)).bind
      (envValue "PATH".toList) = some "/TinyDOS/system32".toList ∧
    SHELL_PATH = "/TinyDOS/system32".toList ++ "/tdsh".toList ∧
    resolve_full_path c = "/TinyDOS/System64/".toList ++ c ∧
    ¬ ("/TinyDOS/system32/".toList <+: resolve_full_path c) := by
  obtain ⟨sa, ha, ha1, ha2, _, _⟩ := sv_fork_on os st hon
  obtain ⟨sb, hb1, _, hb⟩ := sv_execve_on os sa SHELL_PATH [SHELL_PATH]
    ["PATH=/TinyDOS/system32".toList] hon
  have hret : sa.ret = 0 := by rw [ha2, hchild]
  have hops : (supervise os (f + 1) st).1.ops = st.ops ++ [SvCall.fork,
      SvCall.execve SHELL_PATH [SHELL_PATH] ["PATH=/TinyDOS/system32".toList]] := by
    conv_lhs => unfold supervise
    rw [ha]
    simp only [hret, lt_irrefl, if_false, if_true, hb]
    split_ifs <;> simp [hb1, ha1]
  refine ⟨?_, by decide, resolve_full_path_bare c hlen hbare, ?_⟩
  · rw [hops, List.drop_left]
    decide
  · rw [resolve_full_path_bare c hlen hbare]
    intro hpre
    have h := List.IsPrefix.take hpre 18
    have e1 : List.take 18 ("/TinyDOS/system32/".toList) = "/TinyDOS/system32/".toList := by
      decide
    have e2 : List.take 18 ("/TinyDOS/System64/".toList ++ c) = "/TinyDOS/System64/".toList := by
      rw [List.take_append_of_le_length (by decide)]
      decide
    rw [e1, e2] at h
    have h3 := List.IsPrefix.eq_of_length h (by decide)
    exact absurd h3 (by decide)

set_option maxRecDepth 100000 in
/-- C26 (amended) at a sample input: the child of `sampleInstalledState` and
the bare command `snake`. -/
theorem C26_path_names_shell_directory_witness :
    (execveEnvp ((supervise (quietSvOS 1 (fun _ => 0) (fun _ => 0)) (0 + 1)
      sampleInstalledState).1.ops.drop sampleInstalledState.ops.length)).bind
      (envValue "PATH".toList) = some "/TinyDOS/system32".toList ∧
    SHELL_PATH = "/TinyDOS/system32".toList ++ "/tdsh".toList ∧
    resolve_full_path "snake".toList = "/TinyDOS/System64/".toList ++ "snake".toList ∧
    ¬ ("/TinyDOS/system32/".toList <+: resolve_full_path "snake".toList) :=
  C26_path_names_shell_directory (quietSvOS 1 (fun _ => 0) (fun _ => 0)) 0 sampleInstalledState
    "snake".toList (fun _ => rfl) (by decide) (by decide) (by decide)

set_option maxRecDepth 100000 in
/-- C27. On the empty buffer, as `initEditor` leaves it (a window of 24 rows),
the key PAGE_UP sets the cursor row to -1 and `editorMoveCursor` then reads
`E.row[-1]`; the same for PAGE_DOWN, and in edit mode (after the key `i`).  The
cursor was in bounds before the key and is not after it. -/
theorem C27_page_key_on_empty_buffer :
    cursorInBounds (initEditor 24 80) = true ∧
    editorTurn (initEditor 24 80) (plainKey PAGE_UP) =
      EdResult.fault { initEditor 24 80 with cy := -1 } ∧
    editorTurn (initEditor 24 80) (plainKey PAGE_DOWN) =
      EdResult.fault { initEditor 24 80 with cy := -1 } ∧
    editorRun [plainKey ('i'.toNat : Int), plainKey PAGE_UP] (initEditor 24 80) =
      EdResult.fault { initEditor 24 80 with cy := -1, mode := MODE_EDIT } ∧
    cursorInBounds { initEditor 24 80 with cy := -1 } = false ∧
    ({ initEditor 24 80 with cy := -1 } : editorConfig).rowAt (-1) = none := by
  decide

/-- C28. For a path p without backslash, normalising "C:" followed by the DOS
rendering of p gives p back; the DOS rendering has the length of p and no
slash.  For every input, the normalised path has no backslash, and its length
is that of the input, less 2 exactly when the input starts with "C:" or
"c:". -/
theorem C28_dos_path_round_trip (p : List Char) (hp : BACKSLASH ∉ p) :
    normalize_path_to_linux ("C:".toList ++ format_path_for_dos p) = p ∧
    (format_path_for_dos p).length = p.length ∧
    '/' ∉ format_path_for_dos p ∧
    (∀ q, BACKSLASH ∉ normalize_path_to_linux q ∧
      (normalize_path_to_linux q).length =
        if hasDrivePrefix q then q.length - 2 else q.length) := by
  refine ⟨?_, ?_, ?_, fun q => ⟨normalize_no_backslash q, normalize_length q⟩⟩
  · have hC : "C:".toList = ['C', ':'] := rfl
    rw [hC]
    unfold normalize_path_to_linux format_path_for_dos
    simp only [List.cons_append, List.nil_append, true_or, and_self, if_true]
    by_cases hroot : p = ['/']
    · rw [if_pos hroot, hroot]
      decide
    · rw [if_neg hroot]
      exact map_slash_of_no_backslash p hp
  · unfold format_path_for_dos
    split_ifs with hroot
    · rw [hroot]; rfl
    · simp
  · unfold format_path_for_dos
    split_ifs with hroot
    · decide
    · simp only [List.mem_map, not_exists, not_and]
      intro x _ hx
      by_cases h : x = '/'
      · rw [if_pos h] at hx
        exact absurd hx (by decide)
      · rw [if_neg h] at hx
        exact h hx

set_option maxRecDepth 100000 in
/-- C28 at a sample input: the path /TinyDOS/System64. -/
theorem C28_dos_path_round_trip_witness :
    BACKSLASH ∉ "/TinyDOS/System64".toList ∧
    normalize_path_to_linux ("C:".toList ++ format_path_for_dos "/TinyDOS/System64".toList) =
      "/TinyDOS/System64".toList ∧
    (format_path_for_dos "/TinyDOS/System64".toList).length = "/TinyDOS/System64".toList.length :=
  ⟨by decide, (C28_dos_path_round_trip "/TinyDOS/System64".toList (by decide)).1,
    (C28_dos_path_round_trip "/TinyDOS/System64".toList (by decide)).2.1⟩

set_option maxRecDepth 100000 in
/-- C29. On `imageNoSegments` (valid header, e_phnum = 0, e_entry = 0x401000)
the loader issues one mapping call, the mmap of the stack, and no mprotect, and
ends with a jump; the target of the jump is 0, not e_entry, for each choice of
the operand registers. -/
theorem C29_unchecked_entry_jumps_to_zero :
    (parseEhdr (imageNoSegments.take 64)).e_entry = 0x401000 ∧
    (load_and_run_elf (niceOS samplePath imageNoSegments) sampleOperands sampleRegs samplePath
      "prog".toList).1.trace =
      [Call.openRd samplePath, Call.read 64 none, Call.lseek 64, Call.close,
        Call.mmap 0x700000000000 0x200000 3 0x32] ∧
    (load_and_run_elf (niceOS samplePath imageNoSegments) sampleOperands sampleRegs samplePath
      "prog".toList).1.examined = [] ∧
    (load_and_run_elf (niceOS samplePath imageNoSegments) sampleOperands sampleRegs samplePath
      "prog".toList).2.target? = some 0 ∧
    (∀ op0 ∈ allocatable, ∀ op1 ∈ allocatable,
      (load_and_run_elf (niceOS samplePath imageNoSegments) ⟨op0, op1⟩ sampleRegs samplePath
        "prog".toList).2.target? = some 0) := by
  decide

/-- C30. For rows without newline and not ending in a carriage return, the text
built by `editorRowsToString` is each row followed by one newline, its length
is the sum over the rows of size + 1, and `editorOpen` reads it back as exactly
these rows, in order, after the rows the buffer already had (none after
`initEditor`); no rows give the empty text, which reads back as no rows. -/
theorem C30_save_open_round_trip (E E0 : editorConfig) (filename : List Char)
    (hnl : ∀ r ∈ E.row, '\n' ∉ r) (hcr : ∀ r ∈ E.row, r.getLast? ≠ some '\r') :
    editorRowsToString E = (E.row.map (fun r => r ++ ['\n'])).flatten ∧
    editorRowsToString_totlen E = ((editorRowsToString E).length : Int) ∧
    editorRowsToString_totlen E = (E.row.map (fun r => (r.length : Int) + 1)).sum ∧
    (editorOpen E0 filename (some (editorRowsToString E))).row = E0.row ++ E.row ∧
    (E.row = [] → editorRowsToString E = []) ∧
    (editorOpen E0 filename (some [])).row = E0.row := by
  have hs : editorRowsToString E = (E.row.map (fun r => r ++ ['\n'])).flatten := by
    unfold editorRowsToString
    rw [rowsToString_foldl]
    simp
  have ht : editorRowsToString_totlen E = (E.row.map (fun r => (r.length : Int) + 1)).sum := by
    unfold editorRowsToString_totlen
    rw [totlen_foldl]
    simp
  refine ⟨hs, ?_, ht, ?_, ?_, ?_⟩
  · rw [ht, hs, join_rows_length]
  · unfold editorOpen
    simp only []
    rw [hs, editorOpenLoop_rows E.row hnl hcr]
    rw [← hs]
    have : E.row.length ≤ (editorRowsToString E).length := by
      have h := join_rows_length E.row
      rw [← hs] at h
      have h2 : (0 : Int) ≤ (E.row.map (fun r => (r.length : Int) + 1)).sum - E.row.length := by
        clear h hs ht hnl hcr
        induction E.row with
        | nil => simp
        | cons r rs ih =>
          simp only [List.map_cons, List.sum_cons, List.length_cons]
          push_cast
          omega
      omega
    omega
  · intro h
    rw [hs, h]
    rfl
  · simp [editorOpen, editorOpenLoop, getline]

set_option maxRecDepth 100000 in
/-- C30 at a sample input: three rows, one of them empty, one with a carriage
return inside. -/
theorem C30_save_open_round_trip_witness :
    (editorOpen (initEditor 24 80) "a.txt".toList
      (some (editorRowsToString
        { initEditor 24 80 with row := ["set x".toList, [], "a\rb".toList] }))).row =
      ["set x".toList, [], "a\rb".toList] ∧
    editorRowsToString { initEditor 24 80 with row := ["set x".toList, [], "a\rb".toList] } =
      "set x\n\na\rb\n".toList :=
  ⟨by
    have h := (C30_save_open_round_trip
      { initEditor 24 80 with row := ["set x".toList, [], "a\rb".toList] } (initEditor 24 80)
      "a.txt".toList (by decide) (by decide)).2.2.2.1
    simpa [initEditor] using h,
   by decide⟩

end TinyDOS
